import Mathlib

/-!
# vdk::delegate: storage, dispatch and the holder state machine

A shallow embedding of `src/src/delegate.h`.  Target types, their call
operators, their equality and their move constructors are supplied by an
environment `Env`; the header's own code (placement predicate, storage
accessors, the three dispatcher operations, the call adapters and every
public operation of `delegate`) is transcribed function by function.

Memory is typed: the holder's buffer either has indeterminate bytes, or an
object living in it, or an address written to it; objects placed out of line
live in the heap of the `World`, which also plays the memory resource and
records every allocate, deallocate, construction and teardown.
-/

namespace vdk

/-! ## Call contracts -/

/-- The const/volatile qualification of a contract (macro argument CVQUAL). -/
inductive CVQual where
  | plain
  | const
  | volatile
  | const_volatile
  deriving DecidableEq

/-- The reference qualification of a contract: none, `&` or `&&`. -/
inductive RefQual where
  | plain
  | lref
  | rref
  deriving DecidableEq

/-- The value category with which the stored target is invoked. -/
inductive ValueCat where
  | lvalue
  | rvalue
  deriving DecidableEq

/-- One of the 24 specialisations of `traits`: `R(A...) CVQUAL LRQUAL [noexcept]`. -/
structure Contract where
  cv : CVQual
  ref : RefQual
  noexcept_ : Bool
  deriving DecidableEq

/-! ## Target types and their values -/

/-- The erased target types.  `fnptr 0` is `R(*)(A...)`, `fnptr 1` is
`R(*)(A...) noexcept`, further indices are other pointer-to-function types;
`cls id` is a class type (function object, closure, binder, reference wrapper). -/
inductive Ty where
  | fnptr (sig : Nat)
  | cls (id : Nat)
  deriving DecidableEq

/-- The alias `fn_t` of a contract: `R(*)(A...)`, or `R(*)(A...) noexcept` for
the noexcept specialisations. -/
def Contract.fn_t (C : Contract) : Ty :=
  if C.noexcept_ then Ty.fnptr 1 else Ty.fnptr 0

/-- A typed value: a function pointer (address `0` is the null pointer) or an
object of a class type. -/
inductive Obj (V : Type) where
  | fp (sig : Nat) (p : Nat)
  | obj (id : Nat) (v : V)
  deriving DecidableEq

/-- The static type of a value. -/
def Obj.ty {V : Type} : Obj V → Ty
  | Obj.fp sig _ => Ty.fnptr sig
  | Obj.obj id _ => Ty.cls id

/-- What the environment says about a class type `T`. -/
structure ClassInfo (V A R E : Type) where
  /-- The value of `sizeof(T)`. -/
  size : Nat
  /-- The value of `alignof(T)`. -/
  align : Nat
  /-- The value of `std::is_nothrow_move_constructible_v<T>`. -/
  nothrow_move : Bool
  /-- The `operator==` of `T` on lvalues, when it exists and yields `bool`. -/
  equals : Option (V → V → Bool)
  /-- The exception raised by `T{ std::move(v) }`, if any (consulted only
  when the move constructor is not `noexcept`). -/
  move_raises : V → Option E
  /-- Whether a `cv T` glvalue of the given category is invocable with the
  contract's parameters and a result convertible to `R`. -/
  invocable : CVQual → ValueCat → Bool
  /-- As `invocable`, and the call is known not to throw. -/
  nothrow_invocable : CVQual → ValueCat → Bool
  /-- The call operator overload selected for a `cv T` glvalue of the given
  category: the result (or the exception raised) and the target afterwards. -/
  call : CVQual → ValueCat → V → A → Except E R × V

/-- Sizes and alignments of the pointer types the header mentions. -/
structure Abi where
  /-- Pointer to member function, `void(undef::*)()`. -/
  memfn_size : Nat
  memfn_align : Nat
  /-- Pointer to data member, `undef undef::*`. -/
  memobj_size : Nat
  memobj_align : Nat
  /-- Pointer to function, `void(*)()`. -/
  fnptr_size : Nat
  fnptr_align : Nat
  /-- Pointer to object, `undef*`. -/
  ptr_size : Nat
  ptr_align : Nat

/-- The environment of a contract `R(A...)`: the ABI, the class types, and the
behaviour of the function at each non-null function address. -/
structure Env (V A R E : Type) where
  abi : Abi
  cls : Nat → ClassInfo V A R E
  code : Nat → A → Except E R
  /-- Whether a pointer-to-function type is invocable with the contract's
  parameters and a result convertible to `R`. -/
  fn_invocable : Nat → Bool
  /-- As `fn_invocable`, and the pointee type is `noexcept`. -/
  fn_nothrow_invocable : Nat → Bool

/-! ## The buffer-sizing structure `block` and the placement predicate -/

/-- Round `x` up to a multiple of `a` (an alignment of `0` leaves `x` alone). -/
def round_up (x a : Nat) : Nat :=
  if a = 0 then x else ((x + a - 1) / a) * a

/-- The alignment of the anonymous union `{ p1; p2; p3 }` inside `block`. -/
def Abi.union_align (abi : Abi) : Nat :=
  max abi.memfn_align (max abi.memobj_align abi.fnptr_align)

/-- The size of the anonymous union `{ p1; p2; p3 }` inside `block`. -/
def Abi.union_size (abi : Abi) : Nat :=
  round_up (max abi.memfn_size (max abi.memobj_size abi.fnptr_size)) abi.union_align

/-- The value of `alignof(block)`. -/
def Abi.alignof_block (abi : Abi) : Nat :=
  max abi.union_align abi.ptr_align

/-- The value of `sizeof(block)`: the union, then `p4` at its aligned offset. -/
def Abi.sizeof_block (abi : Abi) : Nat :=
  round_up (round_up abi.union_size abi.ptr_align + abi.ptr_size) abi.alignof_block

section
variable {V A R E : Type}

/-- The value of `sizeof(T)`. -/
def Env.sizeof (Γ : Env V A R E) : Ty → Nat
  | Ty.fnptr _ => Γ.abi.fnptr_size
  | Ty.cls id => (Γ.cls id).size

/-- The value of `alignof(T)`. -/
def Env.alignof (Γ : Env V A R E) : Ty → Nat
  | Ty.fnptr _ => Γ.abi.fnptr_align
  | Ty.cls id => (Γ.cls id).align

/-- The value of `std::is_nothrow_move_constructible_v<T>`. -/
def Env.is_nothrow_move_constructible_v (Γ : Env V A R E) : Ty → Bool
  | Ty.fnptr _ => true
  | Ty.cls id => (Γ.cls id).nothrow_move

/-- The value of `std::is_pointer_v<T>`. -/
def is_pointer_v : Ty → Bool
  | Ty.fnptr _ => true
  | Ty.cls _ => false

/-- The trait `is_equality_comparable_v<T>`: `T& == T&` is well formed with type `bool`. -/
def Env.is_equality_comparable_v (Γ : Env V A R E) : Ty → Bool
  | Ty.fnptr _ => true
  | Ty.cls id => ((Γ.cls id).equals).isSome

/-- The placement predicate `is_internal_v<T>`. -/
def Env.is_internal_v (Γ : Env V A R E) (T : Ty) : Bool :=
  decide (Γ.sizeof T ≤ Γ.abi.sizeof_block) &&
  decide (Γ.alignof T ≤ Γ.abi.alignof_block) &&
  Γ.is_nothrow_move_constructible_v T

/-- The placement predicate at an object-pointer type `T*` (what `get_as<T*>` tests). -/
def Abi.is_internal_ptr (abi : Abi) : Bool :=
  decide (abi.ptr_size ≤ abi.sizeof_block) &&
  decide (abi.ptr_align ≤ abi.alignof_block)

end

/-! ## The world: heap objects, the memory resource, and the event record -/

/-- Where a `T*` obtained from `storage::get_as<T>` points: into the holder's
own buffer, or at the block with the given address. -/
inductive Place where
  | buffer
  | block (addr : Nat)
  deriving DecidableEq

/-- What the memory resource answers to one `allocate` call. -/
inductive AllocReply (E : Type) where
  | block
  | null
  | raise (e : E)

/-- The observable steps of the holder's code. -/
inductive Event where
  | allocate (size align : Nat) (result : Nat)
  | allocate_raised (size align : Nat)
  | deallocate (addr size align : Nat)
  | construct (T : Ty) (at_ : Place)
  | teardown (T : Ty) (at_ : Place)
  deriving DecidableEq

/-- The state outside the holders.  `heap a` is the object living in the block
at address `a`; `oracle n` is the memory resource's answer to its `n`-th
`allocate` call; a successful call hands out the address `brk + 1`, which no
earlier call returned; `trace` lists the events so far, oldest first. -/
structure World (V E : Type) where
  heap : Nat → Option (Obj V)
  brk : Nat
  calls : Nat
  oracle : Nat → AllocReply E
  trace : List Event

/-- The bytes of `storage::data_`. -/
inductive storage (V : Type) where
  | raw
  | inplace (o : Obj V)
  | address (a : Nat)
  deriving DecidableEq

section
variable {V A R E : Type}

/-- Append an event to the record. -/
def World.log (W : World V E) (ev : Event) : World V E :=
  { W with trace := W.trace ++ [ev] }

/-- The call `memory()->allocate(size, align)`: the address returned (`0` for a
null result) or the exception raised. -/
def World.allocate (W : World V E) (size align : Nat) : Except E Nat × World V E :=
  match W.oracle W.calls with
  | AllocReply.block =>
      (Except.ok (W.brk + 1),
        { W with brk := W.brk + 1, calls := W.calls + 1,
                 trace := W.trace ++ [Event.allocate size align (W.brk + 1)] })
  | AllocReply.null =>
      (Except.ok 0,
        { W with calls := W.calls + 1,
                 trace := W.trace ++ [Event.allocate size align 0] })
  | AllocReply.raise e =>
      (Except.error e,
        { W with calls := W.calls + 1,
                 trace := W.trace ++ [Event.allocate_raised size align] })

/-- The call `memory()->deallocate(addr, size, align)`. -/
def World.deallocate (W : World V E) (addr size align : Nat) : World V E :=
  W.log (Event.deallocate addr size align)

/-- A placement-new of `o` into the block at `addr`. -/
def World.construct_at (W : World V E) (addr : Nat) (o : Obj V) : World V E :=
  { W with heap := fun a => if a = addr then some o else W.heap a,
           trace := W.trace ++ [Event.construct o.ty (Place.block addr)] }

/-- The call `p->~T()` on the object in the block at `addr`. -/
def World.teardown_at (W : World V E) (T : Ty) (addr : Nat) : World V E :=
  { W with heap := fun a => if a = addr then none else W.heap a,
           trace := W.trace ++ [Event.teardown T (Place.block addr)] }

/-! ## `memory_owner` -/

/-- The helper class `memory_owner`. -/
structure memory_owner where
  addr_ : Nat
  size_ : Nat
  align_ : Nat
  deriving DecidableEq

/-- The constructor `memory_owner(size, align)`. -/
def memory_owner.ctor (size align : Nat) (W : World V E) :
    Except E memory_owner × World V E :=
  match W.allocate size align with
  | (Except.ok a, W1) => (Except.ok { addr_ := a, size_ := size, align_ := align }, W1)
  | (Except.error e, W1) => (Except.error e, W1)

/-- The destructor `~memory_owner()`. -/
def memory_owner.dtor (m : memory_owner) (W : World V E) : World V E :=
  if m.addr_ ≠ 0 then W.deallocate m.addr_ m.size_ m.align_ else W

/-- The accessor `memory_owner::get`. -/
def memory_owner.get (m : memory_owner) : Nat := m.addr_

/-- The member `memory_owner::release`. -/
def memory_owner.release (m : memory_owner) : memory_owner :=
  { m with addr_ := 0 }

/-! ## `storage` accessors -/

/-- The accessor `storage::get_as<T>` (all four cv overloads have this body):
the buffer itself for an inline type, the address stored in the buffer
otherwise.  `none` when the buffer holds no address to read. -/
def storage.get_as (Γ : Env V A R E) (T : Ty) (s : storage V) : Option Place :=
  if Γ.is_internal_v T then some Place.buffer
  else
    match s with
    | storage.address a => some (Place.block a)
    | _ => none

/-- Reading `*p` for a `T*` obtained from `get_as<T>`: the object of type `T`
living there, `none` when there is none. -/
def deref (W : World V E) (s : storage V) (T : Ty) : Place → Option (Obj V)
  | Place.buffer =>
      match s with
      | storage.inplace o => if o.ty = T then some o else none
      | _ => none
  | Place.block a =>
      match W.heap a with
      | some o => if o.ty = T then some o else none
      | none => none

/-- The target through `get_as<T>`: `*self.get_as<T>()`. -/
def storage.target (Γ : Env V A R E) (T : Ty) (s : storage V) (W : World V E) :
    Option (Obj V) :=
  match s.get_as Γ T with
  | some p => deref W s T p
  | none => none

/-- The statement `*(get_as<T*>()) = addr`: the address goes into the buffer
itself, object pointers being inline-eligible. -/
def storage.put_address (Γ : Env V A R E) (s : storage V) (addr : Nat) : storage V :=
  if Γ.abi.is_internal_ptr then storage.address addr else s

end

/-! ## The dispatcher: `move`, `compare`, `destroy` and `vtable` -/

section
variable {V A R E : Type}

/-- The comparison `a == b` of two values of one target type: pointer identity
for function pointers, the type's own `operator==` for class objects. -/
def Env.equals (Γ : Env V A R E) : Obj V → Obj V → Bool
  | Obj.fp _ p, Obj.fp _ q => decide (p = q)
  | Obj.obj i v, Obj.obj _ w =>
      match (Γ.cls i).equals with
      | some eq => eq v w
      | none => false
  | _, _ => false

/-- The exception raised by `F{ std::move(func) }`, if any.  A `noexcept` move
constructor cannot let one escape. -/
def Env.move_raises (Γ : Env V A R E) : Obj V → Option E
  | Obj.fp _ _ => none
  | Obj.obj id v => if (Γ.cls id).nothrow_move then none else (Γ.cls id).move_raises v

/-- Calling a value as a `cv T` glvalue of the given category: the outcome and
the value afterwards. -/
def Env.call_obj (Γ : Env V A R E) (cv : CVQual) (cat : ValueCat) (o : Obj V) (args : A) :
    Except E R × Obj V :=
  match o with
  | Obj.fp sig p => (Γ.code p args, Obj.fp sig p)
  | Obj.obj id v => (((Γ.cls id).call cv cat v args).1, Obj.obj id ((Γ.cls id).call cv cat v args).2)

/-- The function template `move<T>`.  Returns the destination buffer; the
source buffer keeps its bytes (the moved-from object, or the stale address). -/
def move (Γ : Env V A R E) (T : Ty) (src dst : storage V) (W : World V E) :
    storage V × World V E :=
  if Γ.is_internal_v T then
    match src.target Γ T W with
    | some o => (storage.inplace o, W.log (Event.construct T Place.buffer))
    | none => (dst, W)
  else
    match src.get_as Γ T with
    | some (Place.block a) => (dst.put_address Γ a, W)
    | _ => (dst, W)

/-- The function template `compare<T>`. -/
def compare (Γ : Env V A R E) (T : Ty) (lhs rhs : storage V) (W : World V E) : Bool :=
  if Γ.is_equality_comparable_v T then
    match lhs.target Γ T W, rhs.target Γ T W with
    | some a, some b => Γ.equals a b
    | _, _ => false
  else
    false

/-- The function template `destroy<T>`.  Returns the buffer, whose object (if
inline) no longer lives. -/
def destroy (Γ : Env V A R E) (T : Ty) (self : storage V) (W : World V E) :
    storage V × World V E :=
  if Γ.is_internal_v T then
    (storage.raw, W.log (Event.teardown T Place.buffer))
  else
    match self.get_as Γ T with
    | some (Place.block a) =>
        (self, (W.teardown_at T a).deallocate a (Γ.sizeof T) (Γ.alignof T))
    | _ => (self, W)

/-- The artificial virtual table `vtbl`. -/
structure vtbl (V E : Type) where
  move : storage V → storage V → World V E → storage V × World V E
  compare : storage V → storage V → World V E → Bool
  destroy : storage V → World V E → storage V × World V E

/-- The table `vtable<T>()`; its address is identified with `T`. -/
def vtable (Γ : Env V A R E) (T : Ty) : vtbl V E :=
  { move := vdk.move Γ T, compare := vdk.compare Γ T, destroy := vdk.destroy Γ T }

/-! ## `traits`: binding predicate, call adapter, call operator -/

/-- The value category the adapter applies: `std::move(...)` for `&&` contracts. -/
def Contract.category (C : Contract) : ValueCat :=
  match C.ref with
  | RefQual.rref => ValueCat.rvalue
  | _ => ValueCat.lvalue

/-- The value category of `std::declval<CVQUAL T LRQUAL>()` in `is_invocable_v`. -/
def Contract.declval_category (C : Contract) : ValueCat :=
  match C.ref with
  | RefQual.lref => ValueCat.lvalue
  | _ => ValueCat.rvalue

/-- The binding predicate `traits::is_invocable_v<T>`. -/
def is_invocable_v (Γ : Env V A R E) (C : Contract) : Ty → Bool
  | Ty.fnptr sig => if C.noexcept_ then Γ.fn_nothrow_invocable sig else Γ.fn_invocable sig
  | Ty.cls id =>
      if C.noexcept_ then (Γ.cls id).nothrow_invocable C.cv C.declval_category
      else (Γ.cls id).invocable C.cv C.declval_category

/-- Writing a value through a `T*` obtained from `get_as<T>`. -/
def store_through (s : storage V) (W : World V E) (o : Obj V) : Place → storage V × World V E
  | Place.buffer => (storage.inplace o, W)
  | Place.block a => (s, { W with heap := fun b => if b = a then some o else W.heap b })

/-- The call adapter `traits::invoke<T>`: `none` when `get_as<T>` finds no
object of type `T`. -/
def invoke (Γ : Env V A R E) (C : Contract) (T : Ty) (self : storage V) (W : World V E)
    (args : A) : Option (Except E R × storage V × World V E) :=
  match self.get_as Γ T with
  | none => none
  | some p =>
      match deref W self T p with
      | none => none
      | some o =>
          some ((Γ.call_obj C.cv C.category o args).1,
                store_through self W (Γ.call_obj C.cv C.category o args).2 p)

/-- How a call of the holder ends. -/
inductive Invocation (R E : Type) where
  | assert_failed
  | undefined
  | raised (e : E)
  | returned (r : R)
  deriving DecidableEq

end

/-! ## The class `delegate` -/

/-- The data members of `delegate<Fn>`: the inherited buffer, the inherited
adapter pointer `call_` (identified with the `T` of `invoke<T>`), and the
dispatcher pointer `vptr_` (identified with the `T` of `vtable<T>()`). -/
structure delegate (V : Type) where
  data_ : storage V
  call_ : Option Ty
  vptr_ : Option Ty
  deriving DecidableEq

section
variable {V A R E : Type}

/-- The object `func` of type `fn_t` for a function address. -/
def Contract.fn_obj (C : Contract) (func : Nat) : Obj V :=
  if C.noexcept_ then Obj.fp 1 func else Obj.fp 0 func

/-- The test `!func` on a value of pointer type. -/
def Obj.is_null : Obj V → Bool
  | Obj.fp _ p => decide (p = 0)
  | Obj.obj _ _ => false

/-- The statement `*(get_as<fn_t>()) = func`. -/
def storage.assign_as (Γ : Env V A R E) (T : Ty) (s : storage V) (W : World V E) (o : Obj V) :
    storage V × World V E :=
  match s.get_as Γ T with
  | some Place.buffer => (storage.inplace o, W.log (Event.construct T Place.buffer))
  | some (Place.block a) =>
      (s, { W with heap := fun b => if b = a then some o else W.heap b })
  | none => (s, W)

/-- The statement `if (vptr_) vptr_->destroy(*this);`. -/
def delegate.destroy_if_holding (Γ : Env V A R E) (this : delegate V) (W : World V E) :
    storage V × World V E :=
  match this.vptr_ with
  | some T => (vtable Γ T).destroy this.data_ W
  | none => (this.data_, W)

/-- The constructor `delegate()`. -/
def delegate.ctor : delegate V :=
  { data_ := storage.raw, call_ := none, vptr_ := none }

/-- The constructor `delegate(std::nullptr_t)`. -/
def delegate.ctor_nullptr : delegate V :=
  { data_ := storage.raw, call_ := none, vptr_ := none }

/-- The constructor `delegate(fn_t func)`. -/
def delegate.ctor_fn (Γ : Env V A R E) (C : Contract) (func : Nat) (W : World V E) :
    delegate V × World V E :=
  if func = 0 then (delegate.ctor, W)
  else
    (({ data_ := (storage.assign_as Γ C.fn_t storage.raw W (C.fn_obj func)).1,
        call_ := some C.fn_t, vptr_ := some C.fn_t } : delegate V),
      (storage.assign_as Γ C.fn_t storage.raw W (C.fn_obj func)).2)

/-- The constructor template `delegate(F func)`; `Except.error` when it raises. -/
def delegate.ctor_value (Γ : Env V A R E) (func : Obj V) (W : World V E) :
    Except E (delegate V) × World V E :=
  if is_pointer_v func.ty && func.is_null then (Except.ok delegate.ctor, W)
  else if Γ.is_internal_v func.ty then
    (Except.ok { data_ := storage.inplace func, call_ := some func.ty, vptr_ := some func.ty },
      W.log (Event.construct func.ty Place.buffer))
  else
    match memory_owner.ctor (Γ.sizeof func.ty) (Γ.alignof func.ty) W with
    | (Except.error e, W1) => (Except.error e, W1)
    | (Except.ok mem, W1) =>
        if mem.get ≠ 0 then
          match Γ.move_raises func with
          | some e => (Except.error e, mem.dtor W1)
          | none =>
              (Except.ok { data_ := storage.raw.put_address Γ mem.get,
                           call_ := some func.ty, vptr_ := some func.ty },
                mem.release.dtor (W1.construct_at mem.get func))
        else (Except.ok delegate.ctor, mem.dtor W1)

/-- The move constructor `delegate(delegate && other)`: the new holder, then
`other` afterwards. -/
def delegate.ctor_move (Γ : Env V A R E) (other : delegate V) (W : World V E) :
    delegate V × delegate V × World V E :=
  match other.vptr_ with
  | some T =>
      ({ data_ := ((vtable Γ T).move other.data_ storage.raw W).1,
         call_ := other.call_, vptr_ := other.vptr_ },
        { other with call_ := none, vptr_ := none },
        ((vtable Γ T).move other.data_ storage.raw W).2)
  | none =>
      ({ data_ := storage.raw, call_ := other.call_, vptr_ := other.vptr_ },
        { other with call_ := none, vptr_ := none }, W)

/-- The move assignment `operator=(delegate && other)` for `this != &other`:
`this` afterwards, then `other` afterwards. -/
def delegate.assign_move (Γ : Env V A R E) (this other : delegate V) (W : World V E) :
    delegate V × delegate V × World V E :=
  match other.vptr_ with
  | some T =>
      ({ data_ := ((vtable Γ T).move other.data_ (this.destroy_if_holding Γ W).1
                    (this.destroy_if_holding Γ W).2).1,
         call_ := other.call_, vptr_ := other.vptr_ },
        { other with call_ := none, vptr_ := none },
        ((vtable Γ T).move other.data_ (this.destroy_if_holding Γ W).1
          (this.destroy_if_holding Γ W).2).2)
  | none =>
      ({ data_ := (this.destroy_if_holding Γ W).1, call_ := other.call_, vptr_ := other.vptr_ },
        { other with call_ := none, vptr_ := none },
        (this.destroy_if_holding Γ W).2)

/-- The assignment `operator=(std::nullptr_t)`. -/
def delegate.assign_nullptr (Γ : Env V A R E) (this : delegate V) (W : World V E) :
    delegate V × World V E :=
  ({ data_ := (this.destroy_if_holding Γ W).1, call_ := none, vptr_ := none },
    (this.destroy_if_holding Γ W).2)

/-- The assignment `operator=(fn_t func)`. -/
def delegate.assign_fn (Γ : Env V A R E) (C : Contract) (this : delegate V) (func : Nat)
    (W : World V E) : delegate V × World V E :=
  if func = 0 then (this, W)
  else
    (({ data_ := (storage.assign_as Γ C.fn_t (this.destroy_if_holding Γ W).1
                   (this.destroy_if_holding Γ W).2 (C.fn_obj func)).1,
        call_ := some C.fn_t, vptr_ := some C.fn_t } : delegate V),
      (storage.assign_as Γ C.fn_t (this.destroy_if_holding Γ W).1
        (this.destroy_if_holding Γ W).2 (C.fn_obj func)).2)

/-- The assignment template `operator=(F func)`: the exception that escapes,
if any, then `this` afterwards. -/
def delegate.assign_value (Γ : Env V A R E) (this : delegate V) (func : Obj V) (W : World V E) :
    Option E × delegate V × World V E :=
  if is_pointer_v func.ty && func.is_null then (none, this, W)
  else if Γ.is_internal_v func.ty then
    (none,
      { data_ := storage.inplace func, call_ := some func.ty, vptr_ := some func.ty },
      (this.destroy_if_holding Γ W).2.log (Event.construct func.ty Place.buffer))
  else
    match memory_owner.ctor (Γ.sizeof func.ty) (Γ.alignof func.ty) W with
    | (Except.error e, W1) => (some e, this, W1)
    | (Except.ok mem, W1) =>
        if mem.get ≠ 0 then
          match Γ.move_raises func with
          | some e => (some e, this, mem.dtor W1)
          | none =>
              (none,
                { data_ := (this.destroy_if_holding Γ (W1.construct_at mem.get func)).1.put_address
                             Γ mem.get,
                  call_ := some func.ty, vptr_ := some func.ty },
                mem.release.dtor (this.destroy_if_holding Γ (W1.construct_at mem.get func)).2)
        else (none, this, mem.dtor W1)

/-- The destructor `~delegate()`. -/
def delegate.dtor (Γ : Env V A R E) (this : delegate V) (W : World V E) : World V E :=
  (this.destroy_if_holding Γ W).2

/-- The conversion `explicit operator bool()`. -/
def delegate.to_bool (this : delegate V) : Bool :=
  this.vptr_.isSome

/-- The member `operator==(const delegate & other)`. -/
def delegate.eq (Γ : Env V A R E) (W : World V E) (this other : delegate V) : Bool :=
  if this.vptr_.isNone && other.vptr_.isNone then true
  else if this.vptr_ ≠ other.vptr_ then false
  else
    match this.vptr_ with
    | some T => (vtable Γ T).compare this.data_ other.data_ W
    | none => false

/-- The member `operator!=(const delegate & other)`. -/
def delegate.ne (Γ : Env V A R E) (W : World V E) (this other : delegate V) : Bool :=
  !(delegate.eq Γ W this other)

/-- Both `operator==(delegate, nullptr_t)` and `operator==(nullptr_t, delegate)`. -/
def delegate.eq_nullptr (d : delegate V) : Bool :=
  !d.to_bool

/-- Both `operator!=(delegate, nullptr_t)` and `operator!=(nullptr_t, delegate)`. -/
def delegate.ne_nullptr (d : delegate V) : Bool :=
  d.to_bool

/-- The free function `operator==(std::nullptr_t, const delegate & rhs)`. -/
def delegate.nullptr_eq (rhs : delegate V) : Bool :=
  !rhs.to_bool

/-- The free function `operator!=(std::nullptr_t, const delegate & rhs)`. -/
def delegate.nullptr_ne (rhs : delegate V) : Bool :=
  rhs.to_bool

/-- The call operator `traits::operator()`: the assertion on `call_`, then the
adapter. -/
def delegate.call (Γ : Env V A R E) (C : Contract) (this : delegate V) (W : World V E)
    (args : A) : Invocation R E × delegate V × World V E :=
  match this.call_ with
  | none => (Invocation.assert_failed, this, W)
  | some T =>
      match invoke Γ C T this.data_ W args with
      | none => (Invocation.undefined, this, W)
      | some (Except.ok r, s, W1) => (Invocation.returned r, { this with data_ := s }, W1)
      | some (Except.error e, s, W1) => (Invocation.raised e, { this with data_ := s }, W1)

end

/-! ## A concrete environment: the fixtures of the test suite, contract `int(int)` -/

/-- The Itanium x86-64 sizes: `sizeof(block) = 24`, `alignof(block) = 8`. -/
def demo_abi : Abi :=
  { memfn_size := 16, memfn_align := 8, memobj_size := 8, memobj_align := 8,
    fnptr_size := 8, fnptr_align := 8, ptr_size := 8, ptr_align := 8 }

/-- The call operators of `functor_base_noexcept`, selected by cv-qualification. -/
def demo_call_noexcept (cv : CVQual) (v arg : Int) : Except Nat Int × Int :=
  match cv with
  | CVQual.plain => (Except.ok (arg + 13), v)
  | CVQual.const => (Except.ok (arg + 14), v)
  | CVQual.volatile => (Except.ok (arg + 15), v)
  | CVQual.const_volatile => (Except.ok (arg + 16), v)

/-- The call operators of `functor_base_ref_except`, selected by cv- and
ref-qualification. -/
def demo_call_ref (cv : CVQual) (cat : ValueCat) (v arg : Int) : Except Nat Int × Int :=
  match cat, cv with
  | ValueCat.lvalue, CVQual.plain => (Except.ok (arg + 5), v)
  | ValueCat.lvalue, CVQual.const => (Except.ok (arg + 6), v)
  | ValueCat.lvalue, CVQual.volatile => (Except.ok (arg + 7), v)
  | ValueCat.lvalue, CVQual.const_volatile => (Except.ok (arg + 8), v)
  | ValueCat.rvalue, CVQual.plain => (Except.ok (arg + 9), v)
  | ValueCat.rvalue, CVQual.const => (Except.ok (arg + 10), v)
  | ValueCat.rvalue, CVQual.volatile => (Except.ok (arg + 11), v)
  | ValueCat.rvalue, CVQual.const_volatile => (Except.ok (arg + 12), v)

/-- The class types of the test suite: `0` is `functor_noexcept<small_t>`,
`1` is `functor_noexcept<large_t>`, `2` is `functor_no_comparison`, `3` is
`functor_throw_on_move` (its move constructor raises exception `7`), `4` is
`functor_throw_on_call` (its call raises exception `9`), `5` and `6` are
`functor_ref_except<small_t>` and `functor_ref_except<large_t>`. -/
def demo_cls (id : Nat) : ClassInfo Int Int Int Nat :=
  match id with
  | 0 => { size := 8, align := 4, nothrow_move := true,
           equals := some (fun v w => decide (v = w)), move_raises := fun _ => none,
           invocable := fun _ _ => true, nothrow_invocable := fun _ _ => true,
           call := fun cv _ v arg => demo_call_noexcept cv v arg }
  | 1 => { size := 48, align := 8, nothrow_move := true,
           equals := some (fun v w => decide (v = w)), move_raises := fun _ => none,
           invocable := fun _ _ => true, nothrow_invocable := fun _ _ => true,
           call := fun cv _ v arg => demo_call_noexcept cv v arg }
  | 2 => { size := 40, align := 8, nothrow_move := true,
           equals := none, move_raises := fun _ => none,
           invocable := fun _ _ => true, nothrow_invocable := fun _ _ => true,
           call := fun _ _ v _ => (Except.ok 0, v) }
  | 3 => { size := 1, align := 1, nothrow_move := false,
           equals := none, move_raises := fun _ => some 7,
           invocable := fun cv _ => decide (cv = CVQual.plain),
           nothrow_invocable := fun _ _ => false,
           call := fun _ _ v arg => (Except.ok arg, v) }
  | 4 => { size := 4, align := 4, nothrow_move := true,
           equals := some (fun v w => decide (v = w)), move_raises := fun _ => none,
           invocable := fun cv _ => decide (cv = CVQual.plain),
           nothrow_invocable := fun _ _ => false,
           call := fun _ _ v _ => (Except.error 9, v) }
  | 5 => { size := 8, align := 4, nothrow_move := true,
           equals := some (fun v w => decide (v = w)), move_raises := fun _ => none,
           invocable := fun _ _ => true, nothrow_invocable := fun _ _ => false,
           call := demo_call_ref }
  | _ => { size := 48, align := 8, nothrow_move := true,
           equals := some (fun v w => decide (v = w)), move_raises := fun _ => none,
           invocable := fun _ _ => true, nothrow_invocable := fun _ _ => false,
           call := demo_call_ref }

/-- The functions of the test suite: address `1` is `function_except`, `2` is
`function_noexcept`, any other address behaves as `function_unique`. -/
def demo_code (p : Nat) (arg : Int) : Except Nat Int :=
  match p with
  | 1 => Except.ok (arg + 1)
  | 2 => Except.ok (arg + 13)
  | _ => Except.ok arg

/-- The environment of the test suite. -/
def demo_env : Env Int Int Int Nat :=
  { abi := demo_abi, cls := demo_cls, code := demo_code,
    fn_invocable := fun _ => true, fn_nothrow_invocable := fun sig => decide (sig = 1) }

/-- A world with nothing allocated whose memory resource never fails. -/
def demo_world : World Int Nat :=
  { heap := fun _ => none, brk := 0, calls := 0, oracle := fun _ => AllocReply.block,
    trace := [] }

/-- A world with nothing allocated whose memory resource returns null. -/
def null_world : World Int Nat :=
  { heap := fun _ => none, brk := 0, calls := 0, oracle := fun _ => AllocReply.null,
    trace := [] }

/-- The contract `int(int)`. -/
def demo_contract : Contract :=
  { cv := CVQual.plain, ref := RefQual.plain, noexcept_ := false }

/-- The holder `delegate<int(int)>{ functor_noexcept<small_t>{ 10 } }`. -/
def demo_small : delegate Int :=
  { data_ := storage.inplace (Obj.obj 0 10), call_ := some (Ty.cls 0), vptr_ := some (Ty.cls 0) }

/-- The holder `delegate<int(int)>{ functor_noexcept<large_t>{ 10 } }` as built
in `demo_world`: its target lives in the first block handed out. -/
def demo_large : delegate Int :=
  { data_ := storage.address 1, call_ := some (Ty.cls 1), vptr_ := some (Ty.cls 1) }

/-- The world after `demo_large` has been built in `demo_world`. -/
def demo_large_world : World Int Nat :=
  (delegate.ctor_value demo_env (Obj.obj 1 10) demo_world).2

/-- The holder `delegate<int(int)>{ functor_no_comparison{} }` as built in
`demo_world`. -/
def demo_no_comparison : delegate Int :=
  { data_ := storage.address 1, call_ := some (Ty.cls 2), vptr_ := some (Ty.cls 2) }

/-- The world after `demo_no_comparison` has been built in `demo_world`. -/
def demo_no_comparison_world : World Int Nat :=
  (delegate.ctor_value demo_env (Obj.obj 2 0) demo_world).2

/-- The contract `int(int) const &&`. -/
def demo_contract_const_rref : Contract :=
  { cv := CVQual.const, ref := RefQual.rref, noexcept_ := false }

/-! ## Well-formed holders and reading results -/

section
variable {V A R E : Type}

/-- The address a buffer holds, if any, was handed out by the memory resource. -/
def storage.owned (s : storage V) (W : World V E) : Bool :=
  match s with
  | storage.address a => decide (a ≤ W.brk)
  | _ => true

/-- The class invariant of `delegate` in a world: adapter and dispatcher are
for the same type, and when Holding the target of that type is there, in the
buffer or in a block the memory resource handed out. -/
def delegate.valid (Γ : Env V A R E) (W : World V E) (d : delegate V) : Bool :=
  decide (d.call_ = d.vptr_) &&
  match d.vptr_ with
  | some T => (d.data_.target Γ T W).isSome && d.data_.owned W
  | none => true

/-- How a call that reached the target ends. -/
def Invocation.of_except : Except E R → Invocation R E
  | Except.ok r => Invocation.returned r
  | Except.error e => Invocation.raised e

/-- The 24 contract shapes for which `traits` is specialised. -/
def Contract.all : List Contract :=
  [CVQual.plain, CVQual.const, CVQual.volatile, CVQual.const_volatile].flatMap fun cv =>
    [RefQual.plain, RefQual.lref, RefQual.rref].flatMap fun ref =>
      [false, true].map fun ne => { cv := cv, ref := ref, noexcept_ := ne }

end

/-! ## Reading the event record -/

section
variable {V A R E : Type}

/-- Two buffers do not hold the same block address. -/
def storage.apart (s t : storage V) : Bool :=
  match s, t with
  | storage.address a, storage.address b => decide (a ≠ b)
  | _, _ => true

/-- The block a holder owns: the address in its buffer when it is Holding a
heap-placed target. -/
def delegate.block (Γ : Env V A R E) (d : delegate V) : Option Nat :=
  match d.vptr_ with
  | none => none
  | some T =>
      if Γ.is_internal_v T then none
      else
        match d.data_ with
        | storage.address a => some a
        | _ => none

/-- Whether an event is the teardown of a target. -/
def Event.is_teardown : Event → Bool
  | Event.teardown _ _ => true
  | _ => false

/-- The events by which the target of a holder is destroyed once: its
teardown, and for a heap-placed target the return of its block with the size
and alignment of its type. -/
def expected_destroy_events (Γ : Env V A R E) (d : delegate V) : List Event :=
  match d.vptr_ with
  | none => []
  | some T =>
      if Γ.is_internal_v T then [Event.teardown T Place.buffer]
      else
        match d.data_ with
        | storage.address a =>
            [Event.teardown T (Place.block a), Event.deallocate a (Γ.sizeof T) (Γ.alignof T)]
        | _ => []

/-- The events by which the target of a holder is relocated into another
holder: a construction in the destination buffer for an inline target, nothing
for a heap-placed one. -/
def expected_move_events (Γ : Env V A R E) (d : delegate V) : List Event :=
  match d.vptr_ with
  | none => []
  | some T => if Γ.is_internal_v T then [Event.construct T Place.buffer] else []

/-- The size and alignment of an `allocate` call, for an event that is one. -/
def Event.allocate_call : Event → Option (Nat × Nat)
  | Event.allocate size align _ => some (size, align)
  | Event.allocate_raised size align => some (size, align)
  | _ => none

/-- The `allocate` calls of a record, oldest first. -/
def allocate_calls (tr : List Event) : List (Nat × Nat) :=
  tr.filterMap Event.allocate_call

/-- Whether an event is a call of the memory resource. -/
def Event.is_memory : Event → Bool
  | Event.allocate _ _ _ => true
  | Event.allocate_raised _ _ => true
  | Event.deallocate _ _ _ => true
  | _ => false

/-- The calls of the memory resource in a record, oldest first. -/
def memory_calls (tr : List Event) : List Event :=
  tr.filter Event.is_memory

end

/-- A world with nothing allocated whose memory resource raises exception `5`
(as `::operator new` raises `std::bad_alloc`). -/
def raise_world : World Int Nat :=
  { heap := fun _ => none, brk := 0, calls := 0, oracle := fun _ => AllocReply.raise 5,
    trace := [] }

/-- The holder `delegate<int(int)>{ function_noexcept }` built by `delegate(fn_t)`. -/
def demo_function : delegate Int :=
  { data_ := storage.inplace (Obj.fp 0 2), call_ := some (Ty.fnptr 0),
    vptr_ := some (Ty.fnptr 0) }

/-! ## The process-wide memory resource -/

/-- The function `memory(memory_resource * r = nullptr)`.  Resources are named by
their addresses (`0` is the null pointer), `dr` is the address of the static
default resource, and `static_` is the function-local static `resource`:
`none` until the first call has initialised it.  Returns the resource and the
static afterwards. -/
def memory (dr r : Nat) (static_ : Option Nat) : Nat × Option Nat :=
  match static_ with
  | some resource => (resource, some resource)
  | none => (if r ≠ 0 then r else dr, some (if r ≠ 0 then r else dr))

/-- The results of a sequence of calls `memory(r)`, in order, and the static
afterwards. -/
def memory_calls_of (dr : Nat) : List Nat → Option Nat → List Nat × Option Nat
  | [], static_ => ([], static_)
  | r :: rs, static_ =>
      ((memory dr r static_).1 :: (memory_calls_of dr rs (memory dr r static_).2).1,
        (memory_calls_of dr rs (memory dr r static_).2).2)

/-! ## Programs over several holders -/

section
variable {V A R E : Type}

/-- The part of the class invariant that does not mention the world: adapter
and dispatcher are for the same type, and a holder whose dispatcher is for a
heap-placed type has an address in its buffer. -/
def delegate.shaped (Γ : Env V A R E) (d : delegate V) : Prop :=
  d.call_ = d.vptr_ ∧
  ∀ T, d.vptr_ = some T → Γ.is_internal_v T = false → ∃ a, d.data_ = storage.address a

/-- The adapter pointer is null exactly when the dispatcher pointer is. -/
def delegate.consistent (d : delegate V) : Prop :=
  d.call_ = none ↔ d.vptr_ = none

/-- The standard algorithm `std::swap(a, b)` on two holders:
`delegate tmp(std::move(a)); a = std::move(b); b = std::move(tmp);` and the
destruction of `tmp`.  Returns `a` and `b` afterwards. -/
def std_swap (Γ : Env V A R E) (a b : delegate V) (W : World V E) :
    delegate V × delegate V × World V E :=
  ((delegate.assign_move Γ (delegate.ctor_move Γ a W).2.1 b (delegate.ctor_move Γ a W).2.2).1,
    (delegate.assign_move Γ
      (delegate.assign_move Γ (delegate.ctor_move Γ a W).2.1 b (delegate.ctor_move Γ a W).2.2).2.1
      (delegate.ctor_move Γ a W).1
      (delegate.assign_move Γ (delegate.ctor_move Γ a W).2.1 b
        (delegate.ctor_move Γ a W).2.2).2.2).1,
    delegate.dtor Γ
      (delegate.assign_move Γ
        (delegate.assign_move Γ (delegate.ctor_move Γ a W).2.1 b
          (delegate.ctor_move Γ a W).2.2).2.1
        (delegate.ctor_move Γ a W).1
        (delegate.assign_move Γ (delegate.ctor_move Γ a W).2.1 b
          (delegate.ctor_move Γ a W).2.2).2.2).2.1
      (delegate.assign_move Γ
        (delegate.assign_move Γ (delegate.ctor_move Γ a W).2.1 b
          (delegate.ctor_move Γ a W).2.2).2.1
        (delegate.ctor_move Γ a W).1
        (delegate.assign_move Γ (delegate.ctor_move Γ a W).2.1 b
          (delegate.ctor_move Γ a W).2.2).2.2).2.2)

/-- A program state: the holders constructed so far, by slot (`none` once a
holder has been destroyed), and the world. -/
structure System (V E : Type) where
  holders : List (Option (delegate V))
  world : World V E

/-- The public operations of `delegate`, on slots.  A constructor adds a slot. -/
inductive Op (V A : Type) where
  | ctor
  | ctor_nullptr
  | ctor_fn (func : Nat)
  | ctor_value (func : Obj V)
  | ctor_move (other : Nat)
  | assign_move (this other : Nat)
  | assign_nullptr (this : Nat)
  | assign_fn (this : Nat) (func : Nat)
  | assign_value (this : Nat) (func : Obj V)
  | call (this : Nat) (args : A)
  | dtor (this : Nat)

/-- The live holder in a slot, if any. -/
def System.holder (S : System V E) (i : Nat) : Option (delegate V) :=
  S.holders.getD i none

/-- One operation of a program.  An operation on a slot that holds no live
holder does nothing; a constructor that raises adds no slot; a move assignment
of a holder to itself takes the `this != &other` exit. -/
def System.step (Γ : Env V A R E) (C : Contract) (S : System V E) : Op V A → System V E
  | Op.ctor => { S with holders := S.holders ++ [some delegate.ctor] }
  | Op.ctor_nullptr => { S with holders := S.holders ++ [some delegate.ctor_nullptr] }
  | Op.ctor_fn func =>
      { holders := S.holders ++ [some (delegate.ctor_fn Γ C func S.world).1],
        world := (delegate.ctor_fn Γ C func S.world).2 }
  | Op.ctor_value func =>
      match delegate.ctor_value Γ func S.world with
      | (Except.ok d, W) => { holders := S.holders ++ [some d], world := W }
      | (Except.error _, W) => { S with world := W }
  | Op.ctor_move j =>
      match S.holder j with
      | some other =>
          { holders := S.holders.set j (some (delegate.ctor_move Γ other S.world).2.1) ++
              [some (delegate.ctor_move Γ other S.world).1],
            world := (delegate.ctor_move Γ other S.world).2.2 }
      | none => S
  | Op.assign_move i j =>
      if i = j then S
      else
        match S.holder i, S.holder j with
        | some this, some other =>
            { holders :=
                (S.holders.set i (some (delegate.assign_move Γ this other S.world).1)).set j
                  (some (delegate.assign_move Γ this other S.world).2.1),
              world := (delegate.assign_move Γ this other S.world).2.2 }
        | _, _ => S
  | Op.assign_nullptr i =>
      match S.holder i with
      | some this =>
          { holders := S.holders.set i (some (delegate.assign_nullptr Γ this S.world).1),
            world := (delegate.assign_nullptr Γ this S.world).2 }
      | none => S
  | Op.assign_fn i func =>
      match S.holder i with
      | some this =>
          { holders := S.holders.set i (some (delegate.assign_fn Γ C this func S.world).1),
            world := (delegate.assign_fn Γ C this func S.world).2 }
      | none => S
  | Op.assign_value i func =>
      match S.holder i with
      | some this =>
          { holders := S.holders.set i (some (delegate.assign_value Γ this func S.world).2.1),
            world := (delegate.assign_value Γ this func S.world).2.2 }
      | none => S
  | Op.call i args =>
      match S.holder i with
      | some this =>
          { holders := S.holders.set i (some (delegate.call Γ C this S.world args).2.1),
            world := (delegate.call Γ C this S.world args).2.2 }
      | none => S
  | Op.dtor i =>
      match S.holder i with
      | some this =>
          { holders := S.holders.set i none, world := delegate.dtor Γ this S.world }
      | none => S

/-- A program: its operations in order. -/
def System.run (Γ : Env V A R E) (C : Contract) (S : System V E) (ops : List (Op V A)) :
    System V E :=
  ops.foldl (System.step Γ C) S

/-- The world at program start: nothing allocated, nothing recorded. -/
def World.init (oracle : Nat → AllocReply E) : World V E :=
  { heap := fun _ => none, brk := 0, calls := 0, oracle := oracle, trace := [] }

/-- The program state at program start: no holder yet. -/
def System.init (oracle : Nat → AllocReply E) : System V E :=
  { holders := [], world := World.init oracle }

/-- Whether an event is a successful `allocate` returning the block `a`. -/
def Event.allocates (a : Nat) : Event → Bool
  | Event.allocate _ _ result => result == a
  | _ => false

/-- Whether an event is a `deallocate` of the block `a`. -/
def Event.deallocates (a : Nat) : Event → Bool
  | Event.deallocate addr _ _ => addr == a
  | _ => false

/-- How often `allocate` returned the block `a` in a record. -/
def alloc_count (tr : List Event) (a : Nat) : Nat :=
  tr.countP (Event.allocates a)

/-- How often the block `a` was passed to `deallocate` in a record. -/
def dealloc_count (tr : List Event) (a : Nat) : Nat :=
  tr.countP (Event.deallocates a)

/-- How many of the given holders own the block `a`. -/
def blocks_count (Γ : Env V A R E) (ds : List (delegate V)) (a : Nat) : Nat :=
  ds.countP (fun d => d.block Γ == some a)

/-- How many live holders of a program state own the block `a`. -/
def owner_count (Γ : Env V A R E) (hs : List (Option (delegate V))) (a : Nat) : Nat :=
  hs.countP (fun h =>
    match h with
    | some d => d.block Γ == some a
    | none => false)

/-- The bookkeeping of one operation that takes the world from `W` to `W2`,
uses up the holders `olds` and leaves the holders `news`: every block handed
out is new, every block is either still owned or was returned once, every owned
block was allocated for the owner's type, and every `deallocate` repeats the
address, size and alignment of an `allocate`. -/
def Acct (Γ : Env V A R E) (W W2 : World V E) (olds news : List (delegate V)) : Prop :=
  ∃ evs : List Event,
    W2.trace = W.trace ++ evs ∧ W.brk ≤ W2.brk ∧
    (∀ a, 0 < a → alloc_count evs a = if W.brk < a ∧ a ≤ W2.brk then 1 else 0) ∧
    (∀ a, 0 < a →
      dealloc_count evs a + blocks_count Γ news a =
        alloc_count evs a + blocks_count Γ olds a) ∧
    (∀ d ∈ news, d.shaped Γ) ∧
    (∀ d ∈ news, ∀ T a, d.vptr_ = some T → d.block Γ = some a →
      (0 < a ∧ Event.allocate (Γ.sizeof T) (Γ.alignof T) a ∈ evs) ∨
      ∃ d0 ∈ olds, d0.vptr_ = some T ∧ d0.block Γ = some a) ∧
    (∀ a s al, Event.deallocate a s al ∈ evs →
      (0 < a ∧ Event.allocate s al a ∈ evs) ∨
      ∃ d0 ∈ olds, ∃ T, d0.vptr_ = some T ∧ d0.block Γ = some a ∧
        s = Γ.sizeof T ∧ al = Γ.alignof T)

/-- The invariant of program states: the memory resource has handed out exactly
the addresses up to its cursor, once each; a block is either owned by one live
holder or was returned once; live holders are well shaped and own blocks that
were allocated for their types; and every `deallocate` repeats an `allocate`. -/
def System.Inv (Γ : Env V A R E) (S : System V E) : Prop :=
  (∀ a, 0 < a → alloc_count S.world.trace a = if a ≤ S.world.brk then 1 else 0) ∧
  (∀ a, 0 < a →
    dealloc_count S.world.trace a + owner_count Γ S.holders a =
      alloc_count S.world.trace a) ∧
  (∀ d, some d ∈ S.holders → d.shaped Γ) ∧
  (∀ d, some d ∈ S.holders → ∀ T a, d.vptr_ = some T → d.block Γ = some a →
    0 < a ∧ Event.allocate (Γ.sizeof T) (Γ.alignof T) a ∈ S.world.trace) ∧
  (∀ a s al, Event.deallocate a s al ∈ S.world.trace →
    0 < a ∧ Event.allocate s al a ∈ S.world.trace)

end

/-- The class `0` of this environment has only `int operator()(int) &`:
invocable as an lvalue, not as an rvalue. -/
def lvalue_only_cls (_ : Nat) : ClassInfo Int Int Int Nat :=
  { size := 4, align := 4, nothrow_move := true,
    equals := none, move_raises := fun _ => none,
    invocable := fun cv cat => decide (cv = CVQual.plain ∧ cat = ValueCat.lvalue),
    nothrow_invocable := fun _ _ => false,
    call := fun _ _ v arg => (Except.ok arg, v) }

/-- An environment whose classes are all `lvalue_only_cls`. -/
def lvalue_only_env : Env Int Int Int Nat :=
  { abi := demo_abi, cls := lvalue_only_cls, code := demo_code,
    fn_invocable := fun _ => true, fn_nothrow_invocable := fun sig => decide (sig = 1) }

/-- The class `0` of this environment has only `int operator()(int) &&`:
invocable as an rvalue, not as an lvalue. -/
def rvalue_only_cls (_ : Nat) : ClassInfo Int Int Int Nat :=
  { size := 4, align := 4, nothrow_move := true,
    equals := none, move_raises := fun _ => none,
    invocable := fun cv cat => decide (cv = CVQual.plain ∧ cat = ValueCat.rvalue),
    nothrow_invocable := fun _ _ => false,
    call := fun _ _ v arg => (Except.ok arg, v) }

/-- An environment whose classes are all `rvalue_only_cls`. -/
def rvalue_only_env : Env Int Int Int Nat :=
  { abi := demo_abi, cls := rvalue_only_cls, code := demo_code,
    fn_invocable := fun _ => true, fn_nothrow_invocable := fun sig => decide (sig = 1) }

/-- The class `0` of this environment is an inline functor with an
`operator==` that is well formed, so the type is equality-comparable, and that
returns `false` for every pair of values, as a comparison of a NaN member does:
no value of it compares equal to itself. -/
def irreflexive_cls (_ : Nat) : ClassInfo Int Int Int Nat :=
  { size := 8, align := 4, nothrow_move := true,
    equals := some (fun _ _ => false), move_raises := fun _ => none,
    invocable := fun _ _ => true, nothrow_invocable := fun _ _ => true,
    call := fun _ _ v arg => (Except.ok arg, v) }

/-- An environment whose classes are all `irreflexive_cls`. -/
def irreflexive_env : Env Int Int Int Nat :=
  { abi := demo_abi, cls := irreflexive_cls, code := demo_code,
    fn_invocable := fun _ => true, fn_nothrow_invocable := fun sig => decide (sig = 1) }

/-- A program over the test fixtures: build a heap-placed holder, fail to build
one from `functor_throw_on_move`, replace the first target, move the holder,
call it, and destroy both holders. -/
def demo_program : List (Op Int Int) :=
  [Op.ctor_value (Obj.obj 1 10), Op.ctor_value (Obj.obj 3 0), Op.assign_value 0 (Obj.obj 1 11),
   Op.ctor_move 0, Op.call 1 10, Op.dtor 1, Op.dtor 0]

/-! ## The legacy header `include/delegate.h` -/

namespace legacy

/-- The value of `target_size`, `sizeof(default_type)`: a pointer to member
function of an undefined class, then an object pointer at its aligned offset. -/
def target_size (abi : Abi) : Nat :=
  round_up (round_up abi.memfn_size abi.ptr_align + abi.ptr_size)
    (max abi.memfn_align abi.ptr_align)

/-- The offset of `mp_instance` in `target<_Class, _Signature>` for a
`_Signature` of the given size. -/
def instance_offset (abi : Abi) (function_size : Nat) : Nat :=
  round_up function_size abi.ptr_align

/-- The instantiations of the private template `invoke`, whose addresses
`mp_invoker` holds: `invoke<nullptr, _Signature>` for a free function,
`invoke<_Class, _Signature>` for a method, `invoke<_Class, nullptr>` for a
function object. -/
inductive Invoker where
  | static_fn
  | method (cls sig : Nat)
  | functor (cls : Nat)
  deriving DecidableEq

/-- The environment of a legacy `delegate<_ResT(_ArgTs...)>`: the ABI, and what
each invoker does with the `target_size` bytes it is handed. -/
structure Env (A R E : Type) where
  abi : Abi
  run : Invoker → List Nat → A → Except E R

/-- The data members of the legacy class: the bytes of `mp_target`, by index
(indices from `target_size` on do not exist and are never read), and
`mp_invoker`, `none` for a null pointer. -/
structure delegate where
  mp_target : Nat → Nat
  mp_invoker : Option Invoker

/-- The byte at `index` of the object representation of a pointer value:
little-endian, so that the null pointer is all zero bytes. -/
def byte_at (value index : Nat) : Nat :=
  (value / 256 ^ index) % 256

/-- Storing a pointer value of `width` bytes at `offset` of a byte array. -/
def store_bytes (mem : Nat → Nat) (offset width value : Nat) : Nat → Nat :=
  fun i => if offset ≤ i ∧ i < offset + width then byte_at value (i - offset) else mem i

/-- The bytes a `const byte *` to an array of the given size gives access to. -/
def read (mem : Nat → Nat) (size : Nat) : List Nat :=
  (List.range size).map mem

/-- The loop of `compare`, entered at `index` with `remaining` iterations to
go before `index < target_size` fails. -/
def compare_from (mp_target storage : Nat → Nat) : (remaining index : Nat) → Int
  | 0, _ => 0
  | remaining + 1, index =>
      if mp_target index < storage index then -1
      else if mp_target index > storage index then 1
      else compare_from mp_target storage remaining (index + 1)

/-- The number of times the loop of `compare` runs its body. -/
def compare_iterations (mp_target storage : Nat → Nat) : (remaining index : Nat) → Nat
  | 0, _ => 0
  | remaining + 1, index =>
      if mp_target index < storage index then 1
      else if mp_target index > storage index then 1
      else compare_iterations mp_target storage remaining (index + 1) + 1

/-- The private member `compare(const byte * const storage)`. -/
def delegate.compare (abi : Abi) (this : delegate) (storage : Nat → Nat) : Int :=
  compare_from this.mp_target storage (target_size abi) 0

/-- The loop `mp_target[index] = other.mp_target[index]` of the copy
constructor and the copy assignment. -/
def copy_from (src : Nat → Nat) : (remaining index : Nat) → (Nat → Nat) → Nat → Nat
  | 0, _, dst => dst
  | remaining + 1, index, dst =>
      copy_from src remaining (index + 1) (fun i => if i = index then src index else dst i)

/-- The loop `mp_target[index] = 0` of `operator=(nullptr_type)`. -/
def fill_from : (remaining index : Nat) → (Nat → Nat) → Nat → Nat
  | 0, _, dst => dst
  | remaining + 1, index, dst =>
      fill_from remaining (index + 1) (fun i => if i = index then 0 else dst i)

/-- The constructor `delegate()`: `mp_target{}`, `mp_invoker{ nullptr }`. -/
def delegate.ctor : delegate :=
  { mp_target := fun _ => 0, mp_invoker := none }

/-- The constructor `delegate(nullptr_type)`. -/
def delegate.ctor_nullptr : delegate :=
  delegate.ctor

/-- The constructor `delegate(_ResT(*function)(_ArgTs...))`. -/
def delegate.ctor_function (abi : Abi) (function : Nat) : delegate :=
  { mp_target :=
      store_bytes (store_bytes delegate.ctor.mp_target 0 abi.fnptr_size function)
        (instance_offset abi abi.fnptr_size) abi.ptr_size 0,
    mp_invoker := some Invoker.static_fn }

/-- The constructor `delegate(_Class * object, _Signature method)`; `method` is
the object representation of the pointer to member function. -/
def delegate.ctor_method (abi : Abi) (cls sig object method : Nat) : delegate :=
  { mp_target :=
      store_bytes (store_bytes delegate.ctor.mp_target 0 abi.memfn_size method)
        (instance_offset abi abi.memfn_size) abi.ptr_size object,
    mp_invoker := some (Invoker.method cls sig) }

/-- The constructor `delegate(_Class * functor)`; `mp_function` is a
`nullptr_type`, of the size of an object pointer. -/
def delegate.ctor_functor (abi : Abi) (cls functor : Nat) : delegate :=
  { mp_target :=
      store_bytes (store_bytes delegate.ctor.mp_target 0 abi.ptr_size 0)
        (instance_offset abi abi.ptr_size) abi.ptr_size functor,
    mp_invoker := some (Invoker.functor cls) }

/-- The copy constructor `delegate(const delegate & other)`. -/
def delegate.ctor_copy (abi : Abi) (other : delegate) : delegate :=
  { mp_target := copy_from other.mp_target (target_size abi) 0 delegate.ctor.mp_target,
    mp_invoker := other.mp_invoker }

/-- The copy assignment `operator=(const delegate & other)`, for `this` and
`other` at the given addresses: `*this` afterwards. -/
def delegate.assign_copy (abi : Abi) (this_addr other_addr : Nat) (this other : delegate) :
    delegate :=
  if this_addr ≠ other_addr then
    { mp_target := copy_from other.mp_target (target_size abi) 0 this.mp_target,
      mp_invoker := other.mp_invoker }
  else this

/-- The assignment `operator=(nullptr_type)`. -/
def delegate.assign_nullptr (abi : Abi) (this : delegate) : delegate :=
  { mp_target := fill_from (target_size abi) 0 this.mp_target, mp_invoker := none }

/-- The member `operator==(const delegate & other)`; the free template of the
same name forwards to it. -/
def delegate.eq (abi : Abi) (this other : delegate) : Bool :=
  this.compare abi other.mp_target == 0

/-- The member `operator!=(const delegate & other)`. -/
def delegate.ne (abi : Abi) (this other : delegate) : Bool :=
  this.compare abi other.mp_target != 0

/-- The member `operator==(nullptr_type)`; both free templates forward to it. -/
def delegate.eq_nullptr (this : delegate) : Bool :=
  this.mp_invoker.isNone

/-- The member `operator!=(nullptr_type)`; both free templates forward to it. -/
def delegate.ne_nullptr (this : delegate) : Bool :=
  this.mp_invoker.isSome

/-- The member `operator<(const delegate & other)`. -/
def delegate.lt (abi : Abi) (this other : delegate) : Bool :=
  this.compare abi other.mp_target == -1

/-- The member `operator<=(const delegate & other)`. -/
def delegate.le (abi : Abi) (this other : delegate) : Bool :=
  (this.compare abi other.mp_target == -1) || (this.compare abi other.mp_target == 0)

/-- The member `operator>(const delegate & other)`. -/
def delegate.gt (abi : Abi) (this other : delegate) : Bool :=
  this.compare abi other.mp_target == 1

/-- The member `operator>=(const delegate & other)`. -/
def delegate.ge (abi : Abi) (this other : delegate) : Bool :=
  (this.compare abi other.mp_target == 1) || (this.compare abi other.mp_target == 0)

/-- The conversion `explicit operator bool()`. -/
def delegate.to_bool (this : delegate) : Bool :=
  this.mp_invoker.isSome

/-- The call operator `operator()`: `(*mp_invoker)(&mp_target[0], args...)`,
undefined through a null `mp_invoker`. -/
def delegate.call {A R E : Type} (Γ : Env A R E) (this : delegate) (args : A) :
    Invocation R E :=
  match this.mp_invoker with
  | none => Invocation.undefined
  | some invoker =>
      Invocation.of_except (Γ.run invoker (read this.mp_target (target_size Γ.abi)) args)

/-- The pointer value whose object representation starts the given bytes. -/
def value_of (bytes : List Nat) (width : Nat) : Nat :=
  (bytes.take width).foldr (fun b acc => b + 256 * acc) 0

/-- The legacy environment of the demo program: `invoke<nullptr, _Signature>`
calls the function whose address is in `mp_function`. -/
def demo_env : Env Int Int Nat :=
  { abi := demo_abi,
    run := fun invoker bytes arg =>
      match invoker with
      | Invoker.static_fn => demo_code (value_of bytes demo_abi.fnptr_size) arg
      | _ => Except.ok arg }

end legacy

/-- A program over the test fixtures: build a holder of the inline
`functor_noexcept<small_t>{ 10 }`, move-construct a second holder from it, and
destroy both. -/
def demo_move_program : List (Op Int Int) :=
  [Op.ctor_value (Obj.obj 0 10), Op.ctor_move 0, Op.dtor 1, Op.dtor 0]

/-- As `demo_move_program`, with a move assignment to a default-constructed
holder in place of the move construction. -/
def demo_move_assign_program : List (Op Int Int) :=
  [Op.ctor_value (Obj.obj 0 10), Op.ctor, Op.assign_move 1 0, Op.dtor 1, Op.dtor 0]

/-- Whether an event is the construction of a target object. -/
def Event.is_construct : Event → Bool
  | Event.construct _ _ => true
  | _ => false

/-! ## Basic facts about the placement predicate -/

section
variable {V A R E : Type}

theorem le_round_up (x a : Nat) : x ≤ round_up x a := by
  unfold round_up
  split
  · exact le_rfl
  · rename_i h
    have hpos : 0 < a := Nat.pos_of_ne_zero h
    have h1 := Nat.div_add_mod (x + a - 1) a
    have h2 := Nat.mod_lt (x + a - 1) hpos
    have h3 : a * ((x + a - 1) / a) = (x + a - 1) / a * a := Nat.mul_comm _ _
    omega

theorem Abi.fnptr_size_le (abi : Abi) : abi.fnptr_size ≤ abi.sizeof_block := by
  unfold Abi.sizeof_block
  have h1 := le_round_up (round_up abi.union_size abi.ptr_align + abi.ptr_size) abi.alignof_block
  have h2 := le_round_up abi.union_size abi.ptr_align
  have h3 : abi.fnptr_size ≤ abi.union_size := by
    unfold Abi.union_size
    have := le_round_up (max abi.memfn_size (max abi.memobj_size abi.fnptr_size)) abi.union_align
    have h4 : abi.fnptr_size ≤ max abi.memfn_size (max abi.memobj_size abi.fnptr_size) := by
      simp
    omega
  omega

theorem Abi.fnptr_align_le (abi : Abi) : abi.fnptr_align ≤ abi.alignof_block := by
  unfold Abi.alignof_block Abi.union_align
  simp

theorem Abi.ptr_size_le (abi : Abi) : abi.ptr_size ≤ abi.sizeof_block := by
  unfold Abi.sizeof_block
  have h1 := le_round_up (round_up abi.union_size abi.ptr_align + abi.ptr_size) abi.alignof_block
  omega

theorem Abi.ptr_align_le (abi : Abi) : abi.ptr_align ≤ abi.alignof_block := by
  unfold Abi.alignof_block
  simp

/-- Object pointers always fit the buffer. -/
theorem Abi.is_internal_ptr_eq (abi : Abi) : abi.is_internal_ptr = true := by
  simp [Abi.is_internal_ptr, Abi.ptr_size_le, Abi.ptr_align_le]

/-- Function pointers always fit the buffer. -/
theorem Env.is_internal_v_fnptr (Γ : Env V A R E) (sig : Nat) :
    Γ.is_internal_v (Ty.fnptr sig) = true := by
  simp [Env.is_internal_v, Env.sizeof, Env.alignof, Env.is_nothrow_move_constructible_v,
    Abi.fnptr_size_le, Abi.fnptr_align_le]

theorem storage.put_address_eq (Γ : Env V A R E) (s : storage V) (a : Nat) :
    s.put_address Γ a = storage.address a := by
  simp [storage.put_address, Abi.is_internal_ptr_eq]

/-! ## Equality of holders -/

/-- Claim C1: for any two holders `a` and `b` of one contract, `a == b` is true
iff both are Empty, or both are Holding with the same dispatcher and that
dispatcher's `compare` of the two storages returns true. -/
theorem C1_eq_iff (Γ : Env V A R E) (W : World V E) (a b : delegate V) :
    delegate.eq Γ W a b = true ↔
      (a.to_bool = false ∧ b.to_bool = false) ∨
      (∃ T, a.vptr_ = some T ∧ b.vptr_ = some T ∧
        (vtable Γ T).compare a.data_ b.data_ W = true) := by
  unfold delegate.eq delegate.to_bool
  cases ha : a.vptr_ <;> cases hb : b.vptr_ <;> simp
  rename_i Ta Tb
  by_cases h : Ta = Tb
  · subst h
    simp
  · simp [h]
    intro _ h2
    exact h h2.symm

end

/-! ## Frame lemmas: what depends on the world only through its heap -/

section
variable {V A R E : Type}

theorem World.log_heap (W : World V E) (ev : Event) : (W.log ev).heap = W.heap := rfl

theorem World.deallocate_heap (W : World V E) (a s al : Nat) :
    (W.deallocate a s al).heap = W.heap := rfl

theorem World.allocate_heap (W : World V E) (size align : Nat) :
    (W.allocate size align).2.heap = W.heap := by
  unfold World.allocate
  split <;> rfl

theorem memory_owner.dtor_heap (m : memory_owner) (W : World V E) :
    (m.dtor W).heap = W.heap := by
  unfold memory_owner.dtor
  split <;> rfl

theorem deref_congr (W1 W2 : World V E) (h : W1.heap = W2.heap) (s : storage V) (T : Ty)
    (p : Place) : deref W1 s T p = deref W2 s T p := by
  cases p <;> simp [deref, h]

theorem storage.target_congr (Γ : Env V A R E) (W1 W2 : World V E) (h : W1.heap = W2.heap)
    (s : storage V) (T : Ty) : s.target Γ T W1 = s.target Γ T W2 := by
  unfold storage.target
  cases s.get_as Γ T with
  | none => rfl
  | some p => exact deref_congr W1 W2 h s T p

theorem compare_congr (Γ : Env V A R E) (T : Ty) (W1 W2 : World V E) (a1 a2 b1 b2 : storage V)
    (ha : a1.target Γ T W1 = a2.target Γ T W2) (hb : b1.target Γ T W1 = b2.target Γ T W2) :
    compare Γ T a1 b1 W1 = compare Γ T a2 b2 W2 := by
  unfold compare
  rw [ha, hb]

theorem delegate.eq_congr (Γ : Env V A R E) (W1 W2 : World V E) (a1 a2 b1 b2 : delegate V)
    (hva : a1.vptr_ = a2.vptr_) (hvb : b1.vptr_ = b2.vptr_)
    (ha : ∀ T, a1.vptr_ = some T → b1.vptr_ = some T →
      a1.data_.target Γ T W1 = a2.data_.target Γ T W2)
    (hb : ∀ T, a1.vptr_ = some T → b1.vptr_ = some T →
      b1.data_.target Γ T W1 = b2.data_.target Γ T W2) :
    delegate.eq Γ W1 a1 b1 = delegate.eq Γ W2 a2 b2 := by
  unfold delegate.eq
  rw [← hva, ← hvb]
  cases h : a1.vptr_ with
  | none => rfl
  | some T =>
    by_cases hT : b1.vptr_ = some T
    · simp only [vtable]
      rw [compare_congr Γ T W1 W2 a1.data_ a2.data_ b1.data_ b2.data_ (ha T h hT) (hb T h hT)]
    · have hne : some T ≠ b1.vptr_ := fun h2 => hT h2.symm
      simp [hne]

/-- The result of the adapter is the result of calling the target found by `get_as<T>`. -/
theorem invoke_result (Γ : Env V A R E) (C : Contract) (T : Ty) (s : storage V) (W : World V E)
    (args : A) :
    (invoke Γ C T s W args).map (fun r => r.1) =
      (s.target Γ T W).map (fun o => (Γ.call_obj C.cv C.category o args).1) := by
  unfold invoke storage.target
  cases s.get_as Γ T with
  | none => rfl
  | some p =>
    simp only []
    cases deref W s T p <;> rfl

/-- The result of the call operator, read off the holder's fields. -/
theorem delegate.call_result (Γ : Env V A R E) (C : Contract) (d : delegate V) (W : World V E)
    (args : A) :
    (delegate.call Γ C d W args).1 =
      match d.call_ with
      | none => Invocation.assert_failed
      | some T =>
          match d.data_.target Γ T W with
          | none => Invocation.undefined
          | some o => Invocation.of_except (Γ.call_obj C.cv C.category o args).1 := by
  unfold delegate.call
  cases hc : d.call_ with
  | none => rfl
  | some T =>
    simp only []
    unfold invoke storage.target
    cases d.data_.get_as Γ T <;> simp only []
    rename_i p
    cases deref W d.data_ T p <;> simp only []
    rename_i o
    cases hx : (Γ.call_obj C.cv C.category o args).1 <;> simp [Invocation.of_except]

theorem delegate.call_congr (Γ : Env V A R E) (C : Contract) (d1 d2 : delegate V)
    (W1 W2 : World V E) (args : A) (hc : d1.call_ = d2.call_)
    (ht : ∀ T, d1.call_ = some T → d1.data_.target Γ T W1 = d2.data_.target Γ T W2) :
    (delegate.call Γ C d1 W1 args).1 = (delegate.call Γ C d2 W2 args).1 := by
  rw [delegate.call_result, delegate.call_result, ← hc]
  cases h : d1.call_ with
  | none => rfl
  | some T => simp only []; rw [ht T h]

/-- What `move<T>` does to the target: the destination holds what the source
held, and no heap object changes. -/
theorem move_target (Γ : Env V A R E) (T : Ty) (src : storage V) (W : World V E) :
    (move Γ T src storage.raw W).1.target Γ T (move Γ T src storage.raw W).2 =
        src.target Γ T W ∧
      (move Γ T src storage.raw W).2.heap = W.heap := by
  unfold move
  by_cases hi : Γ.is_internal_v T = true
  · simp only [hi, if_true]
    cases ht : src.target Γ T W with
    | none =>
      simp [storage.target, storage.get_as, hi, deref]
    | some o =>
      have hty : o.ty = T := by
        simp only [storage.target, storage.get_as, hi, if_true, deref] at ht
        cases src with
        | raw => simp at ht
        | address a => simp at ht
        | inplace o2 =>
          simp at ht
          obtain ⟨h1, h2⟩ := ht
          subst h2
          exact h1
      simp [storage.target, storage.get_as, hi, deref, hty, World.log_heap]
  · simp only [hi]
    cases src with
    | raw => simp [storage.target, storage.get_as, hi]
    | inplace o => simp [storage.target, storage.get_as, hi]
    | address a =>
      simp [storage.target, storage.get_as, hi, storage.put_address_eq]

end

/-! ## Move construction -/

section
variable {V A R E : Type}

/-- Claim C3: move-construction has no failure outcome and consults neither the
memory resource nor a fallible constructor; if the source is Holding, afterwards
the source is Empty and the new holder is truthy, compares with every holder (in
both orders) as the source did, and gives the source's invocation results; if
the source is Empty, both holders are Empty. -/
theorem C3_move_construct (Γ : Env V A R E) (C : Contract) (W : World V E) (s : delegate V)
    (hinv : s.call_ = s.vptr_) :
    (delegate.ctor_move Γ s W).2.2.heap = W.heap ∧
    (delegate.ctor_move Γ s W).2.2.calls = W.calls ∧
    (s.to_bool = true →
      (delegate.ctor_move Γ s W).2.1.to_bool = false ∧
      (delegate.ctor_move Γ s W).1.to_bool = true ∧
      (∀ x, delegate.eq Γ (delegate.ctor_move Γ s W).2.2 (delegate.ctor_move Γ s W).1 x =
              delegate.eq Γ W s x) ∧
      (∀ x, delegate.eq Γ (delegate.ctor_move Γ s W).2.2 x (delegate.ctor_move Γ s W).1 =
              delegate.eq Γ W x s) ∧
      (∀ args : A,
        (delegate.call Γ C (delegate.ctor_move Γ s W).1 (delegate.ctor_move Γ s W).2.2 args).1 =
          (delegate.call Γ C s W args).1)) ∧
    (s.to_bool = false →
      (delegate.ctor_move Γ s W).2.1.to_bool = false ∧
      (delegate.ctor_move Γ s W).1.to_bool = false) := by
  cases hv : s.vptr_ with
  | none =>
    simp [delegate.ctor_move, hv, delegate.to_bool]
  | some T =>
    have hm := move_target Γ T s.data_ W
    have hcalls : (move Γ T s.data_ storage.raw W).2.calls = W.calls := by
      unfold move
      split
      · split <;> rfl
      · split <;> rfl
    simp only [delegate.ctor_move, hv, vtable, delegate.to_bool, Option.isSome_some,
      Option.isSome_none]
    refine ⟨hm.2, hcalls, fun _ => ⟨trivial, trivial, ?_, ?_, ?_⟩, fun h => by simp at h⟩
    · intro x
      apply delegate.eq_congr
      · simp [hv]
      · rfl
      · intro T2 h2 _
        simp only [Option.some.injEq] at h2
        subst h2
        exact hm.1
      · intro T2 _ _
        exact storage.target_congr Γ _ _ hm.2 _ _
    · intro x
      apply delegate.eq_congr
      · rfl
      · simp [hv]
      · intro T2 _ _
        exact storage.target_congr Γ _ _ hm.2 _ _
      · intro T2 _ h2
        simp only [Option.some.injEq] at h2
        subst h2
        exact hm.1
    · intro args
      apply delegate.call_congr
      · rfl
      · intro T2 h2
        simp only [hinv, hv, Option.some.injEq] at h2
        subst h2
        exact hm.1

end

/-! ## Construction from a value: postcondition and frame -/

section
variable {V A R E : Type}

theorem deref_ty (W : World V E) (s : storage V) (T : Ty) (p : Place) (o : Obj V)
    (h : deref W s T p = some o) : o.ty = T := by
  cases p with
  | buffer =>
    cases s with
    | raw => simp [deref] at h
    | address a => simp [deref] at h
    | inplace o2 =>
      simp only [deref] at h
      split at h
      · simp only [Option.some.injEq] at h
        subst h
        assumption
      · simp at h
  | block a =>
    simp only [deref] at h
    split at h
    · split at h
      · simp only [Option.some.injEq] at h
        subst h
        assumption
      · simp at h
    · simp at h

/-- The object found through `get_as<T>` has type `T`. -/
theorem storage.target_ty (Γ : Env V A R E) (T : Ty) (s : storage V) (W : World V E) (o : Obj V)
    (h : s.target Γ T W = some o) : o.ty = T := by
  unfold storage.target at h
  cases hg : s.get_as Γ T with
  | none => rw [hg] at h; simp at h
  | some p => rw [hg] at h; exact deref_ty W s T p o h

/-- Values that compare equal belong to an equality-comparable type. -/
theorem Env.equals_comparable (Γ : Env V A R E) (a b : Obj V) (h : Γ.equals a b = true) :
    Γ.is_equality_comparable_v a.ty = true := by
  cases a with
  | fp sig p => rfl
  | obj i v =>
    cases b with
    | fp sig p => simp [Env.equals] at h
    | obj j w =>
      simp only [Env.equals] at h
      simp only [Obj.ty, Env.is_equality_comparable_v]
      cases hq : (Γ.cls i).equals with
      | none => rw [hq] at h; simp at h
      | some eq => rfl

/-- A buffer whose address was handed out earlier reads the same target after
more of the heap has been handed out and written. -/
theorem storage.target_frame (Γ : Env V A R E) (T : Ty) (s : storage V) (W : World V E)
    (a : Nat) (o : Obj V) (tr : List Event) (c : Nat) (hs : s.owned W = true)
    (ha : W.brk < a) :
    s.target Γ T
        { W with heap := fun b => if b = a then some o else W.heap b, brk := a, calls := c,
                 trace := tr } =
      s.target Γ T W := by
  unfold storage.target
  cases hg : s.get_as Γ T with
  | none => rfl
  | some p =>
    cases p with
    | buffer => rfl
    | block b =>
      have hb : s = storage.address b := by
        unfold storage.get_as at hg
        split at hg
        · simp at hg
        · split at hg
          · simp only [Option.some.injEq, Place.block.injEq] at hg
            subst hg
            rfl
          · simp at hg
      subst hb
      have hne : b ≠ a := by
        simp only [storage.owned, decide_eq_true_eq] at hs
        omega
      simp [deref, hne]

/-- What a successful `delegate(F func)` establishes: the holder is Holding with
the dispatcher and adapter of `F`, its target is `func`, its buffer is owned,
and every buffer owned before reads the same target as before. -/
theorem delegate.ctor_value_post (Γ : Env V A R E) (func : Obj V) (W W2 : World V E)
    (h : delegate V) (hc : delegate.ctor_value Γ func W = (Except.ok h, W2))
    (hh : h.to_bool = true) :
    h.vptr_ = some func.ty ∧ h.call_ = some func.ty ∧
    h.data_.target Γ func.ty W2 = some func ∧
    h.data_.owned W2 = true ∧
    W.brk ≤ W2.brk ∧
    (∀ (s : storage V) (T : Ty), s.owned W = true → s.target Γ T W2 = s.target Γ T W) := by
  unfold delegate.ctor_value at hc
  split at hc
  · simp only [Prod.mk.injEq, Except.ok.injEq] at hc
    obtain ⟨h1, _⟩ := hc
    subst h1
    simp [delegate.ctor, delegate.to_bool] at hh
  · split at hc
    · rename_i hint
      simp only [Prod.mk.injEq, Except.ok.injEq] at hc
      obtain ⟨h1, h2⟩ := hc
      subst h1 h2
      refine ⟨rfl, rfl, ?_, rfl, le_rfl, ?_⟩
      · simp [storage.target, storage.get_as, hint, deref]
      · intro s T _
        exact storage.target_congr Γ _ _ (World.log_heap W _) s T
    · rename_i hint
      unfold memory_owner.ctor World.allocate at hc
      cases ho : W.oracle W.calls with
      | raise e => simp [ho] at hc
      | null =>
        simp only [ho, memory_owner.get, ne_eq, not_true_eq_false, if_false] at hc
        simp only [Prod.mk.injEq, Except.ok.injEq] at hc
        obtain ⟨h1, _⟩ := hc
        subst h1
        simp [delegate.ctor, delegate.to_bool] at hh
      | block =>
        simp only [ho, memory_owner.get, ne_eq, Nat.add_one_ne_zero, not_false_eq_true,
          if_true] at hc
        cases hm : Γ.move_raises func with
        | some e => simp [hm] at hc
        | none =>
          simp only [hm, Prod.mk.injEq, Except.ok.injEq] at hc
          obtain ⟨h1, h2⟩ := hc
          subst h1 h2
          simp only [storage.put_address_eq, memory_owner.release, memory_owner.dtor,
            World.construct_at, ne_eq, not_true_eq_false, if_false]
          refine ⟨trivial, trivial, ?_, ?_, ?_, ?_⟩
          · simp [storage.target, storage.get_as, hint, deref]
          · simp [storage.owned]
          · simp
          · intro s T hs
            exact storage.target_frame Γ T s W (W.brk + 1) func _ _ hs (Nat.lt_succ_self _)

/-- A holder that `delegate(F func)` built satisfies the class invariant. -/
theorem delegate.ctor_value_valid (Γ : Env V A R E) (func : Obj V) (W W2 : World V E)
    (h : delegate V) (hc : delegate.ctor_value Γ func W = (Except.ok h, W2))
    (hh : h.to_bool = true) : h.valid Γ W2 = true := by
  obtain ⟨p1, p2, p3, p4, _, _⟩ := delegate.ctor_value_post Γ func W W2 h hc hh
  simp [delegate.valid, p1, p2, p3, p4]

end

/-! ## Assignment whose replacement cannot be constructed -/

section
variable {V A R E : Type}

/-- A value whose move constructor can raise is placed out of line. -/
theorem Env.move_raises_external (Γ : Env V A R E) (func : Obj V) (e : E)
    (h : Γ.move_raises func = some e) :
    is_pointer_v func.ty = false ∧ Γ.is_internal_v func.ty = false := by
  cases func with
  | fp sig p => simp [Env.move_raises] at h
  | obj id v =>
    simp only [Env.move_raises] at h
    split at h
    · simp at h
    · rename_i hn
      simp [is_pointer_v, Obj.ty, Env.is_internal_v, Env.is_nothrow_move_constructible_v, hn]

/-- The assignment `operator=(F func)` when the block is obtained and
`F{ std::move(func) }` raises: the exception escapes, the holder keeps every
field, the block goes back, and no heap object changes. -/
theorem delegate.assign_value_raise (Γ : Env V A R E) (d : delegate V) (func : Obj V)
    (W : World V E) (e : E) (halloc : W.oracle W.calls = AllocReply.block)
    (hraise : Γ.move_raises func = some e) :
    (delegate.assign_value Γ d func W).1 = some e ∧
    (delegate.assign_value Γ d func W).2.1 = d ∧
    (delegate.assign_value Γ d func W).2.2.heap = W.heap ∧
    (delegate.assign_value Γ d func W).2.2.brk = W.brk + 1 := by
  obtain ⟨hp, hi⟩ := Γ.move_raises_external func e hraise
  simp [delegate.assign_value, hp, hi, memory_owner.ctor, World.allocate, halloc,
    memory_owner.get, hraise, memory_owner.dtor, World.deallocate, World.log]

theorem storage.owned_mono (s : storage V) (W1 W2 : World V E) (h : W1.brk ≤ W2.brk)
    (hs : s.owned W1 = true) : s.owned W2 = true := by
  cases s with
  | raw => rfl
  | inplace o => rfl
  | address a =>
    simp only [storage.owned, decide_eq_true_eq] at hs ⊢
    omega

/-- Claim C2: when a Holding holder is assigned a replacement whose relocation
into its block raises, the exception reaches the caller and the holder is left
as it was: still truthy, comparing with every holder as before, equal to a
holder built afterwards from its original value, and giving the original
invocation results. -/
theorem C2_failed_assignment_keeps_target (Γ : Env V A R E) (C : Contract) (W : World V E)
    (d : delegate V) (func : Obj V) (e : E)
    (hvalid : d.valid Γ W = true) (hhold : d.to_bool = true)
    (halloc : W.oracle W.calls = AllocReply.block)
    (hraise : Γ.move_raises func = some e) :
    (delegate.assign_value Γ d func W).1 = some e ∧
    (delegate.assign_value Γ d func W).2.1 = d ∧
    (delegate.assign_value Γ d func W).2.1.to_bool = true ∧
    (∀ x, delegate.eq Γ (delegate.assign_value Γ d func W).2.2
            (delegate.assign_value Γ d func W).2.1 x = delegate.eq Γ W d x) ∧
    (∀ x, delegate.eq Γ (delegate.assign_value Γ d func W).2.2 x
            (delegate.assign_value Γ d func W).2.1 = delegate.eq Γ W x d) ∧
    (∀ args : A,
      (delegate.call Γ C (delegate.assign_value Γ d func W).2.1
          (delegate.assign_value Γ d func W).2.2 args).1 = (delegate.call Γ C d W args).1) ∧
    (∀ (T : Ty) (orig : Obj V) (h : delegate V) (W2 : World V E),
      d.vptr_ = some T → d.data_.target Γ T W = some orig → Γ.equals orig orig = true →
      delegate.ctor_value Γ orig (delegate.assign_value Γ d func W).2.2 = (Except.ok h, W2) →
      h.to_bool = true →
      delegate.eq Γ W2 (delegate.assign_value Γ d func W).2.1 h = true ∧
      delegate.eq Γ W2 h (delegate.assign_value Γ d func W).2.1 = true ∧
      ∀ args : A,
        (delegate.call Γ C (delegate.assign_value Γ d func W).2.1 W2 args).1 =
          (delegate.call Γ C d W args).1) := by
  obtain ⟨h1, h2, h3, h4⟩ := delegate.assign_value_raise Γ d func W e halloc hraise
  have hframe : ∀ (s : storage V) (T : Ty),
      s.target Γ T (delegate.assign_value Γ d func W).2.2 = s.target Γ T W :=
    fun s T => storage.target_congr Γ _ _ h3 s T
  refine ⟨h1, h2, by rw [h2]; exact hhold, ?_, ?_, ?_, ?_⟩
  · intro x
    rw [h2]
    exact delegate.eq_congr Γ _ _ _ _ _ _ rfl rfl (fun T _ _ => hframe _ T)
      (fun T _ _ => hframe _ T)
  · intro x
    rw [h2]
    exact delegate.eq_congr Γ _ _ _ _ _ _ rfl rfl (fun T _ _ => hframe _ T)
      (fun T _ _ => hframe _ T)
  · intro args
    rw [h2]
    exact delegate.call_congr Γ C _ _ _ _ args rfl (fun T _ => hframe _ T)
  · intro T orig h W2 hv ht heq hc hh
    rw [h2] at *
    obtain ⟨p1, p2, p3, _, _, p6⟩ := delegate.ctor_value_post Γ orig _ W2 h hc hh
    have hty : orig.ty = T := storage.target_ty Γ T d.data_ W orig ht
    have hcmp : Γ.is_equality_comparable_v T = true := by
      rw [← hty]
      exact Γ.equals_comparable orig orig heq
    have hown : d.data_.owned W = true := by
      simp only [delegate.valid, hv, Bool.and_eq_true, decide_eq_true_eq] at hvalid
      exact hvalid.2.2
    have hown2 : d.data_.owned (delegate.assign_value Γ d func W).2.2 = true :=
      storage.owned_mono _ W _ (by rw [h4]; exact Nat.le_succ _) hown
    have hd2 : ∀ T2, d.data_.target Γ T2 W2 = d.data_.target Γ T2 W := by
      intro T2
      rw [p6 d.data_ T2 hown2, hframe]
    rw [hty] at p1 p3
    refine ⟨?_, ?_, ?_⟩
    · simp [delegate.eq, hv, p1, vtable, compare, hcmp, hd2, ht, p3, heq]
    · simp [delegate.eq, hv, p1, vtable, compare, hcmp, hd2, ht, p3, heq]
    · intro args
      exact delegate.call_congr Γ C _ _ _ _ args rfl (fun T2 _ => hd2 T2)

end

/-! ## Assigning a null function pointer -/

section
variable {V A R E : Type}

/-- An Empty holder and a Holding holder never compare equal. -/
theorem delegate.eq_holding_empty (Γ : Env V A R E) (W : World V E) (h x : delegate V)
    (hh : h.to_bool = true) (hx : x.to_bool = false) :
    delegate.eq Γ W h x = false ∧ delegate.eq Γ W x h = false := by
  unfold delegate.to_bool at hh hx
  cases hv : h.vptr_ with
  | none => rw [hv] at hh; simp at hh
  | some T =>
    cases hw : x.vptr_ with
    | some T2 => rw [hw] at hx; simp at hx
    | none => simp [delegate.eq, hv, hw]

/-- Claim C4: assigning a null function pointer to a Holding holder, through
`operator=(fn_t)` or through the template for any pointer type, returns with the
holder and the world exactly as they were; so the holder stays truthy, unequal
to null and to every Empty holder, compares with every holder as before, and
gives the same invocation results. -/
theorem C4_assign_null_function_pointer (Γ : Env V A R E) (C : Contract) (W : World V E)
    (d : delegate V) (sig : Nat) (hhold : d.to_bool = true) :
    (delegate.assign_value Γ d (Obj.fp sig 0) W).1 = none ∧
    ∀ r ∈ [delegate.assign_fn Γ C d 0 W, (delegate.assign_value Γ d (Obj.fp sig 0) W).2],
      r = (d, W) ∧
      r.1.to_bool = true ∧ r.1.ne_nullptr = true ∧ r.1.eq_nullptr = false ∧
      (∀ x : delegate V, x.to_bool = false →
        delegate.eq Γ r.2 r.1 x = false ∧ delegate.eq Γ r.2 x r.1 = false ∧
        delegate.ne Γ r.2 r.1 x = true ∧ delegate.ne Γ r.2 x r.1 = true) ∧
      (∀ x : delegate V, delegate.eq Γ r.2 r.1 x = delegate.eq Γ W d x ∧
        delegate.eq Γ r.2 x r.1 = delegate.eq Γ W x d) ∧
      (∀ args : A, (delegate.call Γ C r.1 r.2 args).1 = (delegate.call Γ C d W args).1) := by
  have h1 : delegate.assign_fn Γ C d 0 W = (d, W) := by simp [delegate.assign_fn]
  have h2 : delegate.assign_value Γ d (Obj.fp sig 0) W = (none, d, W) := by
    simp [delegate.assign_value, is_pointer_v, Obj.ty, Obj.is_null]
  refine ⟨by rw [h2], ?_⟩
  intro r hr
  have hrd : r = (d, W) := by
    simp only [List.mem_cons, List.mem_singleton, h1, h2, List.not_mem_nil, or_false,
      or_self] at hr
    exact hr
  subst hrd
  refine ⟨rfl, hhold, hhold, by simp [delegate.eq_nullptr, hhold], ?_, fun x => ⟨rfl, rfl⟩,
    fun args => rfl⟩
  intro x hx
  obtain ⟨e1, e2⟩ := delegate.eq_holding_empty Γ W d x hhold hx
  simp [delegate.ne, e1, e2]

/-! ## Targets without an equality operation -/

/-- Claim C5: a Holding holder whose target type has no equality operation is
unequal to every holder of the contract, itself included, in both argument
orders. -/
theorem C5_no_equality_never_equal (Γ : Env V A R E) (W : World V E) (a b : delegate V)
    (T : Ty) (ha : a.vptr_ = some T) (hT : Γ.is_equality_comparable_v T = false) :
    delegate.eq Γ W a b = false ∧ delegate.ne Γ W a b = true ∧
    delegate.eq Γ W b a = false ∧ delegate.ne Γ W b a = true ∧
    delegate.eq Γ W a a = false ∧ delegate.ne Γ W a a = true := by
  have key : ∀ x : delegate V, delegate.eq Γ W a x = false ∧ delegate.eq Γ W x a = false := by
    intro x
    cases hx : x.vptr_ with
    | none => simp [delegate.eq, ha, hx]
    | some T2 =>
      by_cases h : T = T2
      · subst h
        simp [delegate.eq, ha, hx, vtable, compare, hT]
      · have h2 : ¬ T2 = T := fun q => h q.symm
        simp [delegate.eq, ha, hx, h, h2]
  simp [delegate.ne, key]

end

/-! ## Equality follows the stored values -/

section
variable {V A R E : Type}

/-- A `delegate(F func)` that returns, in a world whose memory resource does
not answer null to the call at hand, either was given a null pointer and built
the Empty holder without touching the world, or built a Holding holder. -/
theorem delegate.ctor_value_cases (Γ : Env V A R E) (func : Obj V) (W W1 : World V E)
    (d : delegate V) (hc : delegate.ctor_value Γ func W = (Except.ok d, W1))
    (hnull : W.oracle W.calls ≠ AllocReply.null) :
    ((∃ sig, func = Obj.fp sig 0) ∧ d = delegate.ctor ∧ W1 = W) ∨
    ((∀ sig, func ≠ Obj.fp sig 0) ∧ d.to_bool = true) := by
  unfold delegate.ctor_value at hc
  split at hc
  · rename_i hp
    left
    simp only [Prod.mk.injEq, Except.ok.injEq] at hc
    refine ⟨?_, hc.1.symm, hc.2.symm⟩
    cases func with
    | obj id v => simp [is_pointer_v, Obj.ty] at hp
    | fp sig p =>
      simp only [is_pointer_v, Obj.ty, Obj.is_null, Bool.true_and, decide_eq_true_eq] at hp
      exact ⟨sig, by rw [hp]⟩
  · rename_i hp
    right
    have hnn : ∀ sig, func ≠ Obj.fp sig 0 := by
      intro sig h
      subst h
      simp [is_pointer_v, Obj.ty, Obj.is_null] at hp
    refine ⟨hnn, ?_⟩
    split at hc
    · simp only [Prod.mk.injEq, Except.ok.injEq] at hc
      rw [← hc.1]
      rfl
    · unfold memory_owner.ctor World.allocate at hc
      cases ho : W.oracle W.calls with
      | raise e => simp [ho] at hc
      | null => exact absurd ho hnull
      | block =>
        simp only [ho, memory_owner.get, ne_eq, Nat.add_one_ne_zero, not_false_eq_true,
          if_true] at hc
        cases hm : Γ.move_raises func with
        | some e => simp [hm] at hc
        | none =>
          simp only [hm, Prod.mk.injEq, Except.ok.injEq] at hc
          rw [← hc.1]
          rfl

/-- The constructor `delegate(F func)` leaves the memory resource's answers as they were. -/
theorem delegate.ctor_value_oracle (Γ : Env V A R E) (func : Obj V) (W : World V E) :
    (delegate.ctor_value Γ func W).2.oracle = W.oracle := by
  unfold delegate.ctor_value
  split
  · rfl
  · split
    · rfl
    · unfold memory_owner.ctor World.allocate
      cases W.oracle W.calls with
      | raise e => rfl
      | null => rfl
      | block =>
        simp only [memory_owner.get, ne_eq, Nat.add_one_ne_zero, not_false_eq_true, if_true]
        cases Γ.move_raises func <;> rfl

/-- Claim C6, amended: for values `v`, `w` of one equality-comparable target
type, inline-eligible or heap-placed, whose holders are built one after the
other with a memory resource that never answers null, the holders compare as
the values do. -/
theorem C6_equality_follows_values (Γ : Env V A R E) (W W1 W2 : World V E) (v w : Obj V)
    (d1 d2 : delegate V) (hty : v.ty = w.ty)
    (hcmp : Γ.is_equality_comparable_v v.ty = true)
    (hnull : ∀ n, W.oracle n ≠ AllocReply.null)
    (h1 : delegate.ctor_value Γ v W = (Except.ok d1, W1))
    (h2 : delegate.ctor_value Γ w W1 = (Except.ok d2, W2)) :
    delegate.eq Γ W2 d1 d2 = Γ.equals v w ∧ delegate.eq Γ W2 d2 d1 = Γ.equals w v := by
  have ho : W1.oracle = W.oracle := by
    have := delegate.ctor_value_oracle Γ v W
    rw [h1] at this
    exact this
  have hnull1 : W1.oracle W1.calls ≠ AllocReply.null := by
    rw [ho]
    exact hnull _
  rcases delegate.ctor_value_cases Γ v W W1 d1 h1 (hnull _) with ⟨⟨s1, hv⟩, hd1, _⟩ | ⟨hv, hd1⟩
  · rcases delegate.ctor_value_cases Γ w W1 W2 d2 h2 hnull1 with ⟨⟨s2, hw⟩, hd2, _⟩ | ⟨hw, hd2⟩
    · subst hv hw hd1 hd2
      simp [delegate.eq, delegate.ctor, Env.equals]
    · subst hv hd1
      cases w with
      | obj id x => simp [Obj.ty] at hty
      | fp s2 q =>
        have hq : q ≠ 0 := by
          intro h
          exact hw s2 (by rw [h])
        have hq2 : ¬ 0 = q := fun h => hq h.symm
        obtain ⟨e1, e2⟩ := delegate.eq_holding_empty Γ W2 d2 delegate.ctor hd2 rfl
        simp [e1, e2, Env.equals, hq, hq2]
  · rcases delegate.ctor_value_cases Γ w W1 W2 d2 h2 hnull1 with ⟨⟨s2, hw⟩, hd2, _⟩ | ⟨hw, hd2⟩
    · subst hw hd2
      cases v with
      | obj id x => simp [Obj.ty] at hty
      | fp s1 q =>
        have hq : q ≠ 0 := by
          intro h
          exact hv s1 (by rw [h])
        have hq2 : ¬ 0 = q := fun h => hq h.symm
        obtain ⟨e1, e2⟩ := delegate.eq_holding_empty Γ W2 d1 delegate.ctor hd1 rfl
        simp [e1, e2, Env.equals, hq, hq2]
    · obtain ⟨p1, _, p3, p4, _, _⟩ := delegate.ctor_value_post Γ v W W1 d1 h1 hd1
      obtain ⟨q1, _, q3, _, _, q6⟩ := delegate.ctor_value_post Γ w W1 W2 d2 h2 hd2
      have hd : d1.data_.target Γ v.ty W2 = some v := by rw [q6 d1.data_ v.ty p4, p3]
      rw [← hty] at q1 q3
      simp [delegate.eq, p1, q1, vtable, compare, hcmp, hd, q3]

/-- Claim C6 as stated fails when the memory resource reports failure: two
holders built from the unequal values `10` and `11` of the heap-placed,
equality-comparable `functor_noexcept<large_t>` are both Empty, hence equal. -/
theorem C6_counterexample :
    demo_env.is_equality_comparable_v (Ty.cls 1) = true ∧
    demo_env.is_internal_v (Ty.cls 1) = false ∧
    ∃ (d1 d2 : delegate Int) (W1 W2 : World Int Nat),
      delegate.ctor_value demo_env (Obj.obj 1 10) null_world = (Except.ok d1, W1) ∧
      delegate.ctor_value demo_env (Obj.obj 1 11) W1 = (Except.ok d2, W2) ∧
      ¬ (delegate.eq demo_env W2 d1 d2 = true ↔
          demo_env.equals (Obj.obj 1 10) (Obj.obj 1 11) = true) :=
  ⟨by decide, by decide, _, _, _, _, rfl, rfl, by decide⟩

/-! ## Function pointers -/

theorem delegate.ctor_fn_fields (Γ : Env V A R E) (C : Contract) (f : Nat) (W : World V E)
    (hf : f ≠ 0) :
    delegate.ctor_fn Γ C f W =
      ({ data_ := storage.inplace (C.fn_obj f), call_ := some C.fn_t, vptr_ := some C.fn_t },
        W.log (Event.construct C.fn_t Place.buffer)) := by
  have hi : Γ.is_internal_v C.fn_t = true := by
    unfold Contract.fn_t
    split <;> exact Γ.is_internal_v_fnptr _
  simp [delegate.ctor_fn, hf, storage.assign_as, storage.get_as, hi]

theorem delegate.ctor_value_fp (Γ : Env V A R E) (sig f : Nat) (W : World V E) (hf : f ≠ 0) :
    delegate.ctor_value Γ (Obj.fp sig f) W =
      (Except.ok { data_ := storage.inplace (Obj.fp sig f), call_ := some (Ty.fnptr sig),
                   vptr_ := some (Ty.fnptr sig) },
        W.log (Event.construct (Ty.fnptr sig) Place.buffer)) := by
  simp [delegate.ctor_value, Obj.is_null, hf, Obj.ty, Γ.is_internal_v_fnptr]

theorem Contract.fn_obj_ty (C : Contract) (f : Nat) : (C.fn_obj f : Obj V).ty = C.fn_t := by
  unfold Contract.fn_obj Contract.fn_t
  split <;> rfl

theorem Env.call_obj_fn_obj (Γ : Env V A R E) (C : Contract) (cv : CVQual) (cat : ValueCat)
    (f : Nat) (args : A) : (Γ.call_obj cv cat (C.fn_obj f) args).1 = Γ.code f args := by
  unfold Contract.fn_obj
  split <;> rfl

theorem Env.equals_fn_obj (Γ : Env V A R E) (C : Contract) (f g : Nat) :
    Γ.equals (C.fn_obj f) (C.fn_obj g) = decide (f = g) := by
  unfold Contract.fn_obj
  split <;> rfl

theorem Contract.fn_t_comparable (Γ : Env V A R E) (C : Contract) :
    Γ.is_equality_comparable_v C.fn_t = true := by
  unfold Contract.fn_t
  split <;> rfl

theorem Contract.fn_t_internal (Γ : Env V A R E) (C : Contract) :
    Γ.is_internal_v C.fn_t = true := by
  unfold Contract.fn_t
  split <;> exact Γ.is_internal_v_fnptr _

/-- Claim C7: invoking a holder built from a non-null function pointer `f`,
through `delegate(fn_t)` or through the template for any pointer type, ends as
the call `f(args)` ends. -/
theorem C7_invoke_function_pointer (Γ : Env V A R E) (C : Contract) (W : World V E)
    (f sig : Nat) (args : A) (hf : f ≠ 0) :
    (delegate.call Γ C (delegate.ctor_fn Γ C f W).1 (delegate.ctor_fn Γ C f W).2 args).1 =
        Invocation.of_except (Γ.code f args) ∧
    ∃ d : delegate V,
      (delegate.ctor_value Γ (Obj.fp sig f) W).1 = Except.ok d ∧
      (delegate.call Γ C d (delegate.ctor_value Γ (Obj.fp sig f) W).2 args).1 =
        Invocation.of_except (Γ.code f args) := by
  constructor
  · rw [delegate.ctor_fn_fields Γ C f W hf, delegate.call_result]
    simp [storage.target, storage.get_as, Contract.fn_t_internal, deref, Contract.fn_obj_ty,
      Env.call_obj_fn_obj]
  · rw [delegate.ctor_value_fp Γ sig f W hf]
    refine ⟨_, rfl, ?_⟩
    rw [delegate.call_result]
    simp [storage.target, storage.get_as, Γ.is_internal_v_fnptr, deref, Obj.ty, Env.call_obj]

/-- Claim C8: two holders built from non-null function pointers of one pointer
type, through `delegate(fn_t)` or through the template, are equal iff the
pointers are the same. -/
theorem C8_function_pointer_equality (Γ : Env V A R E) (C : Contract) (W : World V E)
    (f1 f2 sig : Nat) (h1 : f1 ≠ 0) (h2 : f2 ≠ 0) :
    (delegate.eq Γ (delegate.ctor_fn Γ C f2 (delegate.ctor_fn Γ C f1 W).2).2
        (delegate.ctor_fn Γ C f1 W).1
        (delegate.ctor_fn Γ C f2 (delegate.ctor_fn Γ C f1 W).2).1 = true ↔ f1 = f2) ∧
    ∃ d1 d2 : delegate V,
      (delegate.ctor_value Γ (Obj.fp sig f1) W).1 = Except.ok d1 ∧
      (delegate.ctor_value Γ (Obj.fp sig f2) (delegate.ctor_value Γ (Obj.fp sig f1) W).2).1 =
        Except.ok d2 ∧
      (delegate.eq Γ
          (delegate.ctor_value Γ (Obj.fp sig f2) (delegate.ctor_value Γ (Obj.fp sig f1) W).2).2
          d1 d2 = true ↔ f1 = f2) := by
  constructor
  · rw [delegate.ctor_fn_fields Γ C f1 W h1, delegate.ctor_fn_fields Γ C f2 _ h2]
    simp [delegate.eq, vtable, compare, Contract.fn_t_comparable, storage.target,
      storage.get_as, Contract.fn_t_internal, deref, Contract.fn_obj_ty, Env.equals_fn_obj]
  · rw [delegate.ctor_value_fp Γ sig f1 W h1, delegate.ctor_value_fp Γ sig f2 _ h2]
    refine ⟨_, _, rfl, rfl, ?_⟩
    simp [delegate.eq, vtable, compare, Env.is_equality_comparable_v, storage.target,
      storage.get_as, Γ.is_internal_v_fnptr, deref, Obj.ty, Env.equals]

end

/-! ## Invocation selects the overload the contract names -/

section
variable {V A R E : Type}

/-- Claim C9: there are 24 contract shapes, and for each of them invoking a
holder that stores a function object `v` of class `id` (found through the
adapter's `get_as`, inline or in its block; in particular every holder a
successful `delegate(F)` built from `v`) ends as the call operator of `v`
selected by the contract's cv-qualification and by the value category of the
contract (rvalue for `&&`, lvalue otherwise) ends. -/
theorem C9_invoke_selects_overload (Γ : Env V A R E) (C : Contract) (id : Nat) (v : V)
    (args : A) :
    Contract.all.length = 24 ∧ C ∈ Contract.all ∧
    (∀ (d : delegate V) (W : World V E),
      d.call_ = some (Ty.cls id) → d.data_.target Γ (Ty.cls id) W = some (Obj.obj id v) →
      (delegate.call Γ C d W args).1 =
        Invocation.of_except
          ((Γ.cls id).call C.cv
            (if C.ref = RefQual.rref then ValueCat.rvalue else ValueCat.lvalue) v args).1) ∧
    (∀ (d : delegate V) (W W1 : World V E),
      delegate.ctor_value Γ (Obj.obj id v) W = (Except.ok d, W1) → d.to_bool = true →
      (delegate.call Γ C d W1 args).1 =
        Invocation.of_except
          ((Γ.cls id).call C.cv
            (if C.ref = RefQual.rref then ValueCat.rvalue else ValueCat.lvalue) v args).1) := by
  have hcat : C.category = (if C.ref = RefQual.rref then ValueCat.rvalue else ValueCat.lvalue) := by
    unfold Contract.category
    cases C.ref <;> simp
  have gen : ∀ (d : delegate V) (W : World V E),
      d.call_ = some (Ty.cls id) → d.data_.target Γ (Ty.cls id) W = some (Obj.obj id v) →
      (delegate.call Γ C d W args).1 =
        Invocation.of_except
          ((Γ.cls id).call C.cv
            (if C.ref = RefQual.rref then ValueCat.rvalue else ValueCat.lvalue) v args).1 := by
    intro d W hc ht
    rw [delegate.call_result, hc]
    simp only [ht, Env.call_obj, hcat]
  refine ⟨by decide, ?_, gen, ?_⟩
  · obtain ⟨cv, ref, ne⟩ := C
    cases cv <;> cases ref <;> cases ne <;> decide
  · intro d W W1 hc hd
    obtain ⟨_, p2, p3, _, _, _⟩ := delegate.ctor_value_post Γ (Obj.obj id v) W W1 d hc hd
    exact gen d W1 p2 p3

/-! ## Empty holders -/

/-- Claim C10: a default-constructed holder, one built from null or from a null
function pointer, both holders after move-construction from an Empty holder,
both holders after move-assignment from an Empty holder, a holder assigned
null, and an Empty holder assigned a null function pointer are all not truthy,
equal to null, and equal to every Empty holder in both argument orders. -/
theorem C10_empty_holders (Γ : Env V A R E) (C : Contract) (W : World V E)
    (e d : delegate V) (sig : Nat) (he : e.to_bool = false) :
    (delegate.ctor_value Γ (Obj.fp sig 0) W).1 = Except.ok delegate.ctor ∧
    (delegate.assign_value Γ e (Obj.fp sig 0) W).1 = none ∧
    ∀ r ∈ [delegate.ctor, delegate.ctor_nullptr, (delegate.ctor_fn Γ C 0 W).1,
            (delegate.ctor_move Γ e W).1, (delegate.ctor_move Γ e W).2.1,
            (delegate.assign_move Γ d e W).1, (delegate.assign_move Γ d e W).2.1,
            (delegate.assign_nullptr Γ d W).1, (delegate.assign_fn Γ C e 0 W).1,
            (delegate.assign_value Γ e (Obj.fp sig 0) W).2.1],
      r.to_bool = false ∧ r.eq_nullptr = true ∧
      ∀ (W2 : World V E) (x : delegate V), x.to_bool = false →
        delegate.eq Γ W2 r x = true ∧ delegate.eq Γ W2 x r = true := by
  have hv : e.vptr_ = none := by
    unfold delegate.to_bool at he
    cases h : e.vptr_ with
    | none => rfl
    | some T => rw [h] at he; simp at he
  have key : ∀ r : delegate V, r.vptr_ = none →
      r.to_bool = false ∧ r.eq_nullptr = true ∧
      ∀ (W2 : World V E) (x : delegate V), x.to_bool = false →
        delegate.eq Γ W2 r x = true ∧ delegate.eq Γ W2 x r = true := by
    intro r hr
    refine ⟨by simp [delegate.to_bool, hr], by simp [delegate.eq_nullptr, delegate.to_bool, hr],
      ?_⟩
    intro W2 x hx
    have hxv : x.vptr_ = none := by
      unfold delegate.to_bool at hx
      cases h : x.vptr_ with
      | none => rfl
      | some T => rw [h] at hx; simp at hx
    simp [delegate.eq, hr, hxv]
  refine ⟨by simp [delegate.ctor_value, is_pointer_v, Obj.ty, Obj.is_null],
    by simp [delegate.assign_value, is_pointer_v, Obj.ty, Obj.is_null], ?_⟩
  intro r hr
  apply key
  simp only [List.mem_cons, List.mem_singleton, List.not_mem_nil, or_false] at hr
  rcases hr with h | h | h | h | h | h | h | h | h | h <;> subst h
  · rfl
  · rfl
  · simp [delegate.ctor_fn, delegate.ctor]
  · simp [delegate.ctor_move, hv]
  · simp [delegate.ctor_move, hv]
  · simp [delegate.assign_move, hv]
  · simp [delegate.assign_move, hv]
  · rfl
  · simp [delegate.assign_fn, hv]
  · simp [delegate.assign_value, is_pointer_v, Obj.ty, Obj.is_null, hv]

end

/-! ## The boolean test and comparison with null -/

section
variable {V A R E : Type}

/-- Claim C11: the boolean test of a holder is true iff it is Holding (it has a
dispatcher; for a holder satisfying the class invariant, iff it has dispatcher,
adapter and target together); `d == nullptr` and `nullptr == d` are the
negation of the boolean test, `d != nullptr` and `nullptr != d` are the boolean
test. -/
theorem C11_bool_and_null_comparisons (Γ : Env V A R E) (W : World V E) (d : delegate V) :
    (d.to_bool = true ↔ ∃ T, d.vptr_ = some T) ∧
    (d.valid Γ W = true →
      (d.to_bool = true ↔
        ∃ T o, d.vptr_ = some T ∧ d.call_ = some T ∧ d.data_.target Γ T W = some o)) ∧
    d.eq_nullptr = !d.to_bool ∧ d.nullptr_eq = !d.to_bool ∧
    d.ne_nullptr = d.to_bool ∧ d.nullptr_ne = d.to_bool := by
  refine ⟨?_, ?_, rfl, rfl, rfl, rfl⟩
  · unfold delegate.to_bool
    cases d.vptr_ <;> simp
  · intro hv
    unfold delegate.to_bool
    unfold delegate.valid at hv
    cases h : d.vptr_ with
    | none => simp
    | some T =>
      simp only [h, Bool.and_eq_true, decide_eq_true_eq] at hv
      obtain ⟨hc, ht, _⟩ := hv
      simp only [Option.isSome_some, true_iff]
      cases ho : d.data_.target Γ T W with
      | none => rw [ho] at ht; simp at ht
      | some o => exact ⟨T, o, rfl, hc, ho⟩

/-! ## Construction from a function pointer -/

/-- Claim C12: `delegate(fn_t)` and the constructor template at any pointer
type give the Empty holder for a null pointer, and for a non-null pointer a
Holding holder whose dispatcher and adapter are those of the pointer's own
pointer-to-function type. -/
theorem C12_construct_from_function_pointer (Γ : Env V A R E) (C : Contract) (W : World V E)
    (p sig : Nat) :
    (p = 0 →
      (delegate.ctor_fn Γ C p W).1.to_bool = false ∧
      delegate.ctor_fn Γ C p W = (delegate.ctor, W) ∧
      delegate.ctor_value Γ (Obj.fp sig p) W = (Except.ok delegate.ctor, W)) ∧
    (p ≠ 0 →
      (delegate.ctor_fn Γ C p W).1.to_bool = true ∧
      (delegate.ctor_fn Γ C p W).1.vptr_ = some C.fn_t ∧
      (delegate.ctor_fn Γ C p W).1.call_ = some C.fn_t ∧
      is_pointer_v C.fn_t = true ∧
      (delegate.ctor_fn Γ C p W).1.data_.target Γ C.fn_t (delegate.ctor_fn Γ C p W).2 =
        some (C.fn_obj p) ∧
      ∃ d : delegate V,
        (delegate.ctor_value Γ (Obj.fp sig p) W).1 = Except.ok d ∧
        d.to_bool = true ∧ d.vptr_ = some (Ty.fnptr sig) ∧ d.call_ = some (Ty.fnptr sig) ∧
        is_pointer_v (Ty.fnptr sig) = true ∧
        d.data_.target Γ (Ty.fnptr sig) (delegate.ctor_value Γ (Obj.fp sig p) W).2 =
          some (Obj.fp sig p)) := by
  constructor
  · intro hp
    subst hp
    refine ⟨by simp [delegate.ctor_fn, delegate.ctor, delegate.to_bool],
      by simp [delegate.ctor_fn], ?_⟩
    simp [delegate.ctor_value, is_pointer_v, Obj.ty, Obj.is_null]
  · intro hp
    rw [delegate.ctor_fn_fields Γ C p W hp, delegate.ctor_value_fp Γ sig p W hp]
    refine ⟨rfl, rfl, rfl, ?_, ?_, _, rfl, rfl, rfl, rfl, rfl, ?_⟩
    · unfold Contract.fn_t
      split <;> rfl
    · simp [storage.target, storage.get_as, Contract.fn_t_internal, deref, Contract.fn_obj_ty]
    · simp [storage.target, storage.get_as, Γ.is_internal_v_fnptr, deref, Obj.ty]

/-! ## Holding against Empty, and different erased types -/

/-- Claim C13: a Holding holder and an Empty holder are unequal in both argument
orders. -/
theorem C13_holding_never_equals_empty (Γ : Env V A R E) (W : World V E) (h e : delegate V)
    (hh : h.to_bool = true) (he : e.to_bool = false) :
    delegate.eq Γ W h e = false ∧ delegate.eq Γ W e h = false ∧
    delegate.ne Γ W h e = true ∧ delegate.ne Γ W e h = true := by
  obtain ⟨h1, h2⟩ := delegate.eq_holding_empty Γ W h e hh he
  simp [delegate.ne, h1, h2]

/-- Claim C14: two Holding holders whose dispatchers are for different types are
unequal, and the answer is the same for every content of the two buffers and
of the heap: no value is compared. -/
theorem C14_different_types_never_equal (Γ : Env V A R E) (W : World V E) (a b : delegate V)
    (Ta Tb : Ty) (ha : a.vptr_ = some Ta) (hb : b.vptr_ = some Tb) (hne : Ta ≠ Tb) :
    delegate.eq Γ W a b = false ∧ delegate.eq Γ W b a = false ∧
    delegate.ne Γ W a b = true ∧ delegate.ne Γ W b a = true ∧
    ∀ (W2 : World V E) (s t : storage V),
      delegate.eq Γ W2 { a with data_ := s } { b with data_ := t } = false ∧
      delegate.eq Γ W2 { b with data_ := t } { a with data_ := s } = false := by
  have hne2 : Tb ≠ Ta := fun h => hne h.symm
  have key : ∀ (W2 : World V E) (s t : storage V),
      delegate.eq Γ W2 { a with data_ := s } { b with data_ := t } = false ∧
      delegate.eq Γ W2 { b with data_ := t } { a with data_ := s } = false := by
    intro W2 s t
    simp [delegate.eq, ha, hb, hne, hne2]
  have k := key W a.data_ b.data_
  simp only [delegate.ne]
  refine ⟨k.1, k.2, by rw [k.1]; rfl, by rw [k.2]; rfl, key⟩

end

/-! ## Destroying the current target -/

section
variable {V A R E : Type}

/-- What a Holding holder that satisfies the class invariant looks like. -/
theorem delegate.valid_holding (Γ : Env V A R E) (W : World V E) (d : delegate V) (T : Ty)
    (hv : d.valid Γ W = true) (hT : d.vptr_ = some T) :
    d.call_ = some T ∧ (∃ o, d.data_.target Γ T W = some o) ∧ d.data_.owned W = true ∧
    (Γ.is_internal_v T = false → ∃ a, d.data_ = storage.address a ∧ a ≤ W.brk ∧
      d.block Γ = some a) ∧
    (Γ.is_internal_v T = true → d.block Γ = none) := by
  simp only [delegate.valid, hT, Bool.and_eq_true, decide_eq_true_eq] at hv
  obtain ⟨hc, ht, ho⟩ := hv
  refine ⟨hc, ?_, ho, ?_, ?_⟩
  · cases h : d.data_.target Γ T W with
    | none => rw [h] at ht; simp at ht
    | some o => exact ⟨o, rfl⟩
  · intro hi
    cases hd : d.data_ with
    | raw => simp [hd, storage.target, storage.get_as, hi] at ht
    | inplace o => simp [hd, storage.target, storage.get_as, hi] at ht
    | address a =>
      refine ⟨a, rfl, ?_, ?_⟩
      · simpa [hd, storage.owned] using ho
      · simp [delegate.block, hT, hi, hd]
  · intro hi
    simp [delegate.block, hT, hi]

/-- The statement `if (vptr_) vptr_->destroy(*this);` records exactly one
destruction of the current target, and nothing when Empty. -/
theorem delegate.destroy_if_holding_trace (Γ : Env V A R E) (d : delegate V) (W : World V E) :
    (d.destroy_if_holding Γ W).2.trace = W.trace ++ expected_destroy_events Γ d := by
  unfold delegate.destroy_if_holding expected_destroy_events
  cases d.vptr_ with
  | none => simp
  | some T =>
    simp only [vtable, destroy]
    by_cases hi : Γ.is_internal_v T = true
    · simp [hi, World.log]
    · simp only [hi]
      cases d.data_ <;>
        simp [storage.get_as, hi, World.teardown_at, World.deallocate, World.log]

/-- The statement `if (vptr_) vptr_->destroy(*this);` leaves the memory
resource's cursor and answers alone, ends the life of the object in the block
the holder owns, and changes no other heap object. -/
theorem delegate.destroy_if_holding_frame (Γ : Env V A R E) (d : delegate V) (W : World V E) :
    (d.destroy_if_holding Γ W).2.brk = W.brk ∧
    (d.destroy_if_holding Γ W).2.calls = W.calls ∧
    (d.destroy_if_holding Γ W).2.oracle = W.oracle ∧
    (∀ b, d.block Γ ≠ some b → (d.destroy_if_holding Γ W).2.heap b = W.heap b) ∧
    (∀ b, d.block Γ = some b → (d.destroy_if_holding Γ W).2.heap b = none) ∧
    (d.data_.owned W = true → (d.destroy_if_holding Γ W).1.owned W = true) := by
  unfold delegate.destroy_if_holding delegate.block
  cases d.vptr_ with
  | none => simp
  | some T =>
    simp only [vtable, destroy]
    by_cases hi : Γ.is_internal_v T = true
    · simp [hi, World.log, storage.owned]
    · simp only [hi]
      cases d.data_ <;>
        simp [storage.get_as, hi, World.teardown_at, World.deallocate, World.log]
      intro b hb
      simp [Ne.symm hb]

end

section
variable {V A R E : Type}

/-- The destruction events, case by case: none for an Empty holder, the
teardown for an inline target, the teardown and then the return of the block
for a heap-placed target. -/
theorem expected_destroy_events_cases (Γ : Env V A R E) (d : delegate V) :
    (d.to_bool = false → expected_destroy_events Γ d = []) ∧
    (∀ T, d.vptr_ = some T → Γ.is_internal_v T = true →
      expected_destroy_events Γ d = [Event.teardown T Place.buffer]) ∧
    (∀ T y, d.vptr_ = some T → d.block Γ = some y →
      expected_destroy_events Γ d =
        [Event.teardown T (Place.block y), Event.deallocate y (Γ.sizeof T) (Γ.alignof T)]) := by
  refine ⟨?_, ?_, ?_⟩
  · intro he
    cases hT : d.vptr_ with
    | none => simp [expected_destroy_events, hT]
    | some T => simp [delegate.to_bool, hT] at he
  · intro T hT hi
    simp [expected_destroy_events, hT, hi]
  · intro T y hT hy
    by_cases hi : Γ.is_internal_v T = true
    · simp [delegate.block, hT, hi] at hy
    · cases hd : d.data_ with
      | raw => simp [delegate.block, hT, hi, hd] at hy
      | inplace o => simp [delegate.block, hT, hi, hd] at hy
      | address a =>
        simp only [delegate.block, hT, hi, hd, Bool.false_eq_true, if_false,
          Option.some.injEq] at hy
        subst hy
        simp [expected_destroy_events, hT, hi, hd]

/-- The destruction events of a Holding holder that satisfies the class
invariant hold exactly one teardown; those of an Empty holder hold none. -/
theorem expected_destroy_events_teardowns (Γ : Env V A R E) (W : World V E) (d : delegate V)
    (hv : d.valid Γ W = true) :
    (expected_destroy_events Γ d).countP Event.is_teardown = if d.to_bool then 1 else 0 := by
  cases hT : d.vptr_ with
  | none => simp [expected_destroy_events, hT, delegate.to_bool]
  | some T =>
    obtain ⟨_, _, _, hext, _⟩ := delegate.valid_holding Γ W d T hv hT
    by_cases hi : Γ.is_internal_v T = true
    · simp [expected_destroy_events, hT, hi, delegate.to_bool, Event.is_teardown]
    · simp only [Bool.not_eq_true] at hi
      obtain ⟨a, ha, _, _⟩ := hext hi
      simp [expected_destroy_events, hT, hi, ha, delegate.to_bool, Event.is_teardown]

/-- Claim C17: after `d = nullptr` the holder is Empty (not truthy, equal to
null in both orders, equal to a default-constructed holder in both orders),
and the record grows by exactly the destruction of the previous target:
nothing for an Empty holder, one teardown for an inline target, one teardown
followed by the return of its block for a heap-placed target, whose object is
gone from the heap. -/
theorem C17_assign_nullptr (Γ : Env V A R E) (W : World V E) (d : delegate V) :
    (delegate.assign_nullptr Γ d W).1.to_bool = false ∧
    (delegate.assign_nullptr Γ d W).1.eq_nullptr = true ∧
    (delegate.assign_nullptr Γ d W).1.nullptr_eq = true ∧
    delegate.eq Γ (delegate.assign_nullptr Γ d W).2 (delegate.assign_nullptr Γ d W).1
      delegate.ctor = true ∧
    delegate.eq Γ (delegate.assign_nullptr Γ d W).2 delegate.ctor
      (delegate.assign_nullptr Γ d W).1 = true ∧
    (d.to_bool = false →
      (delegate.assign_nullptr Γ d W).2.trace = W.trace ∧
      (delegate.assign_nullptr Γ d W).2.heap = W.heap) ∧
    (∀ T, d.vptr_ = some T → Γ.is_internal_v T = true →
      (delegate.assign_nullptr Γ d W).2.trace = W.trace ++ [Event.teardown T Place.buffer] ∧
      (delegate.assign_nullptr Γ d W).2.heap = W.heap) ∧
    (∀ T a, d.vptr_ = some T → Γ.is_internal_v T = false → d.data_ = storage.address a →
      (delegate.assign_nullptr Γ d W).2.trace =
        W.trace ++ [Event.teardown T (Place.block a),
                    Event.deallocate a (Γ.sizeof T) (Γ.alignof T)] ∧
      (delegate.assign_nullptr Γ d W).2.heap a = none ∧
      ∀ b, b ≠ a → (delegate.assign_nullptr Γ d W).2.heap b = W.heap b) ∧
    (d.valid Γ W = true → d.to_bool = true →
      (delegate.assign_nullptr Γ d W).2.trace = W.trace ++ expected_destroy_events Γ d ∧
      (expected_destroy_events Γ d).countP Event.is_teardown = 1 ∧
      ((∃ T, d.vptr_ = some T ∧ Γ.is_internal_v T = true) ∨
        (∃ T a, d.vptr_ = some T ∧ Γ.is_internal_v T = false ∧
          d.data_ = storage.address a))) := by
  have htr := delegate.destroy_if_holding_trace Γ d W
  obtain ⟨_, _, _, hfr, hgone, _⟩ := delegate.destroy_if_holding_frame Γ d W
  refine ⟨rfl, rfl, rfl, by simp [delegate.eq, delegate.assign_nullptr, delegate.ctor],
    by simp [delegate.eq, delegate.assign_nullptr, delegate.ctor], ?_, ?_, ?_, ?_⟩
  · intro he
    have hv : d.vptr_ = none := by
      unfold delegate.to_bool at he
      cases h : d.vptr_ with
      | none => rfl
      | some T => rw [h] at he; simp at he
    simp [delegate.assign_nullptr, delegate.destroy_if_holding, hv]
  · intro T hT hi
    constructor
    · simp only [delegate.assign_nullptr]
      rw [htr]
      simp [expected_destroy_events, hT, hi]
    · funext b
      exact hfr b (by simp [delegate.block, hT, hi])
  · intro T a hT hi ha
    refine ⟨?_, ?_, ?_⟩
    · simp only [delegate.assign_nullptr]
      rw [htr]
      simp [expected_destroy_events, hT, hi, ha]
    · exact hgone a (by simp [delegate.block, hT, hi, ha])
    · intro b hb
      exact hfr b (by simp [delegate.block, hT, hi, ha, Ne.symm hb])
  · intro hv hh
    refine ⟨htr, ?_, ?_⟩
    · rw [expected_destroy_events_teardowns Γ W d hv, hh]
      rfl
    · cases hT : d.vptr_ with
      | none => simp [delegate.to_bool, hT] at hh
      | some T =>
        obtain ⟨_, _, _, hext, _⟩ := delegate.valid_holding Γ W d T hv hT
        by_cases hi : Γ.is_internal_v T = true
        · exact Or.inl ⟨T, rfl, hi⟩
        · simp only [Bool.not_eq_true] at hi
          obtain ⟨a, ha, _, _⟩ := hext hi
          exact Or.inr ⟨T, a, rfl, hi, ha⟩

end

/-! ## Move assignment -/

section
variable {V A R E : Type}

theorem storage.target_heap_congr (Γ : Env V A R E) (T : Ty) (s : storage V)
    (W1 W2 : World V E) (h : ∀ y, s = storage.address y → W1.heap y = W2.heap y) :
    s.target Γ T W1 = s.target Γ T W2 := by
  unfold storage.target
  cases hg : s.get_as Γ T with
  | none => rfl
  | some p =>
    cases p with
    | buffer => rfl
    | block y =>
      have hs : s = storage.address y := by
        unfold storage.get_as at hg
        split at hg
        · simp at hg
        · split at hg
          · simp only [Option.some.injEq, Place.block.injEq] at hg
            subst hg
            rfl
          · simp at hg
      simp [deref, h y hs]

/-- Destroying the target of one holder leaves the target of a holder that
does not own the same block as it was. -/
theorem delegate.target_after_destroy (Γ : Env V A R E) (d x : delegate V) (W : World V E)
    (T : Ty) (hx : x.vptr_ = some T)
    (hsep : ∀ y, d.block Γ = some y → x.block Γ ≠ some y) :
    x.data_.target Γ T (d.destroy_if_holding Γ W).2 = x.data_.target Γ T W := by
  obtain ⟨_, _, _, hfr, _, _⟩ := delegate.destroy_if_holding_frame Γ d W
  by_cases hi : Γ.is_internal_v T = true
  · simp [storage.target, storage.get_as, hi, deref]
  · apply storage.target_heap_congr
    intro y hy
    apply hfr
    intro hd
    apply hsep y hd
    simp [delegate.block, hx, hi, hy]

/-- What `move<T>` does when the source holds a target: the destination holds
it afterwards, no heap object changes, and the record grows by a construction
in the destination buffer exactly when `T` is inline. -/
theorem move_spec (Γ : Env V A R E) (T : Ty) (src dst : storage V) (W : World V E) (o : Obj V)
    (ho : src.target Γ T W = some o) :
    (move Γ T src dst W).1.target Γ T (move Γ T src dst W).2 = some o ∧
    (move Γ T src dst W).2.heap = W.heap ∧
    (move Γ T src dst W).2.brk = W.brk ∧
    (move Γ T src dst W).2.calls = W.calls ∧
    (move Γ T src dst W).2.oracle = W.oracle ∧
    (move Γ T src dst W).2.trace =
      W.trace ++ (if Γ.is_internal_v T then [Event.construct T Place.buffer] else []) ∧
    (src.owned W = true → (move Γ T src dst W).1.owned (move Γ T src dst W).2 = true) ∧
    (Γ.is_internal_v T = false → (move Γ T src dst W).1 = src) := by
  have hty := storage.target_ty Γ T src W o ho
  unfold move
  by_cases hi : Γ.is_internal_v T = true
  · simp only [hi, if_true, ho]
    simp [storage.target, storage.get_as, hi, deref, hty, World.log, storage.owned]
  · simp only [hi]
    cases src with
    | raw => simp [storage.target, storage.get_as, hi] at ho
    | inplace o2 => simp [storage.target, storage.get_as, hi] at ho
    | address a =>
      simp only [storage.get_as, hi, storage.put_address_eq]
      simp [storage.target, storage.get_as, hi] at ho
      simp [storage.target, storage.get_as, hi, ho, storage.owned]

/-- Claim C15: for two holders satisfying the class invariant that do not own
the same block, `a = std::move(b)` first records exactly one destruction of the
target of `a` (a teardown, then the return of its block if heap-placed; nothing
if `a` is Empty), then relocates the target of `b`; afterwards `b` is Empty and
`a` has the dispatcher, adapter and target that `b` had, gives its invocation
results and compares as it did; if `b` was Empty, `a` ends Empty. -/
theorem C15_move_assign (Γ : Env V A R E) (C : Contract) (W : World V E) (a b : delegate V)
    (ha : a.valid Γ W = true) (hb : b.valid Γ W = true)
    (hsep : ∀ y, a.block Γ = some y → b.block Γ ≠ some y) :
    (delegate.assign_move Γ a b W).2.2.trace =
      W.trace ++ expected_destroy_events Γ a ++ expected_move_events Γ b ∧
    (expected_destroy_events Γ a).countP Event.is_teardown = (if a.to_bool then 1 else 0) ∧
    ((a.to_bool = false → expected_destroy_events Γ a = []) ∧
      (∀ T, a.vptr_ = some T → Γ.is_internal_v T = true →
        expected_destroy_events Γ a = [Event.teardown T Place.buffer]) ∧
      (∀ T y, a.vptr_ = some T → a.block Γ = some y →
        expected_destroy_events Γ a =
          [Event.teardown T (Place.block y),
           Event.deallocate y (Γ.sizeof T) (Γ.alignof T)])) ∧
    (∀ y, a.block Γ = some y → (delegate.assign_move Γ a b W).2.2.heap y = none) ∧
    (delegate.assign_move Γ a b W).2.1.to_bool = false ∧
    (delegate.assign_move Γ a b W).1.to_bool = b.to_bool ∧
    (delegate.assign_move Γ a b W).1.vptr_ = b.vptr_ ∧
    (delegate.assign_move Γ a b W).1.call_ = b.call_ ∧
    (∀ T, b.vptr_ = some T →
      (delegate.assign_move Γ a b W).1.data_.target Γ T (delegate.assign_move Γ a b W).2.2 =
        b.data_.target Γ T W) ∧
    (∀ args : A,
      (delegate.call Γ C (delegate.assign_move Γ a b W).1
          (delegate.assign_move Γ a b W).2.2 args).1 = (delegate.call Γ C b W args).1) ∧
    (∀ x : delegate V, (∀ y, a.block Γ = some y → x.block Γ ≠ some y) →
      delegate.eq Γ (delegate.assign_move Γ a b W).2.2 (delegate.assign_move Γ a b W).1 x =
        delegate.eq Γ W b x ∧
      delegate.eq Γ (delegate.assign_move Γ a b W).2.2 x (delegate.assign_move Γ a b W).1 =
        delegate.eq Γ W x b) ∧
    (delegate.assign_move Γ a b W).1.valid Γ (delegate.assign_move Γ a b W).2.2 = true := by
  have htr := delegate.destroy_if_holding_trace Γ a W
  obtain ⟨hbrk, _, _, hfr, hgone, _⟩ := delegate.destroy_if_holding_frame Γ a W
  have hcnt := expected_destroy_events_teardowns Γ W a ha
  cases hT : b.vptr_ with
  | none =>
    have hcall : b.call_ = none := by
      simp only [delegate.valid, hT, Bool.and_true, decide_eq_true_eq] at hb
      exact hb
    simp only [delegate.assign_move, hT]
    refine ⟨by simp [htr, expected_move_events, hT], hcnt, expected_destroy_events_cases Γ a,
      hgone, rfl, by simp [delegate.to_bool, hT], trivial, trivial, ?_, ?_, ?_, ?_⟩
    · intro T h
      simp at h
    · intro args
      rw [delegate.call_result, delegate.call_result]
      simp [hcall]
    · intro x _
      cases hx : x.vptr_ <;> simp [delegate.eq, hT, hx]
    · simp [delegate.valid, hcall]
  | some T =>
    obtain ⟨hcall, ⟨o, ho⟩, hown, hext, _⟩ := delegate.valid_holding Γ W b T hb hT
    have ho0 : b.data_.target Γ T (a.destroy_if_holding Γ W).2 = some o := by
      rw [delegate.target_after_destroy Γ a b W T hT hsep, ho]
    have hown0 : b.data_.owned (a.destroy_if_holding Γ W).2 = true :=
      storage.owned_mono _ W _ (by rw [hbrk]) hown
    obtain ⟨m1, m2, m3, _, _, m6, m7, _⟩ :=
      move_spec Γ T b.data_ (a.destroy_if_holding Γ W).1 (a.destroy_if_holding Γ W).2 o ho0
    have hframe : ∀ (x : delegate V) (T2 : Ty), x.vptr_ = some T2 →
        (∀ y, a.block Γ = some y → x.block Γ ≠ some y) →
        x.data_.target Γ T2
            (move Γ T b.data_ (a.destroy_if_holding Γ W).1 (a.destroy_if_holding Γ W).2).2 =
          x.data_.target Γ T2 W := by
      intro x T2 hx hs
      rw [storage.target_congr Γ _ _ m2, delegate.target_after_destroy Γ a x W T2 hx hs]
    simp only [delegate.assign_move, hT, vtable]
    refine ⟨?_, hcnt, expected_destroy_events_cases Γ a, ?_, rfl,
      by simp [delegate.to_bool, hT], trivial, trivial, ?_, ?_, ?_, ?_⟩
    · rw [m6, htr]
      simp [expected_move_events, hT]
    · intro y hy
      rw [m2]
      exact hgone y hy
    · intro T2 h2
      simp only [Option.some.injEq] at h2
      subst h2
      rw [m1, ho]
    · intro args
      apply delegate.call_congr
      · rfl
      · intro T2 h2
        simp only [hcall, Option.some.injEq] at h2
        subst h2
        rw [m1, ho]
    · intro x hs
      constructor
      · apply delegate.eq_congr
        · simp [hT]
        · rfl
        · intro T2 h2 _
          simp only [Option.some.injEq] at h2
          subst h2
          rw [m1, ho]
        · intro T2 _ h3
          exact hframe x T2 h3 hs
      · apply delegate.eq_congr
        · rfl
        · simp [hT]
        · intro T2 h2 _
          exact hframe x T2 h2 hs
        · intro T2 _ h3
          simp only [Option.some.injEq] at h3
          subst h3
          rw [m1, ho]
    · simp [delegate.valid, hcall, m1, m7 hown0]

end

/-! ## Assignment of a value -/

section
variable {V A R E : Type}

/-- The dispatcher's `compare` on two buffers that hold targets is the
comparison of the targets (which is false when the type has no equality). -/
theorem compare_eq_equals (Γ : Env V A R E) (T : Ty) (lhs rhs : storage V) (W : World V E)
    (a b : Obj V) (ha : lhs.target Γ T W = some a) (hb : rhs.target Γ T W = some b) :
    compare Γ T lhs rhs W = Γ.equals a b := by
  have hty := storage.target_ty Γ T lhs W a ha
  unfold compare
  rw [ha, hb]
  by_cases hc : Γ.is_equality_comparable_v T = true
  · simp [hc]
  · simp only [hc]
    cases a with
    | fp sig p =>
      rw [← hty] at hc
      simp [Obj.ty, Env.is_equality_comparable_v] at hc
    | obj id v =>
      rw [← hty] at hc
      simp only [Obj.ty, Env.is_equality_comparable_v, Bool.not_eq_true] at hc
      cases hq : (Γ.cls id).equals with
      | some eq => rw [hq] at hc; simp at hc
      | none => cases b <;> simp [Env.equals, hq]

/-- Claim C16, amended: for a holder satisfying the class invariant, in any
state, and a value `v` that is not a null pointer and whose placement succeeds
(inline, or the block is obtained and the relocation does not raise), `d = v`
returns normally with `d` truthy and holding `v`; the record grows by exactly
one destruction of the previous target (none if `d` was Empty) and the
placement of `v`; invoking `d` ends as calling `v` ends and as invoking a
holder built from `v` ends; and `d` compares with a Holding holder built from
`v`, in both orders, exactly as `v` compares with itself: equal when `v == v`
holds, which a well-formed `operator==` alone does not ensure. -/
theorem C16_assign_value (Γ : Env V A R E) (C : Contract) (W : World V E) (d : delegate V)
    (v : Obj V) (hv : d.valid Γ W = true)
    (hnn : (is_pointer_v v.ty && v.is_null) = false)
    (hplace : Γ.is_internal_v v.ty = true ∨
      (W.oracle W.calls = AllocReply.block ∧ Γ.move_raises v = none)) :
    (delegate.assign_value Γ d v W).1 = none ∧
    (delegate.assign_value Γ d v W).2.1.to_bool = true ∧
    (delegate.assign_value Γ d v W).2.1.vptr_ = some v.ty ∧
    (delegate.assign_value Γ d v W).2.1.call_ = some v.ty ∧
    (delegate.assign_value Γ d v W).2.1.data_.target Γ v.ty
      (delegate.assign_value Γ d v W).2.2 = some v ∧
    (delegate.assign_value Γ d v W).2.1.valid Γ (delegate.assign_value Γ d v W).2.2 = true ∧
    (Γ.is_internal_v v.ty = true →
      (delegate.assign_value Γ d v W).2.2.trace =
        W.trace ++ expected_destroy_events Γ d ++ [Event.construct v.ty Place.buffer]) ∧
    (Γ.is_internal_v v.ty = false →
      (delegate.assign_value Γ d v W).2.2.trace =
        W.trace ++ [Event.allocate (Γ.sizeof v.ty) (Γ.alignof v.ty) (W.brk + 1),
                    Event.construct v.ty (Place.block (W.brk + 1))] ++
          expected_destroy_events Γ d) ∧
    (expected_destroy_events Γ d).countP Event.is_teardown = (if d.to_bool then 1 else 0) ∧
    ((d.to_bool = false → expected_destroy_events Γ d = []) ∧
      (∀ T, d.vptr_ = some T → Γ.is_internal_v T = true →
        expected_destroy_events Γ d = [Event.teardown T Place.buffer]) ∧
      (∀ T y, d.vptr_ = some T → d.block Γ = some y →
        expected_destroy_events Γ d =
          [Event.teardown T (Place.block y),
           Event.deallocate y (Γ.sizeof T) (Γ.alignof T)])) ∧
    (∀ args : A,
      (delegate.call Γ C (delegate.assign_value Γ d v W).2.1
          (delegate.assign_value Γ d v W).2.2 args).1 =
        Invocation.of_except (Γ.call_obj C.cv C.category v args).1) ∧
    (∀ (h : delegate V) (W2 : World V E),
      delegate.ctor_value Γ v (delegate.assign_value Γ d v W).2.2 = (Except.ok h, W2) →
      h.to_bool = true →
      delegate.eq Γ W2 (delegate.assign_value Γ d v W).2.1 h = Γ.equals v v ∧
      delegate.eq Γ W2 h (delegate.assign_value Γ d v W).2.1 = Γ.equals v v ∧
      (Γ.equals v v = true →
        delegate.eq Γ W2 (delegate.assign_value Γ d v W).2.1 h = true ∧
        delegate.eq Γ W2 h (delegate.assign_value Γ d v W).2.1 = true) ∧
      ∀ args : A,
        (delegate.call Γ C (delegate.assign_value Γ d v W).2.1 W2 args).1 =
          (delegate.call Γ C h W2 args).1) := by
  have hcnt := expected_destroy_events_teardowns Γ W d hv
  -- the six facts about the holder and the record, by placement
  have core :
      (delegate.assign_value Γ d v W).1 = none ∧
      (delegate.assign_value Γ d v W).2.1.vptr_ = some v.ty ∧
      (delegate.assign_value Γ d v W).2.1.call_ = some v.ty ∧
      (delegate.assign_value Γ d v W).2.1.data_.target Γ v.ty
        (delegate.assign_value Γ d v W).2.2 = some v ∧
      (delegate.assign_value Γ d v W).2.1.data_.owned
        (delegate.assign_value Γ d v W).2.2 = true ∧
      (Γ.is_internal_v v.ty = true →
        (delegate.assign_value Γ d v W).2.2.trace =
          W.trace ++ expected_destroy_events Γ d ++ [Event.construct v.ty Place.buffer]) ∧
      (Γ.is_internal_v v.ty = false →
        (delegate.assign_value Γ d v W).2.2.trace =
          W.trace ++ [Event.allocate (Γ.sizeof v.ty) (Γ.alignof v.ty) (W.brk + 1),
                      Event.construct v.ty (Place.block (W.brk + 1))] ++
            expected_destroy_events Γ d) := by
    by_cases hi : Γ.is_internal_v v.ty = true
    · have htr := delegate.destroy_if_holding_trace Γ d W
      simp only [delegate.assign_value, hnn, hi, if_true, Bool.false_eq_true, if_false]
      refine ⟨trivial, trivial, trivial, ?_, rfl, ?_, ?_⟩
      · simp [storage.target, storage.get_as, hi, deref]
      · intro _
        simp [World.log, htr]
      · intro h
        simp at h
    · simp only [Bool.not_eq_true] at hi
      rcases hplace with h | ⟨halloc, hmove⟩
      · rw [h] at hi
        simp at hi
      · -- the world after the block is obtained and `v` is built in it
        have hblk : ∀ y, d.block Γ = some y → y ≤ W.brk := by
          intro y hy
          cases hT : d.vptr_ with
          | none => simp [delegate.block, hT] at hy
          | some T =>
            obtain ⟨_, _, _, hext, hint⟩ := delegate.valid_holding Γ W d T hv hT
            by_cases hiT : Γ.is_internal_v T = true
            · rw [hint hiT] at hy
              simp at hy
            · simp only [Bool.not_eq_true] at hiT
              obtain ⟨a, _, hle, hb⟩ := hext hiT
              rw [hb] at hy
              simp only [Option.some.injEq] at hy
              omega
        have hne : d.block Γ ≠ some (W.brk + 1) := by
          intro hy
          have := hblk _ hy
          omega
        simp only [delegate.assign_value, hnn, hi, Bool.false_eq_true, if_false,
          memory_owner.ctor, World.allocate, halloc, memory_owner.get, ne_eq,
          Nat.add_one_ne_zero, not_false_eq_true, if_true, hmove, storage.put_address_eq,
          memory_owner.release, memory_owner.dtor, not_true_eq_false]
        obtain ⟨hbrk, _, _, hfr, _, _⟩ := delegate.destroy_if_holding_frame Γ d
          (World.construct_at
            { W with brk := W.brk + 1, calls := W.calls + 1,
                     trace := W.trace ++
                       [Event.allocate (Γ.sizeof v.ty) (Γ.alignof v.ty) (W.brk + 1)] }
            (W.brk + 1) v)
        have htr := delegate.destroy_if_holding_trace Γ d
          (World.construct_at
            { W with brk := W.brk + 1, calls := W.calls + 1,
                     trace := W.trace ++
                       [Event.allocate (Γ.sizeof v.ty) (Γ.alignof v.ty) (W.brk + 1)] }
            (W.brk + 1) v)
        refine ⟨trivial, trivial, trivial, ?_, ?_, ?_, ?_⟩
        · simp only [storage.target, storage.get_as, hi, Bool.false_eq_true, if_false, deref]
          rw [hfr _ hne]
          simp [World.construct_at]
        · simp only [storage.owned, decide_eq_true_eq]
          rw [hbrk]
          simp [World.construct_at]
        · intro h
          simp at h
        · intro _
          rw [htr]
          simp [World.construct_at]
  obtain ⟨c1, c2, c3, c4, c5, c6, c7⟩ := core
  have hcall : ∀ (W3 : World V E) (args : A),
      (delegate.assign_value Γ d v W).2.1.data_.target Γ v.ty W3 = some v →
      (delegate.call Γ C (delegate.assign_value Γ d v W).2.1 W3 args).1 =
        Invocation.of_except (Γ.call_obj C.cv C.category v args).1 := by
    intro W3 args h3
    rw [delegate.call_result, c3]
    simp only [h3]
  refine ⟨c1, by simp [delegate.to_bool, c2], c2, c3, c4, by simp [delegate.valid, c2, c3, c4, c5],
    c6, c7, hcnt, expected_destroy_events_cases Γ d, fun args => hcall _ args c4, ?_⟩
  intro h W2 hc hh
  obtain ⟨p1, p2, p3, _, _, p6⟩ := delegate.ctor_value_post Γ v _ W2 h hc hh
  have hd : (delegate.assign_value Γ d v W).2.1.data_.target Γ v.ty W2 = some v := by
    rw [p6 _ v.ty c5, c4]
  have e1 : delegate.eq Γ W2 (delegate.assign_value Γ d v W).2.1 h = Γ.equals v v := by
    simp only [delegate.eq, c2, p1, vtable, Option.isNone_some, Bool.false_and,
      Bool.false_eq_true, if_false, ne_eq, not_true_eq_false]
    exact compare_eq_equals Γ v.ty _ _ W2 v v hd p3
  have e2 : delegate.eq Γ W2 h (delegate.assign_value Γ d v W).2.1 = Γ.equals v v := by
    simp only [delegate.eq, c2, p1, vtable, Option.isNone_some, Bool.false_and,
      Bool.false_eq_true, if_false, ne_eq, not_true_eq_false]
    exact compare_eq_equals Γ v.ty _ _ W2 v v p3 hd
  refine ⟨e1, e2, fun hr => ⟨by rw [e1, hr], by rw [e2, hr]⟩, ?_⟩
  intro args
  rw [hcall W2 args hd, delegate.call_result, p2]
  simp only [p3]

end

/-- Claim C16 as stated fails for an equality-comparable type whose
`operator==` is not reflexive: the value `10` of the inline class `0` of
`irreflexive_env` matches the contract `int(int)` and is assigned to an Empty
holder, its placement succeeds and the holder is truthy, a holder built from
the same value is Holding, and the two do not compare equal, in either order. -/
theorem C16_counterexample :
    irreflexive_env.is_equality_comparable_v (Obj.obj 0 10 : Obj Int).ty = true ∧
    is_invocable_v irreflexive_env demo_contract (Obj.obj 0 10 : Obj Int).ty = true ∧
    irreflexive_env.is_internal_v (Obj.obj 0 10 : Obj Int).ty = true ∧
    (delegate.ctor : delegate Int).valid irreflexive_env demo_world = true ∧
    (delegate.assign_value irreflexive_env delegate.ctor (Obj.obj 0 10) demo_world).1 = none ∧
    (delegate.assign_value irreflexive_env delegate.ctor (Obj.obj 0 10)
      demo_world).2.1.to_bool = true ∧
    ∃ (h : delegate Int) (W2 : World Int Nat),
      delegate.ctor_value irreflexive_env (Obj.obj 0 10)
          (delegate.assign_value irreflexive_env delegate.ctor (Obj.obj 0 10) demo_world).2.2 =
        (Except.ok h, W2) ∧
      h.to_bool = true ∧
      delegate.eq irreflexive_env W2
          (delegate.assign_value irreflexive_env delegate.ctor (Obj.obj 0 10) demo_world).2.1
          h = false ∧
      delegate.eq irreflexive_env W2 h
          (delegate.assign_value irreflexive_env delegate.ctor (Obj.obj 0 10)
            demo_world).2.1 = false :=
  ⟨by decide, by decide, by decide, by decide, by decide, by decide, _, _, rfl, by decide,
    by decide, by decide⟩

/-! ## Allocation failure -/

section
variable {V A R E : Type}

/-- A value of a type that is not inline-eligible is not a pointer. -/
theorem Env.external_not_pointer (Γ : Env V A R E) (v : Obj V)
    (hext : Γ.is_internal_v v.ty = false) : (is_pointer_v v.ty && v.is_null) = false := by
  cases v with
  | fp sig p =>
    rw [Obj.ty, Γ.is_internal_v_fnptr] at hext
    simp at hext
  | obj id x => rfl

/-- Claim C18, amended: constructing a holder from a value of a heap-placed type
never constructs the target and hands out no block when `allocate` fails; when
the failure is a null result the constructor returns the Empty holder and
raises nothing; when the failure is an exception, that exception reaches the
caller and no holder is built. -/
theorem C18_construct_allocation_failure (Γ : Env V A R E) (W : World V E) (v : Obj V)
    (hext : Γ.is_internal_v v.ty = false) :
    (W.oracle W.calls = AllocReply.null →
      (delegate.ctor_value Γ v W).1 = Except.ok delegate.ctor ∧
      (delegate.ctor : delegate V).to_bool = false ∧
      (delegate.ctor_value Γ v W).2.trace =
        W.trace ++ [Event.allocate (Γ.sizeof v.ty) (Γ.alignof v.ty) 0] ∧
      (delegate.ctor_value Γ v W).2.heap = W.heap ∧
      (delegate.ctor_value Γ v W).2.brk = W.brk) ∧
    (∀ e, W.oracle W.calls = AllocReply.raise e →
      (delegate.ctor_value Γ v W).1 = Except.error e ∧
      (delegate.ctor_value Γ v W).2.trace =
        W.trace ++ [Event.allocate_raised (Γ.sizeof v.ty) (Γ.alignof v.ty)] ∧
      (delegate.ctor_value Γ v W).2.heap = W.heap ∧
      (delegate.ctor_value Γ v W).2.brk = W.brk) := by
  have hp := Γ.external_not_pointer v hext
  constructor
  · intro ho
    simp [delegate.ctor_value, hp, hext, memory_owner.ctor, World.allocate, ho,
      memory_owner.get, memory_owner.dtor, delegate.ctor, delegate.to_bool]
  · intro e ho
    simp [delegate.ctor_value, hp, hext, memory_owner.ctor, World.allocate, ho]

/-- Claim C18 as stated fails for a memory resource that reports failure as
`::operator new` does, by raising: building a holder from
`functor_noexcept<large_t>{ 10 }` lets exception `5` escape and yields no
holder, Empty or otherwise. -/
theorem C18_counterexample :
    demo_env.is_internal_v (Ty.cls 1) = false ∧
    raise_world.oracle raise_world.calls = AllocReply.raise 5 ∧
    (delegate.ctor_value demo_env (Obj.obj 1 10) raise_world).1 = Except.error 5 ∧
    ¬ ∃ d : delegate Int,
        (delegate.ctor_value demo_env (Obj.obj 1 10) raise_world).1 = Except.ok d :=
  ⟨by decide, rfl, rfl, fun ⟨_, h⟩ => Except.noConfusion h⟩

/-- Claim C19: assigning a value of a heap-placed type when `allocate` fails, by
a null result or by raising, leaves the holder with every field as it was
(same state, dispatcher, adapter and buffer) and every heap object as it was;
the record grows by the failed `allocate` call alone, so the previous target is
neither torn down nor modified. -/
theorem C19_assign_allocation_failure (Γ : Env V A R E) (C : Contract) (W : World V E)
    (d : delegate V) (v : Obj V) (hext : Γ.is_internal_v v.ty = false)
    (hfail : W.oracle W.calls ≠ AllocReply.block) :
    (delegate.assign_value Γ d v W).2.1 = d ∧
    (delegate.assign_value Γ d v W).2.1.to_bool = d.to_bool ∧
    (delegate.assign_value Γ d v W).2.1.vptr_ = d.vptr_ ∧
    (delegate.assign_value Γ d v W).2.1.call_ = d.call_ ∧
    (delegate.assign_value Γ d v W).2.2.heap = W.heap ∧
    (delegate.assign_value Γ d v W).2.2.brk = W.brk ∧
    (∀ T, (delegate.assign_value Γ d v W).2.1.data_.target Γ T
            (delegate.assign_value Γ d v W).2.2 = d.data_.target Γ T W) ∧
    (W.oracle W.calls = AllocReply.null →
      (delegate.assign_value Γ d v W).1 = none ∧
      (delegate.assign_value Γ d v W).2.2.trace =
        W.trace ++ [Event.allocate (Γ.sizeof v.ty) (Γ.alignof v.ty) 0]) ∧
    (∀ e, W.oracle W.calls = AllocReply.raise e →
      (delegate.assign_value Γ d v W).1 = some e ∧
      (delegate.assign_value Γ d v W).2.2.trace =
        W.trace ++ [Event.allocate_raised (Γ.sizeof v.ty) (Γ.alignof v.ty)]) ∧
    (∀ x, delegate.eq Γ (delegate.assign_value Γ d v W).2.2
            (delegate.assign_value Γ d v W).2.1 x = delegate.eq Γ W d x) ∧
    (∀ args : A,
      (delegate.call Γ C (delegate.assign_value Γ d v W).2.1
          (delegate.assign_value Γ d v W).2.2 args).1 = (delegate.call Γ C d W args).1) := by
  have hp := Γ.external_not_pointer v hext
  have key : (delegate.assign_value Γ d v W).2.1 = d ∧
      (delegate.assign_value Γ d v W).2.2.heap = W.heap ∧
      (delegate.assign_value Γ d v W).2.2.brk = W.brk ∧
      (W.oracle W.calls = AllocReply.null →
        (delegate.assign_value Γ d v W).1 = none ∧
        (delegate.assign_value Γ d v W).2.2.trace =
          W.trace ++ [Event.allocate (Γ.sizeof v.ty) (Γ.alignof v.ty) 0]) ∧
      (∀ e, W.oracle W.calls = AllocReply.raise e →
        (delegate.assign_value Γ d v W).1 = some e ∧
        (delegate.assign_value Γ d v W).2.2.trace =
          W.trace ++ [Event.allocate_raised (Γ.sizeof v.ty) (Γ.alignof v.ty)]) := by
    cases ho : W.oracle W.calls with
    | block => exact absurd ho hfail
    | null =>
      simp [delegate.assign_value, hp, hext, memory_owner.ctor, World.allocate, ho,
        memory_owner.get, memory_owner.dtor]
    | raise e =>
      simp [delegate.assign_value, hp, hext, memory_owner.ctor, World.allocate, ho]
  obtain ⟨k1, k2, k3, k4, k5⟩ := key
  have hframe : ∀ (s : storage V) (T : Ty),
      s.target Γ T (delegate.assign_value Γ d v W).2.2 = s.target Γ T W :=
    fun s T => storage.target_congr Γ _ _ k2 s T
  refine ⟨k1, by rw [k1], by rw [k1], by rw [k1], k2, k3, ?_, k4, k5, ?_, ?_⟩
  · intro T
    rw [k1]
    exact hframe _ T
  · intro x
    rw [k1]
    exact delegate.eq_congr Γ _ _ _ _ _ _ rfl rfl (fun T _ _ => hframe _ T)
      (fun T _ _ => hframe _ T)
  · intro args
    rw [k1]
    exact delegate.call_congr Γ C _ _ _ _ args rfl (fun T _ => hframe _ T)

end

/-! ## Placement and the calls of `allocate` -/

section
variable {V A R E : Type}

theorem allocate_calls_append (t u : List Event) :
    allocate_calls (t ++ u) = allocate_calls t ++ allocate_calls u := by
  simp [allocate_calls, List.filterMap_append]

theorem memory_calls_append (t u : List Event) :
    memory_calls (t ++ u) = memory_calls t ++ memory_calls u := by
  simp [memory_calls, List.filter_append]

/-- Destroying a target never calls `allocate`. -/
theorem allocate_calls_destroy_events (Γ : Env V A R E) (d : delegate V) :
    allocate_calls (expected_destroy_events Γ d) = [] := by
  unfold expected_destroy_events
  cases d.vptr_ with
  | none => rfl
  | some T =>
    simp only []
    split
    · rfl
    · cases d.data_ <;> rfl

/-- The `allocate` calls of `delegate(F func)`: none for an inline-eligible
type, one with `sizeof(F)` and `alignof(F)` otherwise. -/
theorem delegate.ctor_value_allocate_calls (Γ : Env V A R E) (v : Obj V) (W : World V E) :
    allocate_calls (delegate.ctor_value Γ v W).2.trace =
      allocate_calls W.trace ++
        (if Γ.is_internal_v v.ty then [] else [(Γ.sizeof v.ty, Γ.alignof v.ty)]) := by
  by_cases hi : Γ.is_internal_v v.ty = true
  · unfold delegate.ctor_value
    split
    · simp [hi]
    · simp [hi, World.log, allocate_calls_append, allocate_calls, Event.allocate_call]
  · simp only [Bool.not_eq_true] at hi
    have hp := Γ.external_not_pointer v hi
    simp only [delegate.ctor_value, hp, hi, Bool.false_eq_true, if_false, memory_owner.ctor,
      World.allocate]
    cases W.oracle W.calls with
    | raise e => simp [allocate_calls_append, allocate_calls, Event.allocate_call]
    | null =>
      simp [memory_owner.get, memory_owner.dtor, allocate_calls_append, allocate_calls,
        Event.allocate_call]
    | block =>
      cases Γ.move_raises v <;>
        simp [memory_owner.get, memory_owner.dtor, memory_owner.release, World.construct_at,
          World.deallocate, World.log, allocate_calls_append, allocate_calls,
          Event.allocate_call]

/-- The `allocate` calls of `operator=(F func)`: none for an inline-eligible
type, one with `sizeof(F)` and `alignof(F)` otherwise. -/
theorem delegate.assign_value_allocate_calls (Γ : Env V A R E) (d : delegate V) (v : Obj V)
    (W : World V E) :
    allocate_calls (delegate.assign_value Γ d v W).2.2.trace =
      allocate_calls W.trace ++
        (if Γ.is_internal_v v.ty then [] else [(Γ.sizeof v.ty, Γ.alignof v.ty)]) := by
  by_cases hi : Γ.is_internal_v v.ty = true
  · unfold delegate.assign_value
    split
    · simp [hi]
    · simp only [hi, if_true, World.log, delegate.destroy_if_holding_trace,
        allocate_calls_append, allocate_calls_destroy_events]
      simp [allocate_calls, Event.allocate_call]
  · simp only [Bool.not_eq_true] at hi
    have hp := Γ.external_not_pointer v hi
    simp only [delegate.assign_value, hp, hi, Bool.false_eq_true, if_false, memory_owner.ctor,
      World.allocate]
    cases W.oracle W.calls with
    | raise e => simp [allocate_calls_append, allocate_calls, Event.allocate_call]
    | null =>
      simp [memory_owner.get, memory_owner.dtor, allocate_calls_append, allocate_calls,
        Event.allocate_call]
    | block =>
      cases Γ.move_raises v with
      | some e =>
        simp [memory_owner.get, memory_owner.dtor, World.deallocate, World.log,
          allocate_calls_append, allocate_calls, Event.allocate_call]
      | none =>
        simp only [memory_owner.get, ne_eq, Nat.add_one_ne_zero, not_false_eq_true, if_true,
          memory_owner.release, memory_owner.dtor, not_true_eq_false, if_false]
        rw [delegate.destroy_if_holding_trace]
        simp only [World.construct_at, allocate_calls_append, allocate_calls_destroy_events]
        simp [allocate_calls, Event.allocate_call]

/-- Claim C20: the placement predicate is the conjunction of the size test, the
alignment test and nothrow-move-constructibility; a successfully built holder
has its target in the buffer exactly when the type passes it, and in a block
otherwise; construction and assignment from a value call `allocate` once, with
`sizeof(T)` and `alignof(T)`, exactly when the type fails it; and for a type
that passes it construction calls the memory resource not at all, assignment
only as the destruction of the previous target does, and `destroy<T>` and
`move<T>` not at all; the `fn_t` overloads never call `allocate`. -/
theorem C20_placement_and_allocation (Γ : Env V A R E) (W : World V E) (d : delegate V)
    (v : Obj V) (T : Ty) :
    (Γ.is_internal_v T = true ↔
      Γ.sizeof T ≤ Γ.abi.sizeof_block ∧ Γ.alignof T ≤ Γ.abi.alignof_block ∧
      Γ.is_nothrow_move_constructible_v T = true) ∧
    (∀ (h : delegate V) (W2 : World V E),
      delegate.ctor_value Γ v W = (Except.ok h, W2) → h.to_bool = true →
      (h.data_ = storage.inplace v ↔ Γ.is_internal_v v.ty = true) ∧
      ((∃ a, h.data_ = storage.address a ∧ W2.heap a = some v) ↔
        Γ.is_internal_v v.ty = false)) ∧
    allocate_calls (delegate.ctor_value Γ v W).2.trace =
      allocate_calls W.trace ++
        (if Γ.is_internal_v v.ty then [] else [(Γ.sizeof v.ty, Γ.alignof v.ty)]) ∧
    allocate_calls (delegate.assign_value Γ d v W).2.2.trace =
      allocate_calls W.trace ++
        (if Γ.is_internal_v v.ty then [] else [(Γ.sizeof v.ty, Γ.alignof v.ty)]) ∧
    (Γ.is_internal_v v.ty = true →
      memory_calls (delegate.ctor_value Γ v W).2.trace = memory_calls W.trace ∧
      memory_calls (delegate.assign_value Γ d v W).2.2.trace =
        memory_calls W.trace ++
          (if is_pointer_v v.ty && v.is_null then []
           else memory_calls (expected_destroy_events Γ d))) ∧
    (Γ.is_internal_v T = true → ∀ s dst : storage V,
      memory_calls (destroy Γ T s W).2.trace = memory_calls W.trace ∧
      memory_calls (move Γ T s dst W).2.trace = memory_calls W.trace) ∧
    (∀ (C : Contract) (p : Nat),
      memory_calls (delegate.ctor_fn Γ C p W).2.trace = memory_calls W.trace ∧
      allocate_calls (delegate.assign_fn Γ C d p W).2.trace = allocate_calls W.trace) := by
  refine ⟨?_, ?_, delegate.ctor_value_allocate_calls Γ v W,
    delegate.assign_value_allocate_calls Γ d v W, ?_, ?_, ?_⟩
  rotate_left 4
  · intro C p
    have hi := Contract.fn_t_internal Γ C
    constructor
    · unfold delegate.ctor_fn
      split
      · rfl
      · simp [storage.assign_as, storage.get_as, hi, World.log, memory_calls_append,
          memory_calls, Event.is_memory]
    · unfold delegate.assign_fn
      split
      · rfl
      · simp only [storage.assign_as, storage.get_as, hi, if_true, World.log,
          delegate.destroy_if_holding_trace, allocate_calls_append,
          allocate_calls_destroy_events]
        simp [allocate_calls, Event.allocate_call]
  · simp [Env.is_internal_v, and_assoc]
  · intro h W2 hc hh
    unfold delegate.ctor_value at hc
    split at hc
    · simp only [Prod.mk.injEq, Except.ok.injEq] at hc
      rw [← hc.1] at hh
      simp [delegate.ctor, delegate.to_bool] at hh
    · split at hc
      · rename_i hi
        simp only [Prod.mk.injEq, Except.ok.injEq] at hc
        obtain ⟨h1, _⟩ := hc
        subst h1
        simp [hi]
      · rename_i hi
        unfold memory_owner.ctor World.allocate at hc
        cases ho : W.oracle W.calls with
        | raise e => simp [ho] at hc
        | null =>
          simp only [ho, memory_owner.get, ne_eq, not_true_eq_false, if_false] at hc
          simp only [Prod.mk.injEq, Except.ok.injEq] at hc
          rw [← hc.1] at hh
          simp [delegate.ctor, delegate.to_bool] at hh
        | block =>
          simp only [ho, memory_owner.get, ne_eq, Nat.add_one_ne_zero, not_false_eq_true,
            if_true] at hc
          cases hm : Γ.move_raises v with
          | some e => simp [hm] at hc
          | none =>
            simp only [hm, Prod.mk.injEq, Except.ok.injEq] at hc
            obtain ⟨h1, h2⟩ := hc
            subst h1 h2
            simp [hi, storage.put_address_eq, memory_owner.release, memory_owner.dtor,
              World.construct_at]
  · intro hi
    constructor
    · unfold delegate.ctor_value
      split
      · rfl
      · simp [hi, World.log, memory_calls_append, memory_calls, Event.is_memory]
    · unfold delegate.assign_value
      split
      · rename_i hp
        simp [hp]
      · rename_i hp
        simp only [hi, if_true, hp, if_false, World.log, delegate.destroy_if_holding_trace,
          memory_calls_append]
        simp [memory_calls, Event.is_memory]
  · intro hi s dst
    constructor
    · simp [destroy, hi, World.log, memory_calls_append, memory_calls, Event.is_memory]
    · unfold move
      simp only [hi, if_true]
      split <;> simp [World.log, memory_calls_append, memory_calls, Event.is_memory]

end

/-! ## The assertion that guards invocation -/

section
variable {V A R E : Type}

/-- Claim C25: for a holder whose two pointers are set together, the assertion
`call_ != nullptr` holds when the holder is truthy, and fails when it is Empty;
the call of an Empty holder then ends at the assertion, with holder and world
untouched. -/
theorem C25_assertion_guards_invocation (Γ : Env V A R E) (C : Contract) (W : World V E)
    (d : delegate V) (args : A) (hc : d.consistent) :
    (d.to_bool = true →
      d.call_ ≠ none ∧ (delegate.call Γ C d W args).1 ≠ Invocation.assert_failed) ∧
    (d.to_bool = false →
      d.call_ = none ∧
      delegate.call Γ C d W args = (Invocation.assert_failed, d, W)) := by
  unfold delegate.consistent at hc
  constructor
  · intro h
    have hv : d.vptr_ ≠ none := by
      intro hn
      simp [delegate.to_bool, hn] at h
    have hcn : d.call_ ≠ none := fun q => hv (hc.mp q)
    refine ⟨hcn, ?_⟩
    rw [delegate.call_result]
    cases hq : d.call_ with
    | none => exact absurd hq hcn
    | some T =>
      simp only []
      cases d.data_.target Γ T W with
      | none => simp
      | some o =>
        simp only []
        cases (Γ.call_obj C.cv C.category o args).1 <;> simp [Invocation.of_except]
  · intro h
    have hv : d.vptr_ = none := by
      cases q : d.vptr_ with
      | none => rfl
      | some T => simp [delegate.to_bool, q] at h
    have hcn : d.call_ = none := hc.mpr hv
    exact ⟨hcn, by simp [delegate.call, hcn]⟩

/-! ## The binding predicate -/

/-- For a contract with `&` or `&&` the binding predicate tests the call the
adapter performs. -/
theorem is_invocable_v_ref_qualified (Γ : Env V A R E) (C : Contract) (id : Nat)
    (h : C.ref ≠ RefQual.plain) :
    is_invocable_v Γ C (Ty.cls id) =
      if C.noexcept_ then (Γ.cls id).nothrow_invocable C.cv C.category
      else (Γ.cls id).invocable C.cv C.category := by
  have hcat : C.declval_category = C.category := by
    unfold Contract.declval_category Contract.category
    cases hr : C.ref <;> simp_all
  simp [is_invocable_v, hcat]

/-- Claim C27 against the code, at the contract `int(int)`, which has no
reference qualifier: its adapter calls the target as an lvalue, yet its binding
predicate rejects a class that is callable only as an lvalue and accepts a
class that is callable only as an rvalue. -/
theorem C27_unqualified_contract_tests_rvalue :
    demo_contract.ref = RefQual.plain ∧ demo_contract.category = ValueCat.lvalue ∧
    (lvalue_only_env.cls 0).invocable demo_contract.cv demo_contract.category = true ∧
    is_invocable_v lvalue_only_env demo_contract (Ty.cls 0) = false ∧
    (rvalue_only_env.cls 0).invocable demo_contract.cv demo_contract.category = false ∧
    is_invocable_v rvalue_only_env demo_contract (Ty.cls 0) = true := by
  decide

/-! ## Moving a heap-placed target -/

/-- Claim C30: moving a holder whose target is heap-placed leaves the world
exactly as it was (no `allocate`, no `deallocate`, no construction, no
teardown, no heap object touched) and puts the source's address into the
destination, which then owns the very block the source owned while the source
owns none; in a move assignment the only events are those of destroying the
destination's previous target. -/
theorem C30_move_transfers_address (Γ : Env V A R E) (W : World V E) (s this : delegate V)
    (T : Ty) (a : Nat) (hT : s.vptr_ = some T) (hext : Γ.is_internal_v T = false)
    (ha : s.data_ = storage.address a) :
    (∀ dst, move Γ T s.data_ dst W = (storage.address a, W)) ∧
    delegate.ctor_move Γ s W =
      ({ data_ := storage.address a, call_ := s.call_, vptr_ := some T },
        { s with call_ := none, vptr_ := none }, W) ∧
    (delegate.ctor_move Γ s W).1.block Γ = some a ∧
    (delegate.ctor_move Γ s W).2.1.block Γ = none ∧
    s.block Γ = some a ∧
    (delegate.assign_move Γ this s W).1 =
      { data_ := storage.address a, call_ := s.call_, vptr_ := some T } ∧
    (delegate.assign_move Γ this s W).2.2 = (this.destroy_if_holding Γ W).2 ∧
    (delegate.assign_move Γ this s W).2.2.trace = W.trace ++ expected_destroy_events Γ this ∧
    (delegate.assign_move Γ this s W).1.block Γ = some a ∧
    (delegate.assign_move Γ this s W).2.1.block Γ = none := by
  have hm : ∀ (dst : storage V) (W1 : World V E),
      move Γ T s.data_ dst W1 = (storage.address a, W1) := by
    intro dst W1
    simp [move, hext, ha, storage.get_as, storage.put_address_eq]
  refine ⟨fun dst => hm dst W, ?_, ?_, ?_, ?_, ?_, ?_, ?_, ?_, ?_⟩
  · simp [delegate.ctor_move, hT, vtable, hm]
  · simp [delegate.ctor_move, hT, vtable, hm, delegate.block, hext]
  · simp [delegate.ctor_move, hT, delegate.block]
  · simp [delegate.block, hT, hext, ha]
  · simp [delegate.assign_move, hT, vtable, hm]
  · simp [delegate.assign_move, hT, vtable, hm]
  · simp [delegate.assign_move, hT, vtable, hm, delegate.destroy_if_holding_trace]
  · simp [delegate.assign_move, hT, vtable, hm, delegate.block, hext]
  · simp [delegate.assign_move, hT, delegate.block]

/-! ## First call wins -/

/-- Once the static is initialised, every call of `memory` returns it. -/
theorem memory_calls_of_initialised (dr res : Nat) (rs : List Nat) :
    (∀ x ∈ (memory_calls_of dr rs (some res)).1, x = res) ∧
    (memory_calls_of dr rs (some res)).1.length = rs.length ∧
    (rs ≠ [] → (memory_calls_of dr rs (some res)).2 = some res) := by
  induction rs with
  | nil => simp [memory_calls_of]
  | cons r rs ih =>
    simp only [memory_calls_of, memory, List.mem_cons, List.length_cons]
    refine ⟨?_, by rw [ih.2.1], ?_⟩
    · intro x hx
      rcases hx with h | h
      · exact h
      · exact ih.1 x h
    · intro _
      cases rs with
      | nil => simp [memory_calls_of]
      | cons r2 rs2 => exact ih.2.2 (by simp)

/-- Claim C24: in every sequence of calls of `memory` from an uninitialised
static, the first call fixes the resource, to its argument if that is non-null
and to the default resource otherwise, and every call of the sequence, whatever
its argument, returns that resource. -/
theorem C24_first_call_wins (dr r0 : Nat) (rs : List Nat) :
    (memory dr r0 none).1 = (if r0 ≠ 0 then r0 else dr) ∧
    (r0 ≠ 0 → (memory dr r0 none).1 = r0) ∧
    (r0 = 0 → (memory dr r0 none).1 = dr) ∧
    (∀ x ∈ (memory_calls_of dr (r0 :: rs) none).1, x = (memory dr r0 none).1) ∧
    (memory_calls_of dr (r0 :: rs) none).1.length = rs.length + 1 ∧
    (∀ r res, (memory dr r (some res)).1 = res ∧ (memory dr r (some res)).2 = some res) := by
  refine ⟨rfl, ?_, ?_, ?_, ?_, fun r res => ⟨rfl, rfl⟩⟩
  · intro h
    simp [memory, h]
  · intro h
    simp [memory, h]
  · intro x hx
    simp only [memory_calls_of, List.mem_cons] at hx
    rcases hx with h | h
    · exact h
    · exact (memory_calls_of_initialised dr _ rs).1 x h
  · simp only [memory_calls_of, memory, List.length_cons]
    rw [(memory_calls_of_initialised dr _ rs).2.1]

end

/-! ## Invocation leaves the holder as it is -/

section
variable {V A R E : Type}

/-- Calling a value does not change its type. -/
theorem Env.call_obj_ty (Γ : Env V A R E) (cv : CVQual) (cat : ValueCat) (o : Obj V)
    (args : A) : (Γ.call_obj cv cat o args).2.ty = o.ty := by
  cases o <;> rfl

/-- The call operator on a holder whose adapter finds its target: the outcome
is the target's, an inline target is written back into the buffer, a
heap-placed one into its block. -/
theorem delegate.call_spec (Γ : Env V A R E) (C : Contract) (d : delegate V) (W : World V E)
    (args : A) (T : Ty) (o : Obj V) (hc : d.call_ = some T)
    (ho : d.data_.target Γ T W = some o) :
    (Γ.is_internal_v T = true →
      d.data_ = storage.inplace o ∧
      delegate.call Γ C d W args =
        (Invocation.of_except (Γ.call_obj C.cv C.category o args).1,
          { d with data_ := storage.inplace (Γ.call_obj C.cv C.category o args).2 }, W)) ∧
    (Γ.is_internal_v T = false →
      ∃ a, d.data_ = storage.address a ∧ W.heap a = some o ∧
        delegate.call Γ C d W args =
          (Invocation.of_except (Γ.call_obj C.cv C.category o args).1, d,
            { W with heap := fun b =>
                if b = a then some (Γ.call_obj C.cv C.category o args).2 else W.heap b })) := by
  have hty := storage.target_ty Γ T d.data_ W o ho
  constructor
  · intro hi
    have hd : d.data_ = storage.inplace o := by
      cases hs : d.data_ with
      | raw => simp [hs, storage.target, storage.get_as, hi, deref] at ho
      | address a => simp [hs, storage.target, storage.get_as, hi, deref] at ho
      | inplace o2 =>
        simp only [hs, storage.target, storage.get_as, hi, if_true, deref] at ho
        split at ho
        · simp only [Option.some.injEq] at ho
          rw [ho]
        · simp at ho
    refine ⟨hd, ?_⟩
    unfold delegate.call invoke
    simp only [hc, hd, storage.get_as, hi, if_true, deref, hty, store_through]
    cases (Γ.call_obj C.cv C.category o args).1 <;> simp [Invocation.of_except]
  · intro hi
    obtain ⟨dd, dc, dv⟩ := d
    simp only at hc ho
    subst hc
    cases dd with
    | raw => simp [storage.target, storage.get_as, hi] at ho
    | inplace o2 => simp [storage.target, storage.get_as, hi] at ho
    | address a =>
      have hh : W.heap a = some o := by
        simp only [storage.target, storage.get_as, hi, Bool.false_eq_true, if_false,
          deref] at ho
        cases hw : W.heap a with
        | none => simp [hw] at ho
        | some o2 =>
          simp only [hw] at ho
          split at ho
          · simp only [Option.some.injEq] at ho
            rw [ho]
          · simp at ho
      refine ⟨a, rfl, hh, ?_⟩
      unfold delegate.call invoke
      simp only [storage.get_as, hi, Bool.false_eq_true, if_false, deref, hh, hty,
        if_true, store_through]
      cases (Γ.call_obj C.cv C.category o args).1 <;> simp [Invocation.of_except]

/-- Claim C26: invoking a Holding holder that satisfies the class invariant,
through any contract, leaves it Holding with the same dispatcher and adapter
and satisfying the invariant; the outcome is the target's own, so what the
target raises reaches the caller as it is; the record and the memory resource
are untouched; the target afterwards is the target after its call, and if that
call did not modify the target then holder and world are exactly as before and
the holder compares with a holder built from a value `w` of its type as the
target compares with `w`. -/
theorem C26_invocation_keeps_holder (Γ : Env V A R E) (C : Contract) (W : World V E)
    (d : delegate V) (T : Ty) (o : Obj V) (args : A)
    (hv : d.valid Γ W = true) (hT : d.vptr_ = some T)
    (ho : d.data_.target Γ T W = some o) :
    (delegate.call Γ C d W args).2.1.vptr_ = d.vptr_ ∧
    (delegate.call Γ C d W args).2.1.call_ = d.call_ ∧
    (delegate.call Γ C d W args).2.1.to_bool = true ∧
    (delegate.call Γ C d W args).1 =
      Invocation.of_except (Γ.call_obj C.cv C.category o args).1 ∧
    (∀ e, (Γ.call_obj C.cv C.category o args).1 = Except.error e →
      (delegate.call Γ C d W args).1 = Invocation.raised e) ∧
    (∀ r, (Γ.call_obj C.cv C.category o args).1 = Except.ok r →
      (delegate.call Γ C d W args).1 = Invocation.returned r) ∧
    (delegate.call Γ C d W args).2.2.trace = W.trace ∧
    (delegate.call Γ C d W args).2.2.brk = W.brk ∧
    (delegate.call Γ C d W args).2.2.calls = W.calls ∧
    (delegate.call Γ C d W args).2.1.data_.target Γ T (delegate.call Γ C d W args).2.2 =
      some (Γ.call_obj C.cv C.category o args).2 ∧
    (delegate.call Γ C d W args).2.1.valid Γ (delegate.call Γ C d W args).2.2 = true ∧
    ((Γ.call_obj C.cv C.category o args).2 = o →
      (delegate.call Γ C d W args).2.1 = d ∧ (delegate.call Γ C d W args).2.2 = W ∧
      ∀ (w : Obj V) (h : delegate V) (W2 : World V E),
        delegate.ctor_value Γ w (delegate.call Γ C d W args).2.2 = (Except.ok h, W2) →
        h.to_bool = true → w.ty = T →
        delegate.eq Γ W2 (delegate.call Γ C d W args).2.1 h = Γ.equals o w ∧
        delegate.eq Γ W2 h (delegate.call Γ C d W args).2.1 = Γ.equals w o) := by
  obtain ⟨hc, _, hown, hext, _⟩ := delegate.valid_holding Γ W d T hv hT
  have hty := storage.target_ty Γ T d.data_ W o ho
  have hty2 := Env.call_obj_ty Γ C.cv C.category o args
  obtain ⟨hin, hex⟩ := delegate.call_spec Γ C d W args T o hc ho
  have hres : (delegate.call Γ C d W args).1 =
      Invocation.of_except (Γ.call_obj C.cv C.category o args).1 := by
    rw [delegate.call_result, hc]
    simp only [ho]
  -- the holder and the world after the call, by placement
  have core :
      (delegate.call Γ C d W args).2.1.vptr_ = d.vptr_ ∧
      (delegate.call Γ C d W args).2.1.call_ = d.call_ ∧
      (delegate.call Γ C d W args).2.2.trace = W.trace ∧
      (delegate.call Γ C d W args).2.2.brk = W.brk ∧
      (delegate.call Γ C d W args).2.2.calls = W.calls ∧
      (delegate.call Γ C d W args).2.1.data_.target Γ T (delegate.call Γ C d W args).2.2 =
        some (Γ.call_obj C.cv C.category o args).2 ∧
      (delegate.call Γ C d W args).2.1.data_.owned (delegate.call Γ C d W args).2.2 = true ∧
      ((Γ.call_obj C.cv C.category o args).2 = o →
        (delegate.call Γ C d W args).2.1 = d ∧ (delegate.call Γ C d W args).2.2 = W) := by
    by_cases hi : Γ.is_internal_v T = true
    · obtain ⟨hd, hcall⟩ := hin hi
      rw [hcall]
      refine ⟨rfl, rfl, rfl, rfl, rfl, ?_, ?_, ?_⟩
      · simp [storage.target, storage.get_as, hi, deref, hty2, hty]
      · simp [storage.owned]
      · intro hsame
        simp only [hsame, and_true]
        cases hdd : d with
        | mk dd dc dv =>
          rw [hdd] at hd
          simp only at hd
          subst hd
          rfl
    · simp only [Bool.not_eq_true] at hi
      obtain ⟨a, hd, hh, hcall⟩ := hex hi
      rw [hcall]
      refine ⟨rfl, rfl, rfl, rfl, rfl, ?_, ?_, ?_⟩
      · simp [hd, storage.target, storage.get_as, hi, deref, hty2, hty]
      · simpa [hd, storage.owned] using hown
      · intro hsame
        refine ⟨rfl, ?_⟩
        have hheap : (fun b => if b = a then some (Γ.call_obj C.cv C.category o args).2
            else W.heap b) = W.heap := by
          funext b
          by_cases hb : b = a
          · simp [hb, hsame, hh]
          · simp [hb]
        simp only [hheap]
  obtain ⟨c1, c2, c3, c4, c5, c6, c7, c8⟩ := core
  refine ⟨c1, c2, ?_, hres, ?_, ?_, c3, c4, c5, c6, ?_, ?_⟩
  · simp [delegate.to_bool, c1, hT]
  · intro e he
    rw [hres, he]
    rfl
  · intro r hr
    rw [hres, hr]
    rfl
  · simp [delegate.valid, c1, c2, hc, hT, c6, c7]
  · intro hsame
    obtain ⟨e1, e2⟩ := c8 hsame
    refine ⟨e1, e2, ?_⟩
    intro w h W2 hctor hh hw
    rw [e2] at hctor
    rw [e1]
    obtain ⟨p1, _, p3, _, _, pfr⟩ := delegate.ctor_value_post Γ w W W2 h hctor hh
    rw [hw] at p1 p3
    have hd2 : d.data_.target Γ T W2 = some o := by
      rw [pfr d.data_ T hown]
      exact ho
    constructor
    · simp only [delegate.eq, hT, p1, Option.isNone_some, Bool.and_self, Bool.false_eq_true,
        if_false, ne_eq, not_true_eq_false, vtable]
      exact compare_eq_equals Γ T d.data_ h.data_ W2 o w hd2 p3
    · simp only [delegate.eq, hT, p1, Option.isNone_some, Bool.and_self, Bool.false_eq_true,
        if_false, ne_eq, not_true_eq_false, vtable]
      exact compare_eq_equals Γ T h.data_ d.data_ W2 w o p3 hd2

/-! ## The order of effects when a value is assigned -/

/-- Claim C29: assigning a non-null value to a Holding holder that satisfies
the class invariant.  An inline replacement: the old target is destroyed
(exactly one teardown), then the replacement is constructed in the buffer, and
no exception escapes whatever the memory resource would answer.  A heap-placed
replacement: the block is allocated and the replacement constructed in it, and
only then is the old target destroyed and the holder given the new address; if
the allocation or the construction fails, the holder's fields are as they were
and the record holds no destruction. -/
theorem C29_assign_value_order (Γ : Env V A R E) (W : World V E) (d : delegate V) (v : Obj V)
    (hv : d.valid Γ W = true) (hh : d.to_bool = true)
    (hnn : (is_pointer_v v.ty && v.is_null) = false) :
    (expected_destroy_events Γ d).countP Event.is_teardown = 1 ∧
    (Γ.is_internal_v v.ty = true →
      (delegate.assign_value Γ d v W).1 = none ∧
      (delegate.assign_value Γ d v W).2.1 =
        { data_ := storage.inplace v, call_ := some v.ty, vptr_ := some v.ty } ∧
      (delegate.assign_value Γ d v W).2.2.trace =
        W.trace ++ expected_destroy_events Γ d ++ [Event.construct v.ty Place.buffer]) ∧
    (Γ.is_internal_v v.ty = false →
      (W.oracle W.calls = AllocReply.block → Γ.move_raises v = none →
        (delegate.assign_value Γ d v W).1 = none ∧
        (delegate.assign_value Γ d v W).2.1 =
          { data_ := storage.address (W.brk + 1), call_ := some v.ty, vptr_ := some v.ty } ∧
        (delegate.assign_value Γ d v W).2.2.trace =
          W.trace ++ [Event.allocate (Γ.sizeof v.ty) (Γ.alignof v.ty) (W.brk + 1),
                      Event.construct v.ty (Place.block (W.brk + 1))] ++
            expected_destroy_events Γ d) ∧
      (∀ e, W.oracle W.calls = AllocReply.block → Γ.move_raises v = some e →
        (delegate.assign_value Γ d v W).1 = some e ∧
        (delegate.assign_value Γ d v W).2.1 = d ∧
        (delegate.assign_value Γ d v W).2.2.trace =
          W.trace ++ [Event.allocate (Γ.sizeof v.ty) (Γ.alignof v.ty) (W.brk + 1),
                      Event.deallocate (W.brk + 1) (Γ.sizeof v.ty) (Γ.alignof v.ty)]) ∧
      (W.oracle W.calls = AllocReply.null →
        (delegate.assign_value Γ d v W).2.1 = d ∧
        (delegate.assign_value Γ d v W).2.2.trace =
          W.trace ++ [Event.allocate (Γ.sizeof v.ty) (Γ.alignof v.ty) 0]) ∧
      (∀ e, W.oracle W.calls = AllocReply.raise e →
        (delegate.assign_value Γ d v W).1 = some e ∧
        (delegate.assign_value Γ d v W).2.1 = d ∧
        (delegate.assign_value Γ d v W).2.2.trace =
          W.trace ++ [Event.allocate_raised (Γ.sizeof v.ty) (Γ.alignof v.ty)])) := by
  have hcnt := expected_destroy_events_teardowns Γ W d hv
  rw [hh] at hcnt
  refine ⟨by simpa using hcnt, ?_, ?_⟩
  · intro hi
    simp [delegate.assign_value, hnn, hi, World.log, delegate.destroy_if_holding_trace]
  · intro hi
    refine ⟨?_, ?_, ?_, ?_⟩
    · intro hb hm
      simp [delegate.assign_value, hnn, hi, memory_owner.ctor, World.allocate, hb,
        memory_owner.get, hm, memory_owner.release, memory_owner.dtor,
        delegate.destroy_if_holding_trace, World.construct_at, storage.put_address_eq]
    · intro e hb hm
      simp [delegate.assign_value, hnn, hi, memory_owner.ctor, World.allocate, hb,
        memory_owner.get, hm, memory_owner.dtor, World.deallocate, World.log]
    · intro hb
      simp [delegate.assign_value, hnn, hi, memory_owner.ctor, World.allocate, hb,
        memory_owner.get, memory_owner.dtor]
    · intro e hb
      simp [delegate.assign_value, hnn, hi, memory_owner.ctor, World.allocate, hb]

end

/-! ## Exchanging two holders -/

section
variable {V A R E : Type}

/-- The class invariant depends on the world only through its heap and the
memory resource's cursor. -/
theorem delegate.valid_congr (Γ : Env V A R E) (W1 W2 : World V E) (d : delegate V)
    (hh : W1.heap = W2.heap) (hb : W1.brk = W2.brk) : d.valid Γ W1 = d.valid Γ W2 := by
  unfold delegate.valid
  cases d.vptr_ with
  | none => rfl
  | some T =>
    simp only [storage.target_congr Γ W1 W2 hh]
    cases d.data_ <;> simp [storage.owned, hb]

/-- Relocating the target of a holder that satisfies the class invariant, by
the dispatcher's `move` when Holding: what the statement
`if (other.vptr_) other.vptr_->move(other, *this);` followed by the handing over
of `call_` and `vptr_` achieves, whatever the destination buffer held. -/
theorem delegate.relocate_spec (Γ : Env V A R E) (W : World V E) (other : delegate V)
    (dst : storage V) (hv : other.valid Γ W = true) :
    ∀ (s : storage V) (W2 : World V E),
      (match other.vptr_ with
        | some T => (vtable Γ T).move other.data_ dst W
        | none => (dst, W)) = (s, W2) →
      W2.heap = W.heap ∧ W2.brk = W.brk ∧ W2.calls = W.calls ∧ W2.oracle = W.oracle ∧
      W2.trace = W.trace ++ expected_move_events Γ other ∧
      (∀ T, other.vptr_ = some T → s.target Γ T W2 = other.data_.target Γ T W) ∧
      ({ data_ := s, call_ := other.call_, vptr_ := other.vptr_ } : delegate V).valid Γ W2 =
        true ∧
      ({ data_ := s, call_ := other.call_, vptr_ := other.vptr_ } : delegate V).block Γ =
        other.block Γ := by
  intro s W2 h
  cases hT : other.vptr_ with
  | none =>
    simp only [hT, Prod.mk.injEq] at h
    obtain ⟨h1, h2⟩ := h
    subst h1 h2
    have hc : other.call_ = none := by
      simpa [delegate.valid, hT] using hv
    simp [expected_move_events, hT, delegate.valid, hc, delegate.block]
  | some T =>
    simp only [hT, vtable] at h
    obtain ⟨hc, ⟨o, ho⟩, hown, hext, _⟩ := delegate.valid_holding Γ W other T hv hT
    obtain ⟨m1, m2, m3, m4, m5, m6, m7, m8⟩ := move_spec Γ T other.data_ dst W o ho
    rw [h] at m1 m2 m3 m4 m5 m6 m7 m8
    simp only at m1 m2 m3 m4 m5 m6 m7 m8
    refine ⟨m2, m3, m4, m5, ?_, ?_, ?_, ?_⟩
    · simp [m6, expected_move_events, hT]
    · intro T2 hT2
      simp only [Option.some.injEq] at hT2
      subst hT2
      rw [m1, ho]
    · simp [delegate.valid, hc, m1, m7 hown]
    · by_cases hi : Γ.is_internal_v T = true
      · simp [delegate.block, hT, hi]
      · simp only [Bool.not_eq_true] at hi
        rw [m8 hi]
        simp [delegate.block, hT]

/-- The move constructor, for a source that satisfies the class invariant. -/
theorem delegate.ctor_move_spec (Γ : Env V A R E) (W : World V E) (other : delegate V)
    (hv : other.valid Γ W = true) :
    (delegate.ctor_move Γ other W).1.vptr_ = other.vptr_ ∧
    (delegate.ctor_move Γ other W).1.call_ = other.call_ ∧
    (delegate.ctor_move Γ other W).2.1.vptr_ = none ∧
    (delegate.ctor_move Γ other W).2.1.call_ = none ∧
    (delegate.ctor_move Γ other W).2.2.heap = W.heap ∧
    (delegate.ctor_move Γ other W).2.2.brk = W.brk ∧
    (delegate.ctor_move Γ other W).2.2.trace = W.trace ++ expected_move_events Γ other ∧
    (∀ T, other.vptr_ = some T →
      (delegate.ctor_move Γ other W).1.data_.target Γ T (delegate.ctor_move Γ other W).2.2 =
        other.data_.target Γ T W) ∧
    (delegate.ctor_move Γ other W).1.valid Γ (delegate.ctor_move Γ other W).2.2 = true ∧
    (delegate.ctor_move Γ other W).1.block Γ = other.block Γ := by
  have h := delegate.relocate_spec Γ W other storage.raw hv
  unfold delegate.ctor_move
  cases hT : other.vptr_ with
  | none =>
    simp only [hT] at h
    obtain ⟨h1, h2, _, _, h5, h6, h7, h8⟩ := h _ _ rfl
    exact ⟨rfl, rfl, rfl, rfl, h1, h2, h5, h6, h7, h8⟩
  | some T =>
    simp only [hT] at h
    obtain ⟨h1, h2, _, _, h5, h6, h7, h8⟩ := h _ _ rfl
    exact ⟨rfl, rfl, rfl, rfl, h1, h2, h5, h6, h7, h8⟩

/-- The move assignment to an Empty holder, for a source that satisfies the
class invariant: nothing is destroyed. -/
theorem delegate.assign_move_empty_spec (Γ : Env V A R E) (W : World V E)
    (this other : delegate V) (he : this.vptr_ = none) (hv : other.valid Γ W = true) :
    (delegate.assign_move Γ this other W).1.vptr_ = other.vptr_ ∧
    (delegate.assign_move Γ this other W).1.call_ = other.call_ ∧
    (delegate.assign_move Γ this other W).2.1.vptr_ = none ∧
    (delegate.assign_move Γ this other W).2.1.call_ = none ∧
    (delegate.assign_move Γ this other W).2.2.heap = W.heap ∧
    (delegate.assign_move Γ this other W).2.2.brk = W.brk ∧
    (delegate.assign_move Γ this other W).2.2.trace = W.trace ++ expected_move_events Γ other ∧
    (∀ T, other.vptr_ = some T →
      (delegate.assign_move Γ this other W).1.data_.target Γ T
          (delegate.assign_move Γ this other W).2.2 =
        other.data_.target Γ T W) ∧
    (delegate.assign_move Γ this other W).1.valid Γ
      (delegate.assign_move Γ this other W).2.2 = true ∧
    (delegate.assign_move Γ this other W).1.block Γ = other.block Γ := by
  have hd : this.destroy_if_holding Γ W = (this.data_, W) := by
    simp [delegate.destroy_if_holding, he]
  have h := delegate.relocate_spec Γ W other this.data_ hv
  unfold delegate.assign_move
  rw [hd]
  cases hT : other.vptr_ with
  | none =>
    simp only [hT] at h
    obtain ⟨h1, h2, _, _, h5, h6, h7, h8⟩ := h _ _ rfl
    exact ⟨rfl, rfl, rfl, rfl, h1, h2, h5, h6, h7, h8⟩
  | some T =>
    simp only [hT] at h
    obtain ⟨h1, h2, _, _, h5, h6, h7, h8⟩ := h _ _ rfl
    exact ⟨rfl, rfl, rfl, rfl, h1, h2, h5, h6, h7, h8⟩

/-- The events of relocating a target depend on the dispatcher only. -/
theorem expected_move_events_congr (Γ : Env V A R E) (d1 d2 : delegate V)
    (h : d1.vptr_ = d2.vptr_) : expected_move_events Γ d1 = expected_move_events Γ d2 := by
  simp [expected_move_events, h]

/-- No relocation of a target calls the memory resource. -/
theorem memory_calls_move_events (Γ : Env V A R E) (d : delegate V) :
    memory_calls (expected_move_events Γ d) = [] := by
  unfold expected_move_events
  cases d.vptr_ with
  | none => rfl
  | some T =>
    simp only []
    split <;> simp [memory_calls, Event.is_memory]

/-- Claim C28: `std::swap(a, b)` on two holders that satisfy the class
invariant, in every combination of Empty, inline and heap-placed: afterwards
`a` has the dispatcher, adapter, truthiness, target and block that `b` had, and
`b` those that `a` had; both satisfy the invariant; no heap object changed and
the memory resource was not called; so `a` gives the invocation results and
comparison results `b` gave, and `b` those `a` gave. -/
theorem C28_swap_exchanges (Γ : Env V A R E) (W : World V E) (a b : delegate V)
    (ha : a.valid Γ W = true) (hb : b.valid Γ W = true) :
    ((std_swap Γ a b W).1.vptr_ = b.vptr_ ∧ (std_swap Γ a b W).1.call_ = b.call_ ∧
      (std_swap Γ a b W).2.1.vptr_ = a.vptr_ ∧ (std_swap Γ a b W).2.1.call_ = a.call_) ∧
    ((std_swap Γ a b W).1.to_bool = b.to_bool ∧ (std_swap Γ a b W).2.1.to_bool = a.to_bool) ∧
    (∀ T, b.vptr_ = some T →
      (std_swap Γ a b W).1.data_.target Γ T (std_swap Γ a b W).2.2 = b.data_.target Γ T W) ∧
    (∀ T, a.vptr_ = some T →
      (std_swap Γ a b W).2.1.data_.target Γ T (std_swap Γ a b W).2.2 =
        a.data_.target Γ T W) ∧
    ((std_swap Γ a b W).1.block Γ = b.block Γ ∧ (std_swap Γ a b W).2.1.block Γ = a.block Γ) ∧
    ((std_swap Γ a b W).1.valid Γ (std_swap Γ a b W).2.2 = true ∧
      (std_swap Γ a b W).2.1.valid Γ (std_swap Γ a b W).2.2 = true) ∧
    ((std_swap Γ a b W).2.2.heap = W.heap ∧
      (std_swap Γ a b W).2.2.trace =
        W.trace ++ expected_move_events Γ a ++ expected_move_events Γ b ++
          expected_move_events Γ a ∧
      memory_calls (std_swap Γ a b W).2.2.trace = memory_calls W.trace) ∧
    (∀ (C : Contract) (args : A),
      (delegate.call Γ C (std_swap Γ a b W).1 (std_swap Γ a b W).2.2 args).1 =
        (delegate.call Γ C b W args).1 ∧
      (delegate.call Γ C (std_swap Γ a b W).2.1 (std_swap Γ a b W).2.2 args).1 =
        (delegate.call Γ C a W args).1) ∧
    (∀ x : delegate V,
      delegate.eq Γ (std_swap Γ a b W).2.2 (std_swap Γ a b W).1 x = delegate.eq Γ W b x ∧
      delegate.eq Γ (std_swap Γ a b W).2.2 x (std_swap Γ a b W).1 = delegate.eq Γ W x b ∧
      delegate.eq Γ (std_swap Γ a b W).2.2 (std_swap Γ a b W).2.1 x = delegate.eq Γ W a x ∧
      delegate.eq Γ (std_swap Γ a b W).2.2 x (std_swap Γ a b W).2.1 = delegate.eq Γ W x a) ∧
    delegate.eq Γ (std_swap Γ a b W).2.2 (std_swap Γ a b W).1 (std_swap Γ a b W).2.1 =
      delegate.eq Γ W b a := by
  have hbb : b.call_ = b.vptr_ := by
    simp only [delegate.valid, Bool.and_eq_true, decide_eq_true_eq] at hb
    exact hb.1
  have haa : a.call_ = a.vptr_ := by
    simp only [delegate.valid, Bool.and_eq_true, decide_eq_true_eq] at ha
    exact ha.1
  -- the three moves, one after the other
  have h1 := delegate.ctor_move_spec Γ W a ha
  unfold std_swap
  generalize delegate.ctor_move Γ a W = r1 at h1 ⊢
  obtain ⟨tmp, a1, W1⟩ := r1
  simp only at h1 ⊢
  obtain ⟨t1, t2, t3, _, t5, t6, t7, t8, t9, t10⟩ := h1
  have hb1 : b.valid Γ W1 = true := by
    rw [delegate.valid_congr Γ W1 W b t5 t6]
    exact hb
  have h2 := delegate.assign_move_empty_spec Γ W1 a1 b t3 hb1
  generalize delegate.assign_move Γ a1 b W1 = r2 at h2 ⊢
  obtain ⟨a2, b1, W2⟩ := r2
  simp only at h2 ⊢
  obtain ⟨u1, u2, u3, _, u5, u6, u7, u8, u9, u10⟩ := h2
  have htmp2 : tmp.valid Γ W2 = true := by
    rw [delegate.valid_congr Γ W2 W1 tmp u5 u6]
    exact t9
  have h3 := delegate.assign_move_empty_spec Γ W2 b1 tmp u3 htmp2
  generalize delegate.assign_move Γ b1 tmp W2 = r3 at h3 ⊢
  obtain ⟨b2, tmp1, W3⟩ := r3
  simp only at h3 ⊢
  obtain ⟨v1, v2, v3, _, v5, v6, v7, v8, v9, v10⟩ := h3
  have hdt : delegate.dtor Γ tmp1 W3 = W3 := by
    simp [delegate.dtor, delegate.destroy_if_holding, v3]
  rw [hdt]
  have hheap : W3.heap = W.heap := by rw [v5, u5, t5]
  have ta : ∀ T, b.vptr_ = some T → a2.data_.target Γ T W3 = b.data_.target Γ T W := by
    intro T hT
    rw [storage.target_congr Γ W3 W2 v5, u8 T hT, storage.target_congr Γ W1 W t5]
  have tb : ∀ T, a.vptr_ = some T → b2.data_.target Γ T W3 = a.data_.target Γ T W := by
    intro T hT
    rw [v8 T (t1.trans hT), storage.target_congr Γ W2 W1 u5, t8 T hT]
  have tx : ∀ (x : delegate V) (T : Ty), x.data_.target Γ T W3 = x.data_.target Γ T W :=
    fun x T => storage.target_congr Γ W3 W hheap x.data_ T
  have htr : W3.trace = W.trace ++ expected_move_events Γ a ++ expected_move_events Γ b ++
      expected_move_events Γ a := by
    rw [v7, u7, t7, expected_move_events_congr Γ tmp a t1]
  refine ⟨⟨u1, u2, v1.trans t1, v2.trans t2⟩, ?_, ta, tb, ⟨u10, v10.trans t10⟩, ⟨?_, v9⟩,
    ⟨hheap, htr, ?_⟩, ?_, ?_, ?_⟩
  · simp [delegate.to_bool, u1, v1, t1]
  · rw [delegate.valid_congr Γ W3 W2 a2 v5 v6]
    exact u9
  · rw [htr]
    simp [memory_calls_append, memory_calls_move_events]
  · intro C args
    constructor
    · apply delegate.call_congr Γ C a2 b W3 W args u2
      intro T hT
      exact ta T (by rw [← hbb, ← u2]; exact hT)
    · apply delegate.call_congr Γ C b2 a W3 W args (v2.trans t2)
      intro T hT
      exact tb T (by rw [← haa, ← t2, ← v2]; exact hT)
  · intro x
    refine ⟨?_, ?_, ?_, ?_⟩
    · exact delegate.eq_congr Γ W3 W a2 b x x u1 rfl
        (fun T h _ => ta T (u1 ▸ h)) (fun T _ _ => tx x T)
    · exact delegate.eq_congr Γ W3 W x x a2 b rfl u1
        (fun T _ _ => tx x T) (fun T _ h => ta T (u1 ▸ h))
    · exact delegate.eq_congr Γ W3 W b2 a x x (v1.trans t1) rfl
        (fun T h _ => tb T ((v1.trans t1) ▸ h)) (fun T _ _ => tx x T)
    · exact delegate.eq_congr Γ W3 W x x b2 a rfl (v1.trans t1)
        (fun T _ _ => tx x T) (fun T _ h => tb T ((v1.trans t1) ▸ h))
  · exact delegate.eq_congr Γ W3 W a2 b b2 a u1 (v1.trans t1)
      (fun T h _ => ta T (u1 ▸ h)) (fun T _ h => tb T ((v1.trans t1) ▸ h))

end

/-! ## Programs: every block is returned exactly once -/

section
variable {V A R E : Type}

/-- Replacing one element of a list changes a count by the two elements. -/
theorem countP_set_slot {β : Type} (p : β → Bool) (l : List β) (i : Nat) (x y : β)
    (h : l[i]? = some y) :
    (l.set i x).countP p + (if p y then 1 else 0) = l.countP p + (if p x then 1 else 0) := by
  induction l generalizing i with
  | nil => simp at h
  | cons z zs ih =>
    cases i with
    | zero =>
      simp only [List.getElem?_cons_zero, Option.some.injEq] at h
      subst h
      simp only [List.set_cons_zero, List.countP_cons]
      omega
    | succ n =>
      simp only [List.getElem?_cons_succ] at h
      simp only [List.set_cons_succ, List.countP_cons]
      have := ih n h
      omega

/-- A live holder sits in its slot. -/
theorem System.holder_slot (S : System V E) (i : Nat) (d : delegate V)
    (h : S.holder i = some d) : S.holders[i]? = some (some d) := by
  unfold System.holder at h
  rw [List.getD_eq_getElem?_getD] at h
  cases hq : S.holders[i]? with
  | none => rw [hq] at h; simp at h
  | some y =>
    rw [hq] at h
    simp only [Option.getD_some] at h
    rw [h]

/-- A live holder is among the holders of the state. -/
theorem System.holder_mem (S : System V E) (i : Nat) (d : delegate V)
    (h : S.holder i = some d) : some d ∈ S.holders :=
  List.getElem?_mem (System.holder_slot S i d h)

/-- Where at most one element satisfies a test, two that do are one. -/
theorem countP_le_one_unique {β : Type} (p : β → Bool) (l : List β) (h : l.countP p ≤ 1)
    (x y : β) (hx : x ∈ l) (hy : y ∈ l) (px : p x = true) (py : p y = true) : x = y := by
  induction l with
  | nil => simp at hx
  | cons z zs ih =>
    simp only [List.countP_cons] at h
    simp only [List.mem_cons] at hx hy
    by_cases pz : p z = true
    · simp only [pz, if_true] at h
      have h0 : zs.countP p = 0 := by omega
      rw [List.countP_eq_zero] at h0
      rcases hx with hx | hx
      · rcases hy with hy | hy
        · rw [hx, hy]
        · exact absurd py (h0 y hy)
      · exact absurd px (h0 x hx)
    · rcases hx with hx | hx
      · rw [hx] at px
        exact absurd px pz
      · rcases hy with hy | hy
        · rw [hy] at py
          exact absurd py pz
        · exact ih (by simp only [pz] at h; simpa using h) hx hy

/-! ### Counting hand-outs, returns and owners -/

theorem alloc_count_append (t u : List Event) (a : Nat) :
    alloc_count (t ++ u) a = alloc_count t a + alloc_count u a := by
  simp [alloc_count]

theorem dealloc_count_append (t u : List Event) (a : Nat) :
    dealloc_count (t ++ u) a = dealloc_count t a + dealloc_count u a := by
  simp [dealloc_count]

theorem blocks_count_nil (Γ : Env V A R E) (a : Nat) :
    blocks_count Γ ([] : List (delegate V)) a = 0 := rfl

theorem blocks_count_cons (Γ : Env V A R E) (d : delegate V) (ds : List (delegate V))
    (a : Nat) :
    blocks_count Γ (d :: ds) a = blocks_count Γ ds a + (if d.block Γ = some a then 1 else 0) := by
  simp [blocks_count, List.countP_cons]

theorem owner_count_append_one (Γ : Env V A R E) (hs : List (Option (delegate V)))
    (d : delegate V) (a : Nat) :
    owner_count Γ (hs ++ [some d]) a =
      owner_count Γ hs a + (if d.block Γ = some a then 1 else 0) := by
  simp [owner_count, List.countP_cons]

theorem owner_count_set (Γ : Env V A R E) (hs : List (Option (delegate V))) (i : Nat)
    (d n : delegate V) (a : Nat) (h : hs[i]? = some (some d)) :
    owner_count Γ (hs.set i (some n)) a + (if d.block Γ = some a then 1 else 0) =
      owner_count Γ hs a + (if n.block Γ = some a then 1 else 0) := by
  have := countP_set_slot (fun h : Option (delegate V) =>
    match h with
    | some d => d.block Γ == some a
    | none => false) hs i (some n) (some d) h
  simpa [owner_count] using this

theorem owner_count_set_none (Γ : Env V A R E) (hs : List (Option (delegate V))) (i : Nat)
    (d : delegate V) (a : Nat) (h : hs[i]? = some (some d)) :
    owner_count Γ (hs.set i none) a + (if d.block Γ = some a then 1 else 0) =
      owner_count Γ hs a := by
  have := countP_set_slot (fun h : Option (delegate V) =>
    match h with
    | some d => d.block Γ == some a
    | none => false) hs i none (some d) h
  simpa [owner_count] using this

/-- What the destruction events of a holder count for: no `allocate`, and one
`deallocate`, of the holder's block with the size and alignment of its type,
exactly when it owns a block. -/
theorem destroy_events_counts (Γ : Env V A R E) (d : delegate V) :
    (∀ a, alloc_count (expected_destroy_events Γ d) a = 0) ∧
    (∀ a, dealloc_count (expected_destroy_events Γ d) a =
      if d.block Γ = some a then 1 else 0) ∧
    (∀ s al r, Event.allocate s al r ∉ expected_destroy_events Γ d) ∧
    (∀ b s al, Event.deallocate b s al ∈ expected_destroy_events Γ d →
      ∃ T, d.vptr_ = some T ∧ d.block Γ = some b ∧ s = Γ.sizeof T ∧ al = Γ.alignof T) := by
  unfold expected_destroy_events delegate.block
  cases d.vptr_ with
  | none => simp [alloc_count, dealloc_count]
  | some T =>
    by_cases hi : Γ.is_internal_v T = true
    · simp [hi, alloc_count, dealloc_count, Event.allocates, Event.deallocates]
    · cases d.data_ <;>
        simp [hi, alloc_count, dealloc_count, Event.allocates, Event.deallocates,
          List.countP_cons]
      rename_i x
      intro b s al h1 h2 h3
      exact ⟨h1.symm, h2, h3⟩

/-- No address lies past a cursor that did not move. -/
theorem if_cursor_same (b a : Nat) : (if b < a ∧ a ≤ b then 1 else 0) = 0 := by
  split_ifs <;> omega

/-- One address lies past a cursor that moved by one. -/
theorem if_cursor_next (b a : Nat) :
    (if b < a ∧ a ≤ b + 1 then 1 else 0) = if b + 1 = a then 1 else 0 := by
  split_ifs <;> omega

/-- A default-constructed holder is well shaped. -/
theorem delegate.shaped_ctor (Γ : Env V A R E) : (delegate.ctor : delegate V).shaped Γ := by
  simp [delegate.shaped, delegate.ctor]

/-- A step that records nothing and leaves a holder as it is. -/
theorem Acct_same (Γ : Env V A R E) (W : World V E) (d : delegate V) (hs : d.shaped Γ) :
    Acct Γ W W [d] [d] := by
  refine ⟨[], by simp, le_refl _, ?_, ?_, ?_, ?_, ?_⟩
  · intro a _
    simp [alloc_count, if_cursor_same]
  · intro a _
    simp [alloc_count, dealloc_count]
  · intro x hx
    simp only [List.mem_singleton] at hx
    rw [hx]
    exact hs
  · intro x hx T a hT hb
    simp only [List.mem_singleton] at hx
    subst hx
    exact Or.inr ⟨x, by simp, hT, hb⟩
  · intro a s al h
    simp at h

/-- A step that builds an Empty holder and records nothing. -/
theorem Acct_ctor (Γ : Env V A R E) (W : World V E) :
    Acct Γ W W [] [delegate.ctor] := by
  refine ⟨[], by simp, le_refl _, ?_, ?_, ?_, ?_, ?_⟩
  · intro a _
    simp [alloc_count, if_cursor_same]
  · intro a _
    simp [alloc_count, dealloc_count, blocks_count_cons, blocks_count_nil, delegate.block,
      delegate.ctor]
  · intro x hx
    simp only [List.mem_singleton] at hx
    rw [hx]
    exact delegate.shaped_ctor Γ
  · intro x hx T a hT hb
    simp only [List.mem_singleton] at hx
    subst hx
    simp [delegate.ctor] at hT
  · intro a s al h
    simp at h

/-- A step that does not call `allocate`: every block returned was owned by a
holder the step used up, and every block owned afterwards was owned before. -/
theorem Acct_no_alloc (Γ : Env V A R E) (W W2 : World V E) (olds news : List (delegate V))
    (evs : List Event)
    (htr : W2.trace = W.trace ++ evs) (hbrk : W2.brk = W.brk)
    (hal : ∀ a, alloc_count evs a = 0)
    (hcnt : ∀ a, dealloc_count evs a + blocks_count Γ news a = blocks_count Γ olds a)
    (hsh : ∀ d ∈ news, d.shaped Γ)
    (hown : ∀ d ∈ news, ∀ T a, d.vptr_ = some T → d.block Γ = some a →
      ∃ d0 ∈ olds, d0.vptr_ = some T ∧ d0.block Γ = some a)
    (hde : ∀ a s al, Event.deallocate a s al ∈ evs →
      ∃ d0 ∈ olds, ∃ T, d0.vptr_ = some T ∧ d0.block Γ = some a ∧
        s = Γ.sizeof T ∧ al = Γ.alignof T) :
    Acct Γ W W2 olds news := by
  refine ⟨evs, htr, by omega, ?_, ?_, hsh, ?_, ?_⟩
  · intro a _
    rw [hbrk, if_cursor_same]
    exact hal a
  · intro a _
    rw [hal a, hcnt a]
    omega
  · intro x hx T a hT hbl
    exact Or.inr (hown x hx T a hT hbl)
  · intro a s al h
    exact Or.inr (hde a s al h)

/-- The bookkeeping of `delegate(fn_t)`. -/
theorem Acct_ctor_fn (Γ : Env V A R E) (C : Contract) (f : Nat) (W : World V E) :
    Acct Γ W (delegate.ctor_fn Γ C f W).2 [] [(delegate.ctor_fn Γ C f W).1] := by
  unfold delegate.ctor_fn
  by_cases hf : f = 0
  · simp only [hf, if_true]
    exact Acct_ctor Γ W
  · simp only [hf, if_false]
    have hi := Contract.fn_t_internal Γ C
    apply Acct_no_alloc Γ W _ [] _ [Event.construct C.fn_t Place.buffer]
    · simp [storage.assign_as, storage.get_as, hi, World.log]
    · simp [storage.assign_as, storage.get_as, hi, World.log]
    · intro a
      simp [alloc_count, Event.allocates]
    · intro a
      simp [dealloc_count, blocks_count_cons, blocks_count_nil, Event.deallocates,
        delegate.block, hi]
    · intro x hx
      simp only [List.mem_singleton] at hx
      subst hx
      simp [delegate.shaped, hi]
    · intro x hx T a hT hb
      simp only [List.mem_singleton] at hx
      subst hx
      simp only [Option.some.injEq] at hT
      subst hT
      simp [delegate.block, hi] at hb
    · intro a s al h
      simp at h

/-- The bookkeeping of `operator=(std::nullptr_t)`. -/
theorem Acct_assign_nullptr (Γ : Env V A R E) (this : delegate V) (W : World V E) :
    Acct Γ W (delegate.assign_nullptr Γ this W).2 [this]
      [(delegate.assign_nullptr Γ this W).1] := by
  obtain ⟨c1, c2, _, c4⟩ := destroy_events_counts Γ this
  apply Acct_no_alloc Γ W _ [this] _ (expected_destroy_events Γ this)
  · exact delegate.destroy_if_holding_trace Γ this W
  · exact (delegate.destroy_if_holding_frame Γ this W).1
  · exact c1
  · intro a
    simp [c2, blocks_count_cons, blocks_count_nil, delegate.block, delegate.assign_nullptr]
  · intro x hx
    simp only [List.mem_singleton] at hx
    subst hx
    simp [delegate.shaped, delegate.assign_nullptr]
  · intro x hx T a hT hb
    simp only [List.mem_singleton] at hx
    subst hx
    simp [delegate.assign_nullptr] at hT
  · intro a s al h
    exact ⟨this, by simp, c4 a s al h⟩

/-- The bookkeeping of `~delegate()`. -/
theorem Acct_dtor (Γ : Env V A R E) (this : delegate V) (W : World V E) :
    Acct Γ W (delegate.dtor Γ this W) [this] [] := by
  obtain ⟨c1, c2, _, c4⟩ := destroy_events_counts Γ this
  apply Acct_no_alloc Γ W _ [this] _ (expected_destroy_events Γ this)
  · exact delegate.destroy_if_holding_trace Γ this W
  · exact (delegate.destroy_if_holding_frame Γ this W).1
  · exact c1
  · intro a
    simp [c2, blocks_count_cons, blocks_count_nil]
  · intro x hx
    simp at hx
  · intro x hx
    simp at hx
  · intro a s al h
    exact ⟨this, by simp, c4 a s al h⟩

/-- The bookkeeping of `operator=(fn_t)`. -/
theorem Acct_assign_fn (Γ : Env V A R E) (C : Contract) (this : delegate V) (f : Nat)
    (W : World V E) (hs : this.shaped Γ) :
    Acct Γ W (delegate.assign_fn Γ C this f W).2 [this]
      [(delegate.assign_fn Γ C this f W).1] := by
  unfold delegate.assign_fn
  by_cases hf : f = 0
  · simp only [hf, if_true]
    exact Acct_same Γ W this hs
  · simp only [hf, if_false]
    have hi := Contract.fn_t_internal Γ C
    obtain ⟨c1, c2, _, c4⟩ := destroy_events_counts Γ this
    apply Acct_no_alloc Γ W _ [this] _
      (expected_destroy_events Γ this ++ [Event.construct C.fn_t Place.buffer])
    · simp [storage.assign_as, storage.get_as, hi, World.log,
        delegate.destroy_if_holding_trace]
    · simp [storage.assign_as, storage.get_as, hi, World.log,
        (delegate.destroy_if_holding_frame Γ this W).1]
    · intro a
      rw [alloc_count_append, c1]
      simp [alloc_count, Event.allocates]
    · intro a
      rw [dealloc_count_append, c2]
      simp [dealloc_count, blocks_count_cons, blocks_count_nil, Event.deallocates,
        delegate.block, hi]
    · intro x hx
      simp only [List.mem_singleton] at hx
      subst hx
      simp [delegate.shaped, hi]
    · intro x hx T a hT hb
      simp only [List.mem_singleton] at hx
      subst hx
      simp only [Option.some.injEq] at hT
      subst hT
      simp [delegate.block, hi] at hb
    · intro a s al h
      simp only [List.mem_append, List.mem_singleton, reduceCtorEq, or_false] at h
      exact ⟨this, by simp, c4 a s al h⟩

/-- The call operator records nothing, leaves the memory resource alone, and
leaves the holder its pointers and the address in its buffer, if it has one. -/
theorem delegate.call_frame (Γ : Env V A R E) (C : Contract) (d : delegate V) (W : World V E)
    (args : A) :
    (delegate.call Γ C d W args).2.2.trace = W.trace ∧
    (delegate.call Γ C d W args).2.2.brk = W.brk ∧
    (delegate.call Γ C d W args).2.1.vptr_ = d.vptr_ ∧
    (delegate.call Γ C d W args).2.1.call_ = d.call_ ∧
    (∀ a, (delegate.call Γ C d W args).2.1.data_ = storage.address a ↔
      d.data_ = storage.address a) := by
  obtain ⟨dd, dc, dv⟩ := d
  unfold delegate.call
  cases dc with
  | none => simp
  | some T =>
    simp only []
    unfold invoke
    cases hg : dd.get_as Γ T with
    | none => simp
    | some p =>
      simp only []
      cases hd : deref W dd T p with
      | none => simp
      | some o =>
        simp only []
        cases p with
        | buffer =>
          have hnot : ∀ a, dd ≠ storage.address a := by
            intro a ha
            rw [ha] at hd
            simp [deref] at hd
          cases (Γ.call_obj C.cv C.category o args).1 <;>
            simp [store_through, hnot]
        | block b =>
          cases (Γ.call_obj C.cv C.category o args).1 <;> simp [store_through]

/-- The block a holder owns is read off its dispatcher and the address in its
buffer. -/
theorem delegate.block_congr (Γ : Env V A R E) (d n : delegate V) (hv : n.vptr_ = d.vptr_)
    (hd : ∀ a, n.data_ = storage.address a ↔ d.data_ = storage.address a) :
    n.block Γ = d.block Γ := by
  unfold delegate.block
  rw [hv]
  cases d.vptr_ with
  | none => rfl
  | some T =>
    simp only []
    split
    · rfl
    · cases hn : n.data_ with
      | address a =>
        rw [(hd a).mp hn]
      | raw =>
        cases hdd : d.data_ with
        | address a =>
          rw [(hd a).mpr hdd] at hn
          simp at hn
        | raw => rfl
        | inplace o => rfl
      | inplace o2 =>
        cases hdd : d.data_ with
        | address a =>
          rw [(hd a).mpr hdd] at hn
          simp at hn
        | raw => rfl
        | inplace o => rfl

/-- Being well shaped is read off the pointers and the address in the buffer. -/
theorem delegate.shaped_congr (Γ : Env V A R E) (d n : delegate V) (hv : n.vptr_ = d.vptr_)
    (hc : n.call_ = d.call_)
    (hd : ∀ a, n.data_ = storage.address a ↔ d.data_ = storage.address a)
    (hs : d.shaped Γ) : n.shaped Γ := by
  unfold delegate.shaped at *
  rw [hv, hc]
  refine ⟨hs.1, ?_⟩
  intro T hT hi
  obtain ⟨a, ha⟩ := hs.2 T hT hi
  exact ⟨a, (hd a).mpr ha⟩

/-- A step that records nothing and leaves the holder its pointers and address. -/
theorem Acct_keep (Γ : Env V A R E) (W W2 : World V E) (d n : delegate V)
    (htr : W2.trace = W.trace) (hbrk : W2.brk = W.brk) (hv : n.vptr_ = d.vptr_)
    (hc : n.call_ = d.call_)
    (hd : ∀ a, n.data_ = storage.address a ↔ d.data_ = storage.address a)
    (hs : d.shaped Γ) : Acct Γ W W2 [d] [n] := by
  have hb := delegate.block_congr Γ d n hv hd
  apply Acct_no_alloc Γ W W2 [d] [n] []
  · simp [htr]
  · exact hbrk
  · intro a
    rfl
  · intro a
    simp [dealloc_count, blocks_count_cons, blocks_count_nil, hb]
  · intro x hx
    simp only [List.mem_singleton] at hx
    subst hx
    exact delegate.shaped_congr Γ d x hv hc hd hs
  · intro x hx T a hT hbl
    simp only [List.mem_singleton] at hx
    subst hx
    exact ⟨d, by simp, hv ▸ hT, hb ▸ hbl⟩
  · intro a s al h
    simp at h

/-- The bookkeeping of the call operator. -/
theorem Acct_call (Γ : Env V A R E) (C : Contract) (this : delegate V) (W : World V E)
    (args : A) (hs : this.shaped Γ) :
    Acct Γ W (delegate.call Γ C this W args).2.2 [this]
      [(delegate.call Γ C this W args).2.1] := by
  obtain ⟨h1, h2, h3, h4, h5⟩ := delegate.call_frame Γ C this W args
  exact Acct_keep Γ W _ this _ h1 h2 h3 h4 h5 hs

/-- The template `move<T>` for a well-shaped source: the memory resource is
left alone, a heap-placed target's address is what the destination gets, and
the record grows by no call of the memory resource. -/
theorem move_shaped (Γ : Env V A R E) (T : Ty) (src dst : storage V) (W : World V E)
    (hext : Γ.is_internal_v T = false → ∃ a, src = storage.address a) :
    (move Γ T src dst W).2.brk = W.brk ∧
    (Γ.is_internal_v T = false → (move Γ T src dst W).1 = src) ∧
    ∃ evs, (move Γ T src dst W).2.trace = W.trace ++ evs ∧
      (∀ a, alloc_count evs a = 0) ∧ (∀ a, dealloc_count evs a = 0) ∧
      (∀ a s al, Event.deallocate a s al ∉ evs) := by
  unfold move
  by_cases hi : Γ.is_internal_v T = true
  · simp only [hi, if_true]
    cases src.target Γ T W with
    | none =>
      refine ⟨rfl, by simp, [], by simp, fun _ => rfl, fun _ => rfl, by simp⟩
    | some o =>
      refine ⟨rfl, by simp, [Event.construct T Place.buffer], by simp [World.log], ?_, ?_,
        by simp⟩
      · intro a
        simp [alloc_count, Event.allocates]
      · intro a
        simp [dealloc_count, Event.deallocates]
  · simp only [Bool.not_eq_true] at hi
    obtain ⟨a, ha⟩ := hext hi
    subst ha
    simp only [hi, Bool.false_eq_true, if_false, storage.get_as, storage.put_address_eq]
    exact ⟨trivial, fun _ => trivial, [], by simp, fun _ => rfl, fun _ => rfl, by simp⟩

/-- The holder that received a target by `move<T>` owns the block the source
owned. -/
theorem delegate.block_moved (Γ : Env V A R E) (T : Ty) (other : delegate V)
    (dst : storage V) (W : World V E) (c : Option Ty) (hT : other.vptr_ = some T)
    (hs : other.shaped Γ) :
    ({ data_ := (move Γ T other.data_ dst W).1, call_ := c, vptr_ := some T } :
      delegate V).block Γ = other.block Γ := by
  by_cases hi : Γ.is_internal_v T = true
  · simp [delegate.block, hT, hi]
  · simp only [Bool.not_eq_true] at hi
    obtain ⟨_, hm, _⟩ := move_shaped Γ T other.data_ dst W (fun h => hs.2 T hT h)
    rw [hm hi]
    simp [delegate.block, hT]

/-- The holder that received a target by `move<T>` is well shaped. -/
theorem delegate.shaped_moved (Γ : Env V A R E) (T : Ty) (other : delegate V)
    (dst : storage V) (W : World V E) (hT : other.vptr_ = some T)
    (hs : other.shaped Γ) :
    ({ data_ := (move Γ T other.data_ dst W).1, call_ := other.call_, vptr_ := some T } :
      delegate V).shaped Γ := by
  refine ⟨by simp [hs.1, hT], ?_⟩
  intro T2 hT2 hi
  simp only [Option.some.injEq] at hT2
  subst hT2
  obtain ⟨_, hm, _⟩ := move_shaped Γ T other.data_ dst W (fun h => hs.2 T hT h)
  simp only [hm hi]
  exact hs.2 T hT hi

/-- The bookkeeping of the move constructor. -/
theorem Acct_ctor_move (Γ : Env V A R E) (other : delegate V) (W : World V E)
    (hs : other.shaped Γ) :
    Acct Γ W (delegate.ctor_move Γ other W).2.2 [other]
      [(delegate.ctor_move Γ other W).1, (delegate.ctor_move Γ other W).2.1] := by
  unfold delegate.ctor_move
  cases hT : other.vptr_ with
  | none =>
    have hc : other.call_ = none := by rw [hs.1, hT]
    apply Acct_no_alloc Γ W _ [other] _ []
    · simp
    · rfl
    · intro a
      rfl
    · intro a
      simp [dealloc_count, blocks_count_cons, blocks_count_nil, delegate.block, hT]
    · intro x hx
      simp only [List.mem_cons, List.mem_singleton, List.not_mem_nil, or_false] at hx
      rcases hx with hx | hx <;> subst hx <;> simp [delegate.shaped, hc]
    · intro x hx T a hT2 hb
      simp only [List.mem_cons, List.mem_singleton, List.not_mem_nil, or_false] at hx
      rcases hx with hx | hx <;> subst hx <;> simp at hT2
    · intro a s al h
      simp at h
  | some T =>
    simp only [vtable]
    obtain ⟨m1, _, evs, m3, m4, m5, m6⟩ :=
      move_shaped Γ T other.data_ storage.raw W (fun h => hs.2 T hT h)
    have hb := delegate.block_moved Γ T other storage.raw W other.call_ hT hs
    have hsh := delegate.shaped_moved Γ T other storage.raw W hT hs
    apply Acct_no_alloc Γ W _ [other] _ evs
    · exact m3
    · exact m1
    · exact m4
    · intro a
      rw [m5]
      simp [blocks_count_cons, blocks_count_nil, hb]
      simp [delegate.block]
    · intro x hx
      simp only [List.mem_cons, List.mem_singleton, List.not_mem_nil, or_false] at hx
      rcases hx with hx | hx <;> subst hx
      · exact hsh
      · simp [delegate.shaped]
    · intro x hx T2 a hT2 hbl
      simp only [List.mem_cons, List.mem_singleton, List.not_mem_nil, or_false] at hx
      rcases hx with hx | hx <;> subst hx
      · simp only [Option.some.injEq] at hT2
        subst hT2
        rw [hb] at hbl
        exact ⟨other, by simp, hT, hbl⟩
      · simp at hT2
    · intro a s al h
      exact absurd h (m6 a s al)

/-- The bookkeeping of the move assignment. -/
theorem Acct_assign_move (Γ : Env V A R E) (this other : delegate V) (W : World V E)
    (hs : other.shaped Γ) :
    Acct Γ W (delegate.assign_move Γ this other W).2.2 [this, other]
      [(delegate.assign_move Γ this other W).1, (delegate.assign_move Γ this other W).2.1] := by
  obtain ⟨c1, c2, _, c4⟩ := destroy_events_counts Γ this
  have dtr := delegate.destroy_if_holding_trace Γ this W
  have dbrk := (delegate.destroy_if_holding_frame Γ this W).1
  unfold delegate.assign_move
  cases hT : other.vptr_ with
  | none =>
    have hc : other.call_ = none := by rw [hs.1, hT]
    apply Acct_no_alloc Γ W _ [this, other] _ (expected_destroy_events Γ this)
    · exact dtr
    · exact dbrk
    · exact c1
    · intro a
      rw [c2]
      simp [blocks_count_cons, blocks_count_nil, delegate.block, hT]
    · intro x hx
      simp only [List.mem_cons, List.mem_singleton, List.not_mem_nil, or_false] at hx
      rcases hx with hx | hx <;> subst hx <;> simp [delegate.shaped, hc]
    · intro x hx T a hT2 hb
      simp only [List.mem_cons, List.mem_singleton, List.not_mem_nil, or_false] at hx
      rcases hx with hx | hx <;> subst hx <;> simp at hT2
    · intro a s al h
      exact ⟨this, by simp, c4 a s al h⟩
  | some T =>
    simp only [vtable]
    obtain ⟨m1, _, evs, m3, m4, m5, m6⟩ :=
      move_shaped Γ T other.data_ (this.destroy_if_holding Γ W).1
        (this.destroy_if_holding Γ W).2 (fun h => hs.2 T hT h)
    have hb := delegate.block_moved Γ T other (this.destroy_if_holding Γ W).1
      (this.destroy_if_holding Γ W).2 other.call_ hT hs
    have hsh := delegate.shaped_moved Γ T other (this.destroy_if_holding Γ W).1
      (this.destroy_if_holding Γ W).2 hT hs
    apply Acct_no_alloc Γ W _ [this, other] _ (expected_destroy_events Γ this ++ evs)
    · rw [m3, dtr, List.append_assoc]
    · rw [m1, dbrk]
    · intro a
      rw [alloc_count_append, c1, m4]
    · intro a
      rw [dealloc_count_append, c2, m5]
      simp only [blocks_count_cons, blocks_count_nil, hb]
      simp [delegate.block]
      omega
    · intro x hx
      simp only [List.mem_cons, List.mem_singleton, List.not_mem_nil, or_false] at hx
      rcases hx with hx | hx <;> subst hx
      · exact hsh
      · simp [delegate.shaped]
    · intro x hx T2 a hT2 hbl
      simp only [List.mem_cons, List.mem_singleton, List.not_mem_nil, or_false] at hx
      rcases hx with hx | hx <;> subst hx
      · simp only [Option.some.injEq] at hT2
        subst hT2
        rw [hb] at hbl
        exact ⟨other, by simp, hT, hbl⟩
      · simp at hT2
    · intro a s al h
      simp only [List.mem_append] at h
      rcases h with h | h
      · exact ⟨this, by simp, c4 a s al h⟩
      · exact absurd h (m6 a s al)

/-- A step whose own `allocate`, if it got a block, was followed by the return
of that block, and which leaves the ownership of blocks as it was. -/
theorem Acct_balanced (Γ : Env V A R E) (W W2 : World V E) (olds news : List (delegate V))
    (evs : List Event)
    (htr : W2.trace = W.trace ++ evs) (hbrk : W.brk ≤ W2.brk)
    (hal : ∀ a, 0 < a → alloc_count evs a = if W.brk < a ∧ a ≤ W2.brk then 1 else 0)
    (hbal : ∀ a, 0 < a → dealloc_count evs a = alloc_count evs a)
    (hblk : ∀ a, blocks_count Γ news a = blocks_count Γ olds a)
    (hsh : ∀ d ∈ news, d.shaped Γ)
    (hown : ∀ d ∈ news, ∀ T a, d.vptr_ = some T → d.block Γ = some a →
      ∃ d0 ∈ olds, d0.vptr_ = some T ∧ d0.block Γ = some a)
    (hde : ∀ a s al, Event.deallocate a s al ∈ evs → 0 < a ∧ Event.allocate s al a ∈ evs) :
    Acct Γ W W2 olds news := by
  refine ⟨evs, htr, hbrk, hal, ?_, hsh, ?_, ?_⟩
  · intro a ha
    rw [hbal a ha, hblk a]
  · intro x hx T a hT hbl
    exact Or.inr (hown x hx T a hT hbl)
  · intro a s al h
    exact Or.inl (hde a s al h)

/-- A step that allocates a block for a target of type `T`, constructs the
target in it, then destroys what the holders `olds` held, and leaves one holder
owning the new block. -/
theorem Acct_install (Γ : Env V A R E) (W W2 : World V E) (olds : List (delegate V))
    (n : delegate V) (T : Ty) (D : List Event)
    (htr : W2.trace = W.trace ++
      ([Event.allocate (Γ.sizeof T) (Γ.alignof T) (W.brk + 1),
        Event.construct T (Place.block (W.brk + 1))] ++ D))
    (hbrk : W2.brk = W.brk + 1)
    (hDa : ∀ a, alloc_count D a = 0)
    (hDd : ∀ a, dealloc_count D a = blocks_count Γ olds a)
    (hDe : ∀ a s al, Event.deallocate a s al ∈ D →
      ∃ d0 ∈ olds, ∃ T, d0.vptr_ = some T ∧ d0.block Γ = some a ∧
        s = Γ.sizeof T ∧ al = Γ.alignof T)
    (hv : n.vptr_ = some T) (hb : n.block Γ = some (W.brk + 1)) (hs : n.shaped Γ) :
    Acct Γ W W2 olds [n] := by
  refine ⟨_, htr, by omega, ?_, ?_, ?_, ?_, ?_⟩
  · intro a _
    rw [alloc_count_append, hDa, hbrk, if_cursor_next]
    simp [alloc_count, Event.allocates, List.countP_cons]
  · intro a _
    rw [alloc_count_append, dealloc_count_append, hDa, hDd]
    simp [alloc_count, dealloc_count, Event.allocates, Event.deallocates, List.countP_cons,
      blocks_count_cons, blocks_count_nil, hb]
    omega
  · intro x hx
    simp only [List.mem_singleton] at hx
    subst hx
    exact hs
  · intro x hx T2 a hT2 hbl
    simp only [List.mem_singleton] at hx
    subst hx
    rw [hv] at hT2
    simp only [Option.some.injEq] at hT2
    subst hT2
    rw [hb] at hbl
    simp only [Option.some.injEq] at hbl
    subst hbl
    exact Or.inl ⟨by omega, by simp⟩
  · intro a s al h
    simp only [List.mem_append, List.mem_cons, List.mem_singleton, reduceCtorEq,
      List.not_mem_nil, or_false, false_or] at h
    exact Or.inr (hDe a s al h)

/-- The events of a failed attempt to place a target on the heap balance: the
memory resource raised, returned null, or its block was returned to it. -/
theorem failed_attempt_events (b s al : Nat) :
    (∀ a, 0 < a → alloc_count [Event.allocate_raised s al] a = 0 ∧
      dealloc_count [Event.allocate_raised s al] a = 0) ∧
    (∀ a, 0 < a → alloc_count [Event.allocate s al 0] a = 0 ∧
      dealloc_count [Event.allocate s al 0] a = 0) ∧
    (∀ a, alloc_count [Event.allocate s al (b + 1), Event.deallocate (b + 1) s al] a =
        (if b + 1 = a then 1 else 0) ∧
      dealloc_count [Event.allocate s al (b + 1), Event.deallocate (b + 1) s al] a =
        (if b + 1 = a then 1 else 0)) := by
  refine ⟨?_, ?_, ?_⟩
  · intro a _
    simp [alloc_count, dealloc_count, Event.allocates, Event.deallocates]
  · intro a ha
    simp [alloc_count, dealloc_count, Event.allocates, Event.deallocates, List.countP_cons]
    omega
  · intro a
    simp [alloc_count, dealloc_count, Event.allocates, Event.deallocates, List.countP_cons]

/-- A failed attempt to place a target on the heap, in a step that leaves the
holders as they were. -/
theorem Acct_failed_attempt (Γ : Env V A R E) (W W2 : World V E)
    (olds news : List (delegate V)) (s al : Nat)
    (hcase : (W2.trace = W.trace ++ [Event.allocate_raised s al] ∧ W2.brk = W.brk) ∨
      (W2.trace = W.trace ++ [Event.allocate s al 0] ∧ W2.brk = W.brk) ∨
      (W2.trace = W.trace ++
          [Event.allocate s al (W.brk + 1), Event.deallocate (W.brk + 1) s al] ∧
        W2.brk = W.brk + 1))
    (hblk : ∀ a, blocks_count Γ news a = blocks_count Γ olds a)
    (hsh : ∀ d ∈ news, d.shaped Γ)
    (hown : ∀ d ∈ news, ∀ T a, d.vptr_ = some T → d.block Γ = some a →
      ∃ d0 ∈ olds, d0.vptr_ = some T ∧ d0.block Γ = some a) :
    Acct Γ W W2 olds news := by
  obtain ⟨f1, f2, f3⟩ := failed_attempt_events W.brk s al
  rcases hcase with ⟨htr, hbrk⟩ | ⟨htr, hbrk⟩ | ⟨htr, hbrk⟩
  · apply Acct_balanced Γ W W2 olds news _ htr (by omega) _ _ hblk hsh hown
    · intro a s2 al2 h
      simp at h
    · intro a ha
      rw [hbrk, if_cursor_same]
      exact (f1 a ha).1
    · intro a ha
      rw [(f1 a ha).1, (f1 a ha).2]
  · apply Acct_balanced Γ W W2 olds news _ htr (by omega) _ _ hblk hsh hown
    · intro a s2 al2 h
      simp at h
    · intro a ha
      rw [hbrk, if_cursor_same]
      exact (f2 a ha).1
    · intro a ha
      rw [(f2 a ha).1, (f2 a ha).2]
  · apply Acct_balanced Γ W W2 olds news _ htr (by omega) _ _ hblk hsh hown
    · intro a s2 al2 h
      simp only [List.mem_cons, List.mem_singleton, reduceCtorEq, List.not_mem_nil,
        or_false, false_or, Event.deallocate.injEq] at h
      obtain ⟨h1, h2, h3⟩ := h
      subst h1 h2 h3
      exact ⟨by omega, by simp⟩
    · intro a _
      rw [hbrk, if_cursor_next]
      exact (f3 a).1
    · intro a _
      rw [(f3 a).1, (f3 a).2]

/-- The bookkeeping of `delegate(F)`, returning or raising. -/
theorem Acct_ctor_value (Γ : Env V A R E) (func : Obj V) (W : World V E) :
    (∀ d W2, delegate.ctor_value Γ func W = (Except.ok d, W2) → Acct Γ W W2 [] [d]) ∧
    (∀ e W2, delegate.ctor_value Γ func W = (Except.error e, W2) → Acct Γ W W2 [] []) := by
  have hempty : ∀ a, blocks_count Γ [(delegate.ctor : delegate V)] a =
      blocks_count Γ ([] : List (delegate V)) a := by
    intro a
    simp [blocks_count_cons, blocks_count_nil, delegate.block, delegate.ctor]
  have hsh0 : ∀ d ∈ [(delegate.ctor : delegate V)], d.shaped Γ := by
    intro x hx
    simp only [List.mem_singleton] at hx
    subst hx
    exact delegate.shaped_ctor Γ
  have hown0 : ∀ d ∈ [(delegate.ctor : delegate V)], ∀ T a, d.vptr_ = some T →
      d.block Γ = some a →
      ∃ d0 ∈ ([] : List (delegate V)), d0.vptr_ = some T ∧ d0.block Γ = some a := by
    intro x hx T a hT _
    simp only [List.mem_singleton] at hx
    subst hx
    simp [delegate.ctor] at hT
  unfold delegate.ctor_value
  split
  · constructor
    · intro d W2 h
      simp only [Prod.mk.injEq, Except.ok.injEq] at h
      obtain ⟨h1, h2⟩ := h
      subst h1 h2
      exact Acct_ctor Γ W
    · intro e W2 h
      simp at h
  · split
    · rename_i hi
      constructor
      · intro d W2 h
        simp only [Prod.mk.injEq, Except.ok.injEq] at h
        obtain ⟨h1, h2⟩ := h
        subst h1 h2
        apply Acct_no_alloc Γ W _ [] _ [Event.construct func.ty Place.buffer]
        · simp [World.log]
        · rfl
        · intro a
          simp [alloc_count, Event.allocates]
        · intro a
          simp [dealloc_count, Event.deallocates, blocks_count_cons, blocks_count_nil,
            delegate.block, hi]
        · intro x hx
          simp only [List.mem_singleton] at hx
          subst hx
          simp [delegate.shaped, hi]
        · intro x hx T a hT hb
          simp only [List.mem_singleton] at hx
          subst hx
          simp only [Option.some.injEq] at hT
          subst hT
          simp [delegate.block, hi] at hb
        · intro a s al h
          simp at h
      · intro e W2 h
        simp at h
    · rename_i hi
      simp only [Bool.not_eq_true] at hi
      unfold memory_owner.ctor World.allocate
      cases hoc : W.oracle W.calls with
      | raise e0 =>
        simp only []
        constructor
        · intro d W2 h
          simp at h
        · intro e W2 h
          simp only [Prod.mk.injEq, Except.error.injEq] at h
          obtain ⟨_, h2⟩ := h
          subst h2
          exact Acct_failed_attempt Γ W _ [] [] (Γ.sizeof func.ty) (Γ.alignof func.ty)
            (Or.inl ⟨rfl, rfl⟩) (fun _ => rfl) (by simp) (by simp)
      | null =>
        simp only [memory_owner.get, ne_eq, not_true_eq_false, if_false, memory_owner.dtor]
        constructor
        · intro d W2 h
          simp only [Prod.mk.injEq, Except.ok.injEq] at h
          obtain ⟨h1, h2⟩ := h
          subst h1 h2
          exact Acct_failed_attempt Γ W _ [] _ (Γ.sizeof func.ty) (Γ.alignof func.ty)
            (Or.inr (Or.inl ⟨rfl, rfl⟩)) hempty hsh0 hown0
        · intro e W2 h
          simp at h
      | block =>
        simp only [memory_owner.get, ne_eq, Nat.add_one_ne_zero, not_false_eq_true, if_true]
        cases hm : Γ.move_raises func with
        | some e0 =>
          simp only []
          constructor
          · intro d W2 h
            simp at h
          · intro e W2 h
            simp only [Prod.mk.injEq, Except.error.injEq] at h
            obtain ⟨_, h2⟩ := h
            subst h2
            exact Acct_failed_attempt Γ W _ [] [] (Γ.sizeof func.ty) (Γ.alignof func.ty)
              (Or.inr (Or.inr ⟨by simp [memory_owner.dtor, World.deallocate, World.log],
                by simp [memory_owner.dtor, World.deallocate, World.log]⟩))
              (fun _ => rfl) (by simp) (by simp)
        | none =>
          simp only []
          constructor
          · intro d W2 h
            simp only [Prod.mk.injEq, Except.ok.injEq] at h
            obtain ⟨h1, h2⟩ := h
            subst h1 h2
            apply Acct_install Γ W _ [] _ func.ty []
            · simp [memory_owner.release, memory_owner.dtor, World.construct_at]
            · simp [memory_owner.release, memory_owner.dtor, World.construct_at]
            · intro a
              rfl
            · intro a
              rfl
            · intro a s al h
              simp at h
            · rfl
            · simp [delegate.block, hi, storage.put_address_eq]
            · simp [delegate.shaped, storage.put_address_eq]
          · intro e W2 h
            simp at h

/-- The bookkeeping of `operator=(F)`, returning or raising. -/
theorem Acct_assign_value (Γ : Env V A R E) (this : delegate V) (func : Obj V) (W : World V E)
    (hs : this.shaped Γ) :
    Acct Γ W (delegate.assign_value Γ this func W).2.2 [this]
      [(delegate.assign_value Γ this func W).2.1] := by
  obtain ⟨c1, c2, _, c4⟩ := destroy_events_counts Γ this
  have hsame : ∀ d ∈ [this], ∀ T a, d.vptr_ = some T → d.block Γ = some a →
      ∃ d0 ∈ [this], d0.vptr_ = some T ∧ d0.block Γ = some a := by
    intro x hx T a hT hb
    exact ⟨x, hx, hT, hb⟩
  have hsh1 : ∀ d ∈ [this], d.shaped Γ := by
    intro x hx
    simp only [List.mem_singleton] at hx
    subst hx
    exact hs
  unfold delegate.assign_value
  split
  · exact Acct_same Γ W this hs
  · split
    · rename_i hi
      apply Acct_no_alloc Γ W _ [this] _
        (expected_destroy_events Γ this ++ [Event.construct func.ty Place.buffer])
      · simp [World.log, delegate.destroy_if_holding_trace]
      · simp [World.log, (delegate.destroy_if_holding_frame Γ this W).1]
      · intro a
        rw [alloc_count_append, c1]
        simp [alloc_count, Event.allocates]
      · intro a
        rw [dealloc_count_append, c2]
        simp [dealloc_count, blocks_count_cons, blocks_count_nil, Event.deallocates,
          delegate.block, hi]
      · intro x hx
        simp only [List.mem_singleton] at hx
        subst hx
        simp [delegate.shaped, hi]
      · intro x hx T a hT hb
        simp only [List.mem_singleton] at hx
        subst hx
        simp only [Option.some.injEq] at hT
        subst hT
        simp [delegate.block, hi] at hb
      · intro a s al h
        simp only [List.mem_append, List.mem_singleton, reduceCtorEq, or_false] at h
        exact ⟨this, by simp, c4 a s al h⟩
    · rename_i hi
      simp only [Bool.not_eq_true] at hi
      unfold memory_owner.ctor World.allocate
      cases hoc : W.oracle W.calls with
      | raise e0 =>
        exact Acct_failed_attempt Γ W _ [this] [this] (Γ.sizeof func.ty) (Γ.alignof func.ty)
          (Or.inl ⟨rfl, rfl⟩) (fun _ => rfl) hsh1 hsame
      | null =>
        simp only [memory_owner.get, ne_eq, not_true_eq_false, if_false, memory_owner.dtor]
        exact Acct_failed_attempt Γ W _ [this] [this] (Γ.sizeof func.ty) (Γ.alignof func.ty)
          (Or.inr (Or.inl ⟨rfl, rfl⟩)) (fun _ => rfl) hsh1 hsame
      | block =>
        simp only [memory_owner.get, ne_eq, Nat.add_one_ne_zero, not_false_eq_true, if_true]
        cases hm : Γ.move_raises func with
        | some e0 =>
          exact Acct_failed_attempt Γ W _ [this] [this] (Γ.sizeof func.ty)
            (Γ.alignof func.ty)
            (Or.inr (Or.inr ⟨by simp [memory_owner.dtor, World.deallocate, World.log],
              by simp [memory_owner.dtor, World.deallocate, World.log]⟩))
            (fun _ => rfl) hsh1 hsame
        | none =>
          simp only []
          apply Acct_install Γ W _ [this] _ func.ty (expected_destroy_events Γ this)
          · simp [memory_owner.release, memory_owner.dtor, World.construct_at,
              delegate.destroy_if_holding_trace]
          · simp [memory_owner.release, memory_owner.dtor, World.construct_at,
              (delegate.destroy_if_holding_frame Γ this _).1]
          · exact c1
          · intro a
            rw [c2]
            simp [blocks_count_cons, blocks_count_nil]
          · intro a s al h
            exact ⟨this, by simp, c4 a s al h⟩
          · rfl
          · simp [delegate.block, hi, storage.put_address_eq]
          · simp [delegate.shaped, storage.put_address_eq]

/-! ### The invariant of program states -/

/-- The invariant holds at program start. -/
theorem System.Inv_init (Γ : Env V A R E) (oracle : Nat → AllocReply E) :
    (System.init oracle : System V E).Inv Γ := by
  refine ⟨?_, ?_, ?_, ?_, ?_⟩
  · intro a ha
    have : ¬ a ≤ 0 := by omega
    simp [System.init, World.init, alloc_count, this]
  · intro a _
    simp [System.init, World.init, alloc_count, dealloc_count, owner_count]
  · intro d hd
    simp [System.init] at hd
  · intro d hd
    simp [System.init] at hd
  · intro a s al h
    simp [System.init, World.init] at h

/-- A step with sound bookkeeping keeps the invariant. -/
theorem System.Inv_step (Γ : Env V A R E) (S : System V E) (W2 : World V E)
    (H2 : List (Option (delegate V))) (olds news : List (delegate V))
    (hinv : S.Inv Γ) (hacct : Acct Γ S.world W2 olds news)
    (holds : ∀ d ∈ olds, some d ∈ S.holders)
    (hmem : ∀ d, some d ∈ H2 → some d ∈ S.holders ∨ d ∈ news)
    (hcnt : ∀ a, owner_count Γ H2 a + blocks_count Γ olds a =
      owner_count Γ S.holders a + blocks_count Γ news a) :
    System.Inv Γ { holders := H2, world := W2 } := by
  obtain ⟨j1, j2, j3, j5, j6⟩ := hinv
  obtain ⟨evs, htr, hbrk, a3, a4, a5, a6, a7⟩ := hacct
  refine ⟨?_, ?_, ?_, ?_, ?_⟩
  · intro a ha
    simp only [htr, alloc_count_append, j1 a ha, a3 a ha]
    split_ifs <;> omega
  · intro a ha
    simp only [htr, alloc_count_append, dealloc_count_append]
    have h2 := j2 a ha
    have h4 := a4 a ha
    have hc := hcnt a
    omega
  · intro d hd
    rcases hmem d hd with h | h
    · exact j3 d h
    · exact a5 d h
  · intro d hd T a hT hb
    simp only [htr, List.mem_append]
    rcases hmem d hd with h | h
    · obtain ⟨p, q⟩ := j5 d h T a hT hb
      exact ⟨p, Or.inl q⟩
    · rcases a6 d h T a hT hb with ⟨p, q⟩ | ⟨d0, hd0, hT0, hb0⟩
      · exact ⟨p, Or.inr q⟩
      · obtain ⟨p, q⟩ := j5 d0 (holds d0 hd0) T a hT0 hb0
        exact ⟨p, Or.inl q⟩
  · intro a s al h
    simp only [htr, List.mem_append] at h ⊢
    rcases h with h | h
    · obtain ⟨p, q⟩ := j6 a s al h
      exact ⟨p, Or.inl q⟩
    · rcases a7 a s al h with ⟨p, q⟩ | ⟨d0, hd0, T, hT0, hb0, hs, hal⟩
      · exact ⟨p, Or.inr q⟩
      · obtain ⟨p, q⟩ := j5 d0 (holds d0 hd0) T a hT0 hb0
        subst hs hal
        exact ⟨p, Or.inl q⟩

/-- A constructor that adds the holder `d` keeps the invariant. -/
theorem System.Inv_push (Γ : Env V A R E) (S : System V E) (W2 : World V E) (d : delegate V)
    (hinv : S.Inv Γ) (hacct : Acct Γ S.world W2 [] [d]) :
    System.Inv Γ { holders := S.holders ++ [some d], world := W2 } := by
  apply System.Inv_step Γ S W2 _ [] [d] hinv hacct
  · intro x hx
    simp at hx
  · intro x hx
    simp only [List.mem_append, List.mem_singleton, Option.some.injEq] at hx
    rcases hx with h | h
    · exact Or.inl h
    · exact Or.inr (by simp [h])
  · intro a
    rw [owner_count_append_one, blocks_count_cons, blocks_count_nil]
    omega

/-- An operation that replaces the holder in slot `i` keeps the invariant. -/
theorem System.Inv_set (Γ : Env V A R E) (S : System V E) (W2 : World V E) (i : Nat)
    (d n : delegate V) (hinv : S.Inv Γ) (hi : S.holder i = some d)
    (hacct : Acct Γ S.world W2 [d] [n]) :
    System.Inv Γ { holders := S.holders.set i (some n), world := W2 } := by
  apply System.Inv_step Γ S W2 _ [d] [n] hinv hacct
  · intro x hx
    simp only [List.mem_singleton] at hx
    subst hx
    exact System.holder_mem S i x hi
  · intro x hx
    rcases List.mem_or_eq_of_mem_set hx with h | h
    · exact Or.inl h
    · simp only [Option.some.injEq] at h
      exact Or.inr (by simp [h])
  · intro a
    have := owner_count_set Γ S.holders i d n a (System.holder_slot S i d hi)
    simp only [blocks_count_cons, blocks_count_nil]
    omega

/-- Every operation keeps the invariant. -/
theorem System.step_Inv (Γ : Env V A R E) (C : Contract) (S : System V E) (op : Op V A)
    (hinv : S.Inv Γ) : (System.step Γ C S op).Inv Γ := by
  cases op with
  | ctor => exact System.Inv_push Γ S S.world _ hinv (Acct_ctor Γ S.world)
  | ctor_nullptr => exact System.Inv_push Γ S S.world _ hinv (Acct_ctor Γ S.world)
  | ctor_fn f => exact System.Inv_push Γ S _ _ hinv (Acct_ctor_fn Γ C f S.world)
  | ctor_value func =>
    simp only [System.step]
    obtain ⟨hok, herr⟩ := Acct_ctor_value Γ func S.world
    cases hcv : delegate.ctor_value Γ func S.world with
    | mk r W2 =>
      cases r with
      | ok d => exact System.Inv_push Γ S W2 d hinv (hok d W2 hcv)
      | error e =>
        simp only []
        apply System.Inv_step Γ S W2 S.holders [] [] hinv (herr e W2 hcv)
        · intro x hx
          simp at hx
        · intro x hx
          exact Or.inl hx
        · intro a
          rfl
  | ctor_move j =>
    simp only [System.step]
    cases hj : S.holder j with
    | none => exact hinv
    | some other =>
      simp only []
      have hs := hinv.2.2.1 other (System.holder_mem S j other hj)
      apply System.Inv_step Γ S _ _ [other] _ hinv (Acct_ctor_move Γ other S.world hs)
      · intro x hx
        simp only [List.mem_singleton] at hx
        subst hx
        exact System.holder_mem S j x hj
      · intro x hx
        simp only [List.mem_append, List.mem_singleton, Option.some.injEq] at hx
        rcases hx with h | h
        · rcases List.mem_or_eq_of_mem_set h with h2 | h2
          · exact Or.inl h2
          · simp only [Option.some.injEq] at h2
            exact Or.inr (by simp [h2])
        · exact Or.inr (by simp [h])
      · intro a
        have := owner_count_set Γ S.holders j other (delegate.ctor_move Γ other S.world).2.1 a
          (System.holder_slot S j other hj)
        rw [owner_count_append_one]
        simp only [blocks_count_cons, blocks_count_nil]
        omega
  | assign_move i j =>
    simp only [System.step]
    by_cases hij : i = j
    · simp only [hij, if_true]
      exact hinv
    · simp only [hij, if_false]
      cases hi : S.holder i with
      | none => exact hinv
      | some this =>
        cases hj : S.holder j with
        | none => exact hinv
        | some other =>
          simp only []
          have hs := hinv.2.2.1 other (System.holder_mem S j other hj)
          have hsi := System.holder_slot S i this hi
          have hsj := System.holder_slot S j other hj
          apply System.Inv_step Γ S _ _ [this, other] _ hinv
            (Acct_assign_move Γ this other S.world hs)
          · intro x hx
            simp only [List.mem_cons, List.mem_singleton, List.not_mem_nil, or_false] at hx
            rcases hx with h | h <;> subst h
            · exact System.holder_mem S i x hi
            · exact System.holder_mem S j x hj
          · intro x hx
            rcases List.mem_or_eq_of_mem_set hx with h | h
            · rcases List.mem_or_eq_of_mem_set h with h2 | h2
              · exact Or.inl h2
              · simp only [Option.some.injEq] at h2
                exact Or.inr (by simp [h2])
            · simp only [Option.some.injEq] at h
              exact Or.inr (by simp [h])
          · intro a
            have h1 := owner_count_set Γ S.holders i this
              (delegate.assign_move Γ this other S.world).1 a hsi
            have hsj2 : (S.holders.set i
                (some (delegate.assign_move Γ this other S.world).1))[j]? =
                some (some other) := by
              rw [List.getElem?_set_ne hij]
              exact hsj
            have h2 := owner_count_set Γ _ j other
              (delegate.assign_move Γ this other S.world).2.1 a hsj2
            simp only [blocks_count_cons, blocks_count_nil]
            omega
  | assign_nullptr i =>
    simp only [System.step]
    cases hi : S.holder i with
    | none => exact hinv
    | some this =>
      exact System.Inv_set Γ S _ i this _ hinv hi (Acct_assign_nullptr Γ this S.world)
  | assign_fn i f =>
    simp only [System.step]
    cases hi : S.holder i with
    | none => exact hinv
    | some this =>
      exact System.Inv_set Γ S _ i this _ hinv hi
        (Acct_assign_fn Γ C this f S.world (hinv.2.2.1 this (System.holder_mem S i this hi)))
  | assign_value i func =>
    simp only [System.step]
    cases hi : S.holder i with
    | none => exact hinv
    | some this =>
      exact System.Inv_set Γ S _ i this _ hinv hi
        (Acct_assign_value Γ this func S.world
          (hinv.2.2.1 this (System.holder_mem S i this hi)))
  | call i args =>
    simp only [System.step]
    cases hi : S.holder i with
    | none => exact hinv
    | some this =>
      exact System.Inv_set Γ S _ i this _ hinv hi
        (Acct_call Γ C this S.world args (hinv.2.2.1 this (System.holder_mem S i this hi)))
  | dtor i =>
    simp only [System.step]
    cases hi : S.holder i with
    | none => exact hinv
    | some this =>
      simp only []
      apply System.Inv_step Γ S _ _ [this] [] hinv (Acct_dtor Γ this S.world)
      · intro x hx
        simp only [List.mem_singleton] at hx
        subst hx
        exact System.holder_mem S i x hi
      · intro x hx
        rcases List.mem_or_eq_of_mem_set hx with h | h
        · exact Or.inl h
        · simp at h
      · intro a
        have := owner_count_set_none Γ S.holders i this a (System.holder_slot S i this hi)
        simp only [blocks_count_cons, blocks_count_nil]
        omega

/-- Every program keeps the invariant. -/
theorem System.run_Inv (Γ : Env V A R E) (C : Contract) (ops : List (Op V A)) :
    ∀ S : System V E, S.Inv Γ → (System.run Γ C S ops).Inv Γ := by
  induction ops with
  | nil =>
    intro S h
    exact h
  | cons op ops ih =>
    intro S h
    exact ih (System.step Γ C S op) (System.step_Inv Γ C S op h)

/-- Where no holder is live, no holder owns a block. -/
theorem owner_count_dead (Γ : Env V A R E) (hs : List (Option (delegate V)))
    (h : ∀ x ∈ hs, x = none) (a : Nat) : owner_count Γ hs a = 0 := by
  unfold owner_count
  rw [List.countP_eq_zero]
  intro x hx
  rw [h x hx]
  simp

/-- At every point of every program, no block has been returned more often than
it was handed out, and none was handed out twice. -/
theorem System.run_never_frees_twice (Γ : Env V A R E) (C : Contract)
    (oracle : Nat → AllocReply E) (ops : List (Op V A)) (a : Nat) (ha : 0 < a) :
    dealloc_count (System.run Γ C (System.init oracle) ops).world.trace a ≤
      alloc_count (System.run Γ C (System.init oracle) ops).world.trace a ∧
    alloc_count (System.run Γ C (System.init oracle) ops).world.trace a ≤ 1 := by
  obtain ⟨j1, j2, _, _, _⟩ :=
    System.run_Inv Γ C ops (System.init oracle) (System.Inv_init Γ oracle)
  have h1 := j1 a ha
  have h2 := j2 a ha
  constructor
  · omega
  · rw [h1]
    split_ifs <;> omega

/-- Claim C22: for every program of holder operations (constructions, failed
or not, assignments, failed or not, moves, invocations, destructions) over any
answers of the memory resource, started with no holder and ended with every
holder destroyed: every block that `allocate` handed out was passed to
`deallocate` exactly once; for every address the number of returns equals the
number of hand-outs, which is at most one; and null is never passed to
`deallocate`.  Addresses name allocations: the memory resource of this model
hands out no address twice. -/
theorem C22_no_leak_no_double_free (Γ : Env V A R E) (C : Contract)
    (oracle : Nat → AllocReply E) (ops : List (Op V A))
    (hdead : ∀ h ∈ (System.run Γ C (System.init oracle) ops).holders, h = none) :
    (∀ a s al, 0 < a →
      Event.allocate s al a ∈ (System.run Γ C (System.init oracle) ops).world.trace →
      dealloc_count (System.run Γ C (System.init oracle) ops).world.trace a = 1) ∧
    (∀ a, 0 < a →
      dealloc_count (System.run Γ C (System.init oracle) ops).world.trace a =
        alloc_count (System.run Γ C (System.init oracle) ops).world.trace a ∧
      alloc_count (System.run Γ C (System.init oracle) ops).world.trace a ≤ 1) ∧
    (∀ s al,
      Event.deallocate 0 s al ∉ (System.run Γ C (System.init oracle) ops).world.trace) := by
  obtain ⟨j1, j2, _, _, j6⟩ :=
    System.run_Inv Γ C ops (System.init oracle) (System.Inv_init Γ oracle)
  have hzero := owner_count_dead Γ _ hdead
  have hbal : ∀ a, 0 < a →
      dealloc_count (System.run Γ C (System.init oracle) ops).world.trace a =
        alloc_count (System.run Γ C (System.init oracle) ops).world.trace a ∧
      alloc_count (System.run Γ C (System.init oracle) ops).world.trace a ≤ 1 := by
    intro a ha
    have h1 := j1 a ha
    have h2 := j2 a ha
    rw [hzero a] at h2
    constructor
    · omega
    · rw [h1]
      split_ifs <;> omega
  refine ⟨?_, hbal, ?_⟩
  · intro a s al ha hmem
    obtain ⟨h1, h2⟩ := hbal a ha
    have hpos : 0 < alloc_count (System.run Γ C (System.init oracle) ops).world.trace a := by
      unfold alloc_count
      rw [List.countP_pos_iff]
      exact ⟨_, hmem, by simp [Event.allocates]⟩
    omega
  · intro s al h
    have := (j6 0 s al h).1
    omega

/-- Claim C23: in every program of holder operations over any answers of the
memory resource, every `deallocate` on record (from a destruction, from a
replacement, or from a replacement or construction that failed) was passed a
non-null address, and the record holds an `allocate` that returned this address
and was given the same size and alignment; it is the only `allocate` that
returned this address. -/
theorem C23_deallocate_repeats_allocate (Γ : Env V A R E) (C : Contract)
    (oracle : Nat → AllocReply E) (ops : List (Op V A)) (a s al : Nat)
    (h : Event.deallocate a s al ∈ (System.run Γ C (System.init oracle) ops).world.trace) :
    0 < a ∧
    Event.allocate s al a ∈ (System.run Γ C (System.init oracle) ops).world.trace ∧
    ∀ s2 al2,
      Event.allocate s2 al2 a ∈ (System.run Γ C (System.init oracle) ops).world.trace →
      s2 = s ∧ al2 = al := by
  obtain ⟨j1, _, _, _, j6⟩ :=
    System.run_Inv Γ C ops (System.init oracle) (System.Inv_init Γ oracle)
  obtain ⟨ha, hal⟩ := j6 a s al h
  refine ⟨ha, hal, ?_⟩
  intro s2 al2 h2
  have hle : alloc_count (System.run Γ C (System.init oracle) ops).world.trace a ≤ 1 := by
    rw [j1 a ha]
    split_ifs <;> omega
  have := countP_le_one_unique (Event.allocates a) _ hle _ _ h2 hal
    (by simp [Event.allocates]) (by simp [Event.allocates])
  simp only [Event.allocate.injEq] at this
  exact ⟨this.1, this.2.1⟩

/-! ### Adapter and dispatcher are set together -/

/-- Claim C21: every constructor yields a holder whose adapter pointer is null
exactly when its dispatcher pointer is, and every assignment, move and
invocation, returning or raising, takes holders with that property to holders
with that property (a raising constructor yields no holder; a raising
assignment and an invocation leave both pointers as they were); so at every
point of every program, over any answers of the memory resource, every live
holder, moved-from ones included, has that property. -/
theorem C21_pointers_set_together (Γ : Env V A R E) (C : Contract) (W : World V E)
    (this other : delegate V) (func : Obj V) (p : Nat) (args : A)
    (ht : this.consistent) (ho : other.consistent) :
    (∀ d : delegate V, (delegate.ctor_value Γ func W).1 = Except.ok d → d.consistent) ∧
    (delegate.call Γ C this W args).2.1.call_ = this.call_ ∧
    (delegate.call Γ C this W args).2.1.vptr_ = this.vptr_ ∧
    (∀ e, (delegate.assign_value Γ this func W).1 = some e →
      (delegate.assign_value Γ this func W).2.1 = this) ∧
    (∀ r ∈ [delegate.ctor, delegate.ctor_nullptr, (delegate.ctor_fn Γ C p W).1,
            (delegate.ctor_move Γ other W).1, (delegate.ctor_move Γ other W).2.1,
            (delegate.assign_move Γ this other W).1, (delegate.assign_move Γ this other W).2.1,
            (delegate.assign_nullptr Γ this W).1, (delegate.assign_fn Γ C this p W).1,
            (delegate.assign_value Γ this func W).2.1,
            (delegate.call Γ C this W args).2.1],
      r.consistent) ∧
    ∀ (oracle : Nat → AllocReply E) (ops : List (Op V A)) (d : delegate V),
      some d ∈ (System.run Γ C (System.init oracle) ops).holders → d.consistent := by
  have hcall : (delegate.call Γ C this W args).2.1.call_ = this.call_ ∧
      (delegate.call Γ C this W args).2.1.vptr_ = this.vptr_ := by
    unfold delegate.call
    cases hq : this.call_ with
    | none => exact ⟨hq, rfl⟩
    | some T =>
      simp only []
      cases invoke Γ C T this.data_ W args with
      | none => exact ⟨hq, rfl⟩
      | some r =>
        obtain ⟨x, s, W1⟩ := r
        cases x <;> exact ⟨rfl, rfl⟩
  have hassign : (delegate.assign_value Γ this func W).2.1 = this ∨
      ((delegate.assign_value Γ this func W).1 = none ∧
        (delegate.assign_value Γ this func W).2.1.call_ = some func.ty ∧
        (delegate.assign_value Γ this func W).2.1.vptr_ = some func.ty) := by
    unfold delegate.assign_value
    split
    · exact Or.inl rfl
    · split
      · exact Or.inr ⟨rfl, rfl, rfl⟩
      · unfold memory_owner.ctor World.allocate
        cases W.oracle W.calls with
        | raise e => exact Or.inl rfl
        | null => simp [memory_owner.get]
        | block =>
          simp only [memory_owner.get, ne_eq, Nat.add_one_ne_zero, not_false_eq_true, if_true]
          cases Γ.move_raises func with
          | some e => exact Or.inl rfl
          | none => exact Or.inr ⟨rfl, rfl, rfl⟩
  refine ⟨?_, hcall.1, hcall.2, ?_, ?_, ?_⟩
  · intro d hd
    unfold delegate.ctor_value at hd
    split at hd
    · simp only [Except.ok.injEq] at hd
      subst hd
      simp [delegate.consistent, delegate.ctor]
    · split at hd
      · simp only [Except.ok.injEq] at hd
        subst hd
        simp [delegate.consistent]
      · unfold memory_owner.ctor World.allocate at hd
        cases hoc : W.oracle W.calls with
        | raise e => simp [hoc] at hd
        | null =>
          simp only [hoc, memory_owner.get, ne_eq, not_true_eq_false, if_false,
            Except.ok.injEq] at hd
          subst hd
          simp [delegate.consistent, delegate.ctor]
        | block =>
          simp only [hoc, memory_owner.get, ne_eq, Nat.add_one_ne_zero, not_false_eq_true,
            if_true] at hd
          cases hm : Γ.move_raises func with
          | some e => simp [hm] at hd
          | none =>
            simp only [hm, Except.ok.injEq] at hd
            subst hd
            simp [delegate.consistent]
  · intro e he
    rcases hassign with h | ⟨h, _⟩
    · exact h
    · rw [h] at he
      simp at he
  · intro r hr
    simp only [List.mem_cons, List.mem_singleton, List.not_mem_nil, or_false] at hr
    rcases hr with h | h | h | h | h | h | h | h | h | h | h <;> subst h
    · simp [delegate.consistent, delegate.ctor]
    · simp [delegate.consistent, delegate.ctor_nullptr]
    · unfold delegate.ctor_fn
      split <;> simp [delegate.consistent, delegate.ctor]
    · unfold delegate.ctor_move
      split <;> exact ho
    · unfold delegate.ctor_move
      split <;> simp [delegate.consistent]
    · unfold delegate.assign_move
      split <;> exact ho
    · unfold delegate.assign_move
      split <;> simp [delegate.consistent]
    · simp [delegate.consistent, delegate.assign_nullptr]
    · unfold delegate.assign_fn
      split
      · exact ht
      · simp [delegate.consistent]
    · rcases hassign with h | ⟨_, h1, h2⟩
      · rw [h]
        exact ht
      · simp [delegate.consistent, h1, h2]
    · unfold delegate.consistent
      rw [hcall.1, hcall.2]
      exact ht
  · intro oracle ops d hd
    have hs := (System.run_Inv Γ C ops (System.init oracle) (System.Inv_init Γ oracle)).2.2.1
      d hd
    unfold delegate.consistent
    rw [hs.1]

end

/-! ## Equality is symmetric -/

section
variable {V A R E : Type}

/-- Two values of one type compare the same in both orders when each class's
`operator==` is symmetric. -/
theorem Env.equals_symm (Γ : Env V A R E)
    (hsym : ∀ id eq v w, (Γ.cls id).equals = some eq → eq v w = eq w v)
    (x y : Obj V) (hty : x.ty = y.ty) : Γ.equals x y = Γ.equals y x := by
  cases x with
  | fp s p =>
    cases y with
    | fp s2 q =>
      simp only [Env.equals]
      by_cases h : p = q
      · simp [h]
      · have h2 : ¬ q = p := fun e => h e.symm
        simp [h, h2]
    | obj j w => simp [Obj.ty] at hty
  | obj i v =>
    cases y with
    | fp s2 q => simp [Obj.ty] at hty
    | obj j w =>
      simp only [Obj.ty, Ty.cls.injEq] at hty
      subst hty
      simp only [Env.equals]
      cases hq : (Γ.cls i).equals with
      | none => rfl
      | some eq => exact hsym i eq v w hq

/-- The template `compare<T>` gives the same answer in both orders when each
class's `operator==` is symmetric. -/
theorem compare_symm (Γ : Env V A R E)
    (hsym : ∀ id eq v w, (Γ.cls id).equals = some eq → eq v w = eq w v)
    (T : Ty) (lhs rhs : storage V) (W : World V E) :
    compare Γ T lhs rhs W = compare Γ T rhs lhs W := by
  unfold compare
  split
  · cases hl : lhs.target Γ T W with
    | none =>
      cases rhs.target Γ T W <;> rfl
    | some a =>
      cases hr : rhs.target Γ T W with
      | none => rfl
      | some b =>
        simp only []
        apply Env.equals_symm Γ hsym
        rw [storage.target_ty Γ T lhs W a hl, storage.target_ty Γ T rhs W b hr]
  · rfl

/-- Claim C31: for any two holders of one contract, in any world, when each
target class's `operator==` is symmetric: `a == b` and `b == a` agree, `a != b`
is the negation of `a == b`, and `a != b` and `b != a` agree. -/
theorem C31_equality_symmetric (Γ : Env V A R E) (W : World V E) (a b : delegate V)
    (hsym : ∀ id eq v w, (Γ.cls id).equals = some eq → eq v w = eq w v) :
    delegate.eq Γ W a b = delegate.eq Γ W b a ∧
    delegate.ne Γ W a b = !(delegate.eq Γ W a b) ∧
    delegate.ne Γ W b a = !(delegate.eq Γ W b a) ∧
    delegate.ne Γ W a b = delegate.ne Γ W b a := by
  have h : delegate.eq Γ W a b = delegate.eq Γ W b a := by
    unfold delegate.eq
    cases ha : a.vptr_ with
    | none =>
      cases hb : b.vptr_ <;> simp
    | some Ta =>
      cases hb : b.vptr_ with
      | none => simp
      | some Tb =>
        by_cases hT : Ta = Tb
        · subst hT
          simp only [Option.isNone_some, Bool.and_self, Bool.false_eq_true, if_false, ne_eq,
            not_true_eq_false, vtable]
          exact compare_symm Γ hsym Ta a.data_ b.data_ W
        · have hT2 : ¬ Tb = Ta := fun e => hT e.symm
          simp [hT, hT2]
  refine ⟨h, rfl, rfl, ?_⟩
  simp only [delegate.ne, h]

/-! ## The moved-from object of an inline target -/

/-- Moving an inline target out of a holder that satisfies the class invariant
and then destroying both holders records one construction, in the new holder,
and one teardown, of the new holder's object: none for the object left in the
source's buffer. -/
theorem delegate.ctor_move_inline_teardowns (Γ : Env V A R E) (W : World V E)
    (s : delegate V) (T : Ty) (hv : s.valid Γ W = true) (hT : s.vptr_ = some T)
    (hi : Γ.is_internal_v T = true) :
    (delegate.ctor_move Γ s W).2.2.trace = W.trace ++ [Event.construct T Place.buffer] ∧
    delegate.dtor Γ (delegate.ctor_move Γ s W).2.1 (delegate.ctor_move Γ s W).2.2 =
      (delegate.ctor_move Γ s W).2.2 ∧
    (delegate.dtor Γ (delegate.ctor_move Γ s W).1 (delegate.ctor_move Γ s W).2.2).trace =
      W.trace ++ [Event.construct T Place.buffer, Event.teardown T Place.buffer] := by
  obtain ⟨h1, _, h3, _, _, _, h7, _, _, _⟩ := delegate.ctor_move_spec Γ W s hv
  have hm : expected_move_events Γ s = [Event.construct T Place.buffer] := by
    simp [expected_move_events, hT, hi]
  refine ⟨by rw [h7, hm], ?_, ?_⟩
  · simp [delegate.dtor, delegate.destroy_if_holding, h3]
  · unfold delegate.dtor
    rw [delegate.destroy_if_holding_trace, h7, hm]
    have hd : expected_destroy_events Γ (delegate.ctor_move Γ s W).1 =
        [Event.teardown T Place.buffer] := by
      simp [expected_destroy_events, h1, hT, hi]
    rw [hd]
    simp

end

/-- Claim C32 against the code, at two programs that end with every holder
destroyed: a holder of the inline `functor_noexcept<small_t>{ 10 }` is built and
moved from, by the move constructor or by the move assignment, and both holders
are destroyed.  Two target objects were constructed, one from the value and one
by relocation, and one teardown ran: the moved-from object in the source
holder's buffer was never torn down. -/
theorem C32_moved_from_object_not_torn_down :
    (∀ h ∈ (System.run demo_env demo_contract (System.init fun _ => AllocReply.block)
        demo_move_program).holders, h = none) ∧
    (System.run demo_env demo_contract (System.init fun _ => AllocReply.block)
        demo_move_program).world.trace =
      [Event.construct (Ty.cls 0) Place.buffer, Event.construct (Ty.cls 0) Place.buffer,
       Event.teardown (Ty.cls 0) Place.buffer] ∧
    (System.run demo_env demo_contract (System.init fun _ => AllocReply.block)
        demo_move_program).world.trace.countP Event.is_construct = 2 ∧
    (System.run demo_env demo_contract (System.init fun _ => AllocReply.block)
        demo_move_program).world.trace.countP Event.is_teardown = 1 ∧
    (∀ h ∈ (System.run demo_env demo_contract (System.init fun _ => AllocReply.block)
        demo_move_assign_program).holders, h = none) ∧
    (System.run demo_env demo_contract (System.init fun _ => AllocReply.block)
        demo_move_assign_program).world.trace =
      [Event.construct (Ty.cls 0) Place.buffer, Event.construct (Ty.cls 0) Place.buffer,
       Event.teardown (Ty.cls 0) Place.buffer] := by
  decide

section
variable {V A R E : Type}

/-! ## Move assignment of a holder to itself -/

/-- Claim C33: the move assignment of the holder in a slot to itself, which
takes the `this != &other` exit, leaves the program state as it is: the holder
keeps its dispatcher, adapter, buffer and so its Empty or Holding state and its
target, and the world is the same, so the record holds no new teardown,
`allocate` or `deallocate`; the same after any number of repetitions. -/
theorem C33_self_move_assign (Γ : Env V A R E) (C : Contract) (S : System V E) (i : Nat) :
    System.step Γ C S (Op.assign_move i i) = S ∧
    (System.step Γ C S (Op.assign_move i i)).holder i = S.holder i ∧
    (System.step Γ C S (Op.assign_move i i)).world.trace = S.world.trace ∧
    (System.step Γ C S (Op.assign_move i i)).world.heap = S.world.heap ∧
    (∀ d T, S.holder i = some d → d.vptr_ = some T →
      ∃ d2, (System.step Γ C S (Op.assign_move i i)).holder i = some d2 ∧
        d2.vptr_ = d.vptr_ ∧ d2.call_ = d.call_ ∧ d2.to_bool = d.to_bool ∧
        d2.data_.target Γ T (System.step Γ C S (Op.assign_move i i)).world =
          d.data_.target Γ T S.world) ∧
    ∀ n, System.run Γ C S (List.replicate n (Op.assign_move i i)) = S := by
  have h : System.step Γ C S (Op.assign_move i i) = S := by
    simp [System.step]
  refine ⟨h, by rw [h], by rw [h], by rw [h], ?_, ?_⟩
  · intro d T hd _
    rw [h]
    exact ⟨d, hd, rfl, rfl, rfl, rfl⟩
  · intro n
    induction n with
    | zero => rfl
    | succ n ih =>
      simp only [List.replicate_succ, System.run, List.foldl_cons, h]
      exact ih

/-! ## The function-pointer type is inline-eligible -/

/-- Claim C38: for every ABI and contract, `fn_t` passes the placement
predicate: its size and alignment do not exceed those of `block` and it is
nothrow-move-constructible.  So `get_as<fn_t>` is the buffer itself whatever
the buffer holds, the write `*(get_as<fn_t>()) = func` puts the pointer into the
buffer and changes no heap object, and `delegate(fn_t)` and `operator=(fn_t)`
with a non-null pointer leave the pointer in the holder's buffer. -/
theorem C38_function_pointer_inline (Γ : Env V A R E) (C : Contract) (W : World V E)
    (this : delegate V) (f : Nat) (hf : f ≠ 0) :
    Γ.is_internal_v C.fn_t = true ∧
    Γ.sizeof C.fn_t ≤ Γ.abi.sizeof_block ∧
    Γ.alignof C.fn_t ≤ Γ.abi.alignof_block ∧
    Γ.is_nothrow_move_constructible_v C.fn_t = true ∧
    (∀ s : storage V, s.get_as Γ C.fn_t = some Place.buffer) ∧
    (∀ (s : storage V) (W1 : World V E) (o : Obj V),
      storage.assign_as Γ C.fn_t s W1 o =
        (storage.inplace o, W1.log (Event.construct C.fn_t Place.buffer))) ∧
    (delegate.ctor_fn Γ C f W).1.data_ = storage.inplace (C.fn_obj f) ∧
    (delegate.ctor_fn Γ C f W).2.heap = W.heap ∧
    (delegate.assign_fn Γ C this f W).1.data_ = storage.inplace (C.fn_obj f) ∧
    (delegate.assign_fn Γ C this f W).2.heap = (this.destroy_if_holding Γ W).2.heap ∧
    (delegate.assign_fn Γ C this f W).1.block Γ = none ∧
    (delegate.ctor_fn Γ C f W).1.block Γ = none := by
  have hi := Contract.fn_t_internal Γ C
  have hparts : Γ.sizeof C.fn_t ≤ Γ.abi.sizeof_block ∧
      Γ.alignof C.fn_t ≤ Γ.abi.alignof_block ∧
      Γ.is_nothrow_move_constructible_v C.fn_t = true := by
    have := hi
    simp only [Env.is_internal_v, Bool.and_eq_true, decide_eq_true_eq] at this
    exact ⟨this.1.1, this.1.2, this.2⟩
  have hget : ∀ s : storage V, s.get_as Γ C.fn_t = some Place.buffer := by
    intro s
    simp [storage.get_as, hi]
  have hassign : ∀ (s : storage V) (W1 : World V E) (o : Obj V),
      storage.assign_as Γ C.fn_t s W1 o =
        (storage.inplace o, W1.log (Event.construct C.fn_t Place.buffer)) := by
    intro s W1 o
    simp [storage.assign_as, hget]
  refine ⟨hi, hparts.1, hparts.2.1, hparts.2.2, hget, hassign, ?_, ?_, ?_, ?_, ?_, ?_⟩
  · simp [delegate.ctor_fn, hf, hassign]
  · simp [delegate.ctor_fn, hf, hassign, World.log]
  · simp [delegate.assign_fn, hf, hassign]
  · simp [delegate.assign_fn, hf, hassign, World.log]
  · simp [delegate.assign_fn, hf, delegate.block, hi]
  · simp [delegate.ctor_fn, hf, delegate.block, hi]

end

/-! ## The legacy header: `compare` and the relational operators -/

namespace legacy

/-- The loop of `compare` returns `0`, `-1` or `+1`. -/
theorem compare_from_range (a b : Nat → Nat) (r k : Nat) :
    compare_from a b r k = 0 ∨ compare_from a b r k = -1 ∨ compare_from a b r k = 1 := by
  induction r generalizing k with
  | zero => exact Or.inl rfl
  | succ r ih =>
    simp only [compare_from]
    split_ifs
    · exact Or.inr (Or.inl rfl)
    · exact Or.inr (Or.inr rfl)
    · exact ih (k + 1)

/-- The loop of `compare` returns `0` exactly when the bytes it visits agree. -/
theorem compare_from_eq_zero (a b : Nat → Nat) (r k : Nat) :
    compare_from a b r k = 0 ↔ ∀ i, k ≤ i → i < k + r → a i = b i := by
  induction r generalizing k with
  | zero =>
    simp only [compare_from, true_iff]
    intro i h1 h2
    omega
  | succ r ih =>
    simp only [compare_from]
    split_ifs with h1 h2
    · constructor
      · intro h
        simp at h
      · intro h
        have := h k (le_refl k) (by omega)
        omega
    · constructor
      · intro h
        simp at h
      · intro h
        have := h k (le_refl k) (by omega)
        omega
    · rw [ih (k + 1)]
      constructor
      · intro h i hi1 hi2
        by_cases hk : i = k
        · subst hk
          omega
        · exact h i (by omega) (by omega)
      · intro h i hi1 hi2
        exact h i (by omega) (by omega)

/-- The loop of `compare` returns `-1` exactly when, at the first index where
the bytes differ, the holder's byte is the smaller. -/
theorem compare_from_eq_neg (a b : Nat → Nat) (r k : Nat) :
    compare_from a b r k = -1 ↔
      ∃ j, k ≤ j ∧ j < k + r ∧ (∀ i, k ≤ i → i < j → a i = b i) ∧ a j < b j := by
  induction r generalizing k with
  | zero =>
    simp only [compare_from]
    constructor
    · intro h
      simp at h
    · rintro ⟨j, h1, h2, _⟩
      omega
  | succ r ih =>
    simp only [compare_from]
    split_ifs with h1 h2
    · simp only [true_iff]
      exact ⟨k, le_refl k, by omega, fun i hi1 hi2 => by omega, h1⟩
    · constructor
      · intro h
        simp at h
      · rintro ⟨j, hj1, _, hj3, hj4⟩
        by_cases hk : j = k
        · subst hk
          omega
        · have := hj3 k (le_refl k) (by omega)
          omega
    · rw [ih (k + 1)]
      constructor
      · rintro ⟨j, hj1, hj2, hj3, hj4⟩
        refine ⟨j, by omega, by omega, ?_, hj4⟩
        intro i hi1 hi2
        by_cases hk : i = k
        · subst hk
          omega
        · exact hj3 i (by omega) hi2
      · rintro ⟨j, hj1, hj2, hj3, hj4⟩
        have hjk : j ≠ k := by
          intro e
          subst e
          omega
        exact ⟨j, by omega, by omega, fun i hi1 hi2 => hj3 i (by omega) hi2, hj4⟩

/-- The loop of `compare` returns `+1` exactly when, at the first index where
the bytes differ, the holder's byte is the larger. -/
theorem compare_from_eq_pos (a b : Nat → Nat) (r k : Nat) :
    compare_from a b r k = 1 ↔
      ∃ j, k ≤ j ∧ j < k + r ∧ (∀ i, k ≤ i → i < j → a i = b i) ∧ a j > b j := by
  induction r generalizing k with
  | zero =>
    simp only [compare_from]
    constructor
    · intro h
      simp at h
    · rintro ⟨j, h1, h2, _⟩
      omega
  | succ r ih =>
    simp only [compare_from]
    split_ifs with h1 h2
    · constructor
      · intro h
        simp at h
      · rintro ⟨j, hj1, _, hj3, hj4⟩
        by_cases hk : j = k
        · subst hk
          omega
        · have := hj3 k (le_refl k) (by omega)
          omega
    · simp only [true_iff]
      exact ⟨k, le_refl k, by omega, fun i hi1 hi2 => by omega, h2⟩
    · rw [ih (k + 1)]
      constructor
      · rintro ⟨j, hj1, hj2, hj3, hj4⟩
        refine ⟨j, by omega, by omega, ?_, hj4⟩
        intro i hi1 hi2
        by_cases hk : i = k
        · subst hk
          omega
        · exact hj3 i (by omega) hi2
      · rintro ⟨j, hj1, hj2, hj3, hj4⟩
        have hjk : j ≠ k := by
          intro e
          subst e
          omega
        exact ⟨j, by omega, by omega, fun i hi1 hi2 => hj3 i (by omega) hi2, hj4⟩

/-- Exchanging the two byte arrays exchanges `-1` and `+1`. -/
theorem compare_from_swap (a b : Nat → Nat) (r k : Nat) :
    compare_from a b r k = -1 ↔ compare_from b a r k = 1 := by
  rw [compare_from_eq_neg, compare_from_eq_pos]
  constructor
  · rintro ⟨j, h1, h2, h3, h4⟩
    exact ⟨j, h1, h2, fun i hi1 hi2 => (h3 i hi1 hi2).symm, h4⟩
  · rintro ⟨j, h1, h2, h3, h4⟩
    exact ⟨j, h1, h2, fun i hi1 hi2 => (h3 i hi1 hi2).symm, h4⟩

/-- The order `compare == -1` is transitive. -/
theorem compare_from_trans (a b c : Nat → Nat) (r k : Nat)
    (hab : compare_from a b r k = -1) (hbc : compare_from b c r k = -1) :
    compare_from a c r k = -1 := by
  induction r generalizing k with
  | zero => simp [compare_from] at hab
  | succ r ih =>
    simp only [compare_from] at hab hbc ⊢
    split_ifs at hab with h1 h2
    · split_ifs at hbc with h3 h4
      · have : a k < c k := by omega
        simp [this]
      · have h5 : b k = c k := by omega
        have : a k < c k := by omega
        simp [this]
    · split_ifs at hbc with h3 h4
      · have h5 : a k = b k := by omega
        have : a k < c k := by omega
        simp [this]
      · have h5 : a k = b k := by omega
        have h6 : b k = c k := by omega
        have h7 : ¬ a k < c k := by omega
        have h8 : ¬ a k > c k := by omega
        simp only [h7, h8, if_false]
        exact ih (k + 1) hab hbc

/-- The loop of `compare` runs its body at most as often as it was given
iterations. -/
theorem compare_iterations_le (a b : Nat → Nat) (r k : Nat) :
    compare_iterations a b r k ≤ r := by
  induction r generalizing k with
  | zero => exact le_refl 0
  | succ r ih =>
    simp only [compare_iterations]
    split_ifs
    · omega
    · omega
    · have := ih (k + 1)
      omega

/-- The copy loop writes the source's bytes at the indices it visits and
leaves the others. -/
theorem copy_from_apply (src : Nat → Nat) (r k : Nat) (dst : Nat → Nat) (i : Nat) :
    copy_from src r k dst i = if k ≤ i ∧ i < k + r then src i else dst i := by
  induction r generalizing k dst with
  | zero =>
    have : ¬ (k ≤ i ∧ i < k) := by omega
    simp [copy_from, this]
  | succ r ih =>
    simp only [copy_from]
    rw [ih (k + 1)]
    by_cases hk : i = k
    · subst hk
      have h1 : ¬ (i + 1 ≤ i ∧ i < i + 1 + r) := by omega
      have h2 : i ≤ i ∧ i < i + (r + 1) := by omega
      simp [h1, h2]
    · by_cases h : k ≤ i ∧ i < k + (r + 1)
      · have h1 : k + 1 ≤ i ∧ i < k + 1 + r := by omega
        simp [h, h1]
      · have h1 : ¬ (k + 1 ≤ i ∧ i < k + 1 + r) := by omega
        simp [h, h1, hk]

/-- The zeroing loop writes `0` at the indices it visits and leaves the others. -/
theorem fill_from_apply (r k : Nat) (dst : Nat → Nat) (i : Nat) :
    fill_from r k dst i = if k ≤ i ∧ i < k + r then 0 else dst i := by
  induction r generalizing k dst with
  | zero =>
    have : ¬ (k ≤ i ∧ i < k) := by omega
    simp [fill_from, this]
  | succ r ih =>
    simp only [fill_from]
    rw [ih (k + 1)]
    by_cases hk : i = k
    · subst hk
      have h1 : ¬ (i + 1 ≤ i ∧ i < i + 1 + r) := by omega
      have h2 : i ≤ i ∧ i < i + (r + 1) := by omega
      simp [h1, h2]
    · by_cases h : k ≤ i ∧ i < k + (r + 1)
      · have h1 : k + 1 ≤ i ∧ i < k + 1 + r := by omega
        simp [h, h1]
      · have h1 : ¬ (k + 1 ≤ i ∧ i < k + 1 + r) := by omega
        simp [h, h1, hk]

/-- Byte arrays that agree below a size read the same. -/
theorem read_congr (f g : Nat → Nat) (n : Nat) (h : ∀ i, i < n → f i = g i) :
    read f n = read g n := by
  unfold read
  apply List.map_congr_left
  intro i hi
  exact h i (List.mem_range.mp hi)

/-- The member `operator==` of two delegates tests the bytes below `target_size`. -/
theorem delegate.eq_iff (abi : Abi) (a b : delegate) :
    a.eq abi b = true ↔ ∀ i, i < target_size abi → a.mp_target i = b.mp_target i := by
  simp only [delegate.eq, delegate.compare, beq_iff_eq, compare_from_eq_zero]
  constructor
  · intro h i hi
    exact h i (Nat.zero_le i) (by omega)
  · intro h i _ hi
    exact h i (by omega)

/-- Every byte of the null pointer is zero. -/
theorem byte_at_zero (index : Nat) : byte_at 0 index = 0 := by
  simp [byte_at]

/-- A non-null pointer value that fits its width has a non-zero byte. -/
theorem byte_at_nonzero (w : Nat) :
    ∀ v, 0 < v → v < 256 ^ w → ∃ i, i < w ∧ byte_at v i ≠ 0 := by
  induction w with
  | zero =>
    intro v h1 h2
    simp at h2
    omega
  | succ w ih =>
    intro v h1 h2
    by_cases h0 : v % 256 = 0
    · have hq : 0 < v / 256 := by omega
      have hlt : v / 256 < 256 ^ w := by
        rw [Nat.div_lt_iff_lt_mul (by norm_num)]
        rw [pow_succ] at h2
        exact h2
      obtain ⟨i, hi, hb⟩ := ih (v / 256) hq hlt
      refine ⟨i + 1, by omega, ?_⟩
      unfold byte_at at hb ⊢
      rw [pow_succ, Nat.mul_comm, ← Nat.div_div_eq_div_mul]
      exact hb
    · exact ⟨0, by omega, by simpa [byte_at] using h0⟩

end legacy

/-- Claim C34: the legacy `compare` returns `0`, `-1` or `+1` and nothing else;
`0` exactly when the `target_size` bytes agree; `-1` exactly when at the first
index where they differ the holder's byte is the smaller, `+1` exactly when it
is the larger; and its loop runs its body at most `target_size` times. -/
theorem C34_legacy_compare (abi : Abi) (d : legacy.delegate) (storage : Nat → Nat) :
    (d.compare abi storage = 0 ∨ d.compare abi storage = -1 ∨ d.compare abi storage = 1) ∧
    (d.compare abi storage = 0 ↔
      ∀ i, i < legacy.target_size abi → d.mp_target i = storage i) ∧
    (d.compare abi storage = -1 ↔
      ∃ j, j < legacy.target_size abi ∧ (∀ i, i < j → d.mp_target i = storage i) ∧
        d.mp_target j < storage j) ∧
    (d.compare abi storage = 1 ↔
      ∃ j, j < legacy.target_size abi ∧ (∀ i, i < j → d.mp_target i = storage i) ∧
        d.mp_target j > storage j) ∧
    legacy.compare_iterations d.mp_target storage (legacy.target_size abi) 0 ≤
      legacy.target_size abi := by
  unfold legacy.delegate.compare
  refine ⟨legacy.compare_from_range _ _ _ _, ?_, ?_, ?_, legacy.compare_iterations_le _ _ _ _⟩
  · rw [legacy.compare_from_eq_zero]
    constructor
    · intro h i hi
      exact h i (Nat.zero_le i) (by omega)
    · intro h i _ hi
      exact h i (by omega)
  · rw [legacy.compare_from_eq_neg]
    constructor
    · rintro ⟨j, _, h2, h3, h4⟩
      exact ⟨j, by omega, fun i hi => h3 i (Nat.zero_le i) hi, h4⟩
    · rintro ⟨j, h2, h3, h4⟩
      exact ⟨j, Nat.zero_le j, by omega, fun i _ hi => h3 i hi, h4⟩
  · rw [legacy.compare_from_eq_pos]
    constructor
    · rintro ⟨j, _, h2, h3, h4⟩
      exact ⟨j, by omega, fun i hi => h3 i (Nat.zero_le i) hi, h4⟩
    · rintro ⟨j, h2, h3, h4⟩
      exact ⟨j, Nat.zero_le j, by omega, fun i _ hi => h3 i hi, h4⟩

/-- Claim C35: the six relational operators of the legacy header on any
delegates `a`, `b`, `c`: at least one and no two of `a < b`, `a == b`, `a > b`
hold; `a < b` is `b > a`; `a <= b` is `a < b || a == b`; `a >= b` is
`a > b || a == b`; `a != b` is `!(a == b)`; `<` is transitive; `a == b` is
`b == a`, and holds when both `a <= b` and `b <= a`. -/
theorem C35_legacy_total_order (abi : Abi) (a b c : legacy.delegate) :
    (a.lt abi b = true ∨ a.eq abi b = true ∨ a.gt abi b = true) ∧
    ¬ (a.lt abi b = true ∧ a.eq abi b = true) ∧
    ¬ (a.lt abi b = true ∧ a.gt abi b = true) ∧
    ¬ (a.eq abi b = true ∧ a.gt abi b = true) ∧
    a.lt abi b = b.gt abi a ∧
    a.le abi b = (a.lt abi b || a.eq abi b) ∧
    a.ge abi b = (a.gt abi b || a.eq abi b) ∧
    a.ne abi b = !(a.eq abi b) ∧
    (a.lt abi b = true → b.lt abi c = true → a.lt abi c = true) ∧
    a.eq abi b = b.eq abi a ∧
    (a.le abi b = true → b.le abi a = true → a.eq abi b = true) := by
  have hr := legacy.compare_from_range a.mp_target b.mp_target (legacy.target_size abi) 0
  have hsw := legacy.compare_from_swap a.mp_target b.mp_target (legacy.target_size abi) 0
  have hsw2 := legacy.compare_from_swap b.mp_target a.mp_target (legacy.target_size abi) 0
  have hr2 := legacy.compare_from_range b.mp_target a.mp_target (legacy.target_size abi) 0
  have hz : legacy.compare_from a.mp_target b.mp_target (legacy.target_size abi) 0 = 0 ↔
      legacy.compare_from b.mp_target a.mp_target (legacy.target_size abi) 0 = 0 := by
    rw [legacy.compare_from_eq_zero, legacy.compare_from_eq_zero]
    constructor
    · intro h i h1 h2
      exact (h i h1 h2).symm
    · intro h i h1 h2
      exact (h i h1 h2).symm
  simp only [legacy.delegate.lt, legacy.delegate.eq, legacy.delegate.gt, legacy.delegate.le,
    legacy.delegate.ge, legacy.delegate.ne, legacy.delegate.compare, beq_iff_eq,
    Bool.or_eq_true]
  refine ⟨?_, ?_, ?_, ?_, ?_, ?_, ?_, ?_, ?_, ?_, ?_⟩
  · rcases hr with h | h | h
    · exact Or.inr (Or.inl h)
    · exact Or.inl h
    · exact Or.inr (Or.inr h)
  · rintro ⟨h1, h2⟩
    omega
  · rintro ⟨h1, h2⟩
    omega
  · rintro ⟨h1, h2⟩
    omega
  · rw [Bool.eq_iff_iff]
    simp only [beq_iff_eq]
    exact hsw
  · trivial
  · trivial
  · simp [bne]
  · intro h1 h2
    exact legacy.compare_from_trans _ _ _ _ _ h1 h2
  · rw [Bool.eq_iff_iff]
    simp only [beq_iff_eq]
    exact hz
  · intro h1 h2
    rcases h1 with h1 | h1
    · rcases h2 with h2 | h2
      · have := hsw.mp h1
        omega
      · have := hz.mpr h2
        omega
    · exact h1

section
variable {A R E : Type}

/-- Claim C36: for every legacy delegate `s`, the copy-constructed delegate
and the delegate copy-assigned from `s`, to any delegate at another address or
to `s` itself, have the bytes and the invoker of `s`: they compare equal to `s`
in both orders, order against any third delegate as `s` does, have its null
status, and a call of them ends as the call of `s` ends; the copy takes `s` by
reference to const, and a self-assignment returns the delegate as it was. -/
theorem C36_legacy_copy (Γ : legacy.Env A R E) (s this x : legacy.delegate)
    (this_addr other_addr : Nat) (args : A)
    (hself : this_addr = other_addr → this = s) :
    (∀ c ∈ [legacy.delegate.ctor_copy Γ.abi s,
            legacy.delegate.assign_copy Γ.abi this_addr other_addr this s,
            legacy.delegate.assign_copy Γ.abi this_addr this_addr s s],
      (∀ i, i < legacy.target_size Γ.abi → c.mp_target i = s.mp_target i) ∧
      c.mp_invoker = s.mp_invoker ∧
      c.eq Γ.abi s = true ∧ s.eq Γ.abi c = true ∧
      c.compare Γ.abi x.mp_target = s.compare Γ.abi x.mp_target ∧
      x.compare Γ.abi c.mp_target = x.compare Γ.abi s.mp_target ∧
      c.to_bool = s.to_bool ∧ c.eq_nullptr = s.eq_nullptr ∧ c.ne_nullptr = s.ne_nullptr ∧
      (c.call Γ args : Invocation R E) = s.call Γ args) ∧
    legacy.delegate.assign_copy Γ.abi this_addr this_addr s s = s := by
  have key : ∀ c : legacy.delegate,
      (∀ i, i < legacy.target_size Γ.abi → c.mp_target i = s.mp_target i) →
      c.mp_invoker = s.mp_invoker →
      (∀ i, i < legacy.target_size Γ.abi → c.mp_target i = s.mp_target i) ∧
      c.mp_invoker = s.mp_invoker ∧
      c.eq Γ.abi s = true ∧ s.eq Γ.abi c = true ∧
      c.compare Γ.abi x.mp_target = s.compare Γ.abi x.mp_target ∧
      x.compare Γ.abi c.mp_target = x.compare Γ.abi s.mp_target ∧
      c.to_bool = s.to_bool ∧ c.eq_nullptr = s.eq_nullptr ∧ c.ne_nullptr = s.ne_nullptr ∧
      (c.call Γ args : Invocation R E) = s.call Γ args := by
    intro c hb hinv
    have hcmp : ∀ (p q p2 q2 : Nat → Nat),
        (∀ i, i < legacy.target_size Γ.abi → p i = p2 i) →
        (∀ i, i < legacy.target_size Γ.abi → q i = q2 i) →
        legacy.compare_from p q (legacy.target_size Γ.abi) 0 =
          legacy.compare_from p2 q2 (legacy.target_size Γ.abi) 0 := by
      intro p q p2 q2 hp hq
      rcases legacy.compare_from_range p q (legacy.target_size Γ.abi) 0 with h | h | h
      · rw [h]
        symm
        rw [legacy.compare_from_eq_zero] at h ⊢
        intro i h1 h2
        rw [← hp i (by omega), ← hq i (by omega)]
        exact h i h1 h2
      · rw [h]
        symm
        rw [legacy.compare_from_eq_neg] at h ⊢
        obtain ⟨j, j1, j2, j3, j4⟩ := h
        refine ⟨j, j1, j2, ?_, ?_⟩
        · intro i h1 h2
          rw [← hp i (by omega), ← hq i (by omega)]
          exact j3 i h1 h2
        · rw [← hp j (by omega), ← hq j (by omega)]
          exact j4
      · rw [h]
        symm
        rw [legacy.compare_from_eq_pos] at h ⊢
        obtain ⟨j, j1, j2, j3, j4⟩ := h
        refine ⟨j, j1, j2, ?_, ?_⟩
        · intro i h1 h2
          rw [← hp i (by omega), ← hq i (by omega)]
          exact j3 i h1 h2
        · rw [← hp j (by omega), ← hq j (by omega)]
          exact j4
    refine ⟨hb, hinv, ?_, ?_, ?_, ?_, ?_, ?_, ?_, ?_⟩
    · rw [legacy.delegate.eq_iff]
      exact hb
    · rw [legacy.delegate.eq_iff]
      intro i hi
      exact (hb i hi).symm
    · exact hcmp _ _ _ _ hb (fun _ _ => rfl)
    · exact hcmp _ _ _ _ (fun _ _ => rfl) hb
    · simp [legacy.delegate.to_bool, hinv]
    · simp [legacy.delegate.eq_nullptr, hinv]
    · simp [legacy.delegate.ne_nullptr, hinv]
    · unfold legacy.delegate.call
      rw [hinv, legacy.read_congr c.mp_target s.mp_target _ hb]
  have hss : legacy.delegate.assign_copy Γ.abi this_addr this_addr s s = s := by
    simp [legacy.delegate.assign_copy]
  refine ⟨?_, hss⟩
  intro c hc
  simp only [List.mem_cons, List.mem_singleton, List.not_mem_nil, or_false] at hc
  rcases hc with h | h | h
  · subst h
    apply key
    · intro i hi
      simp [legacy.delegate.ctor_copy, legacy.copy_from_apply, hi]
    · rfl
  · subst h
    by_cases ha : this_addr = other_addr
    · have ht := hself ha
      subst ht
      have hr : legacy.delegate.assign_copy Γ.abi this_addr other_addr this this = this := by
        simp [legacy.delegate.assign_copy, ha]
      rw [hr]
      exact key this (fun _ _ => rfl) rfl
    · apply key
      · intro i hi
        simp [legacy.delegate.assign_copy, ha, legacy.copy_from_apply, hi]
      · simp [legacy.delegate.assign_copy, ha]
  · subst h
    rw [hss]
    exact key s (fun _ _ => rfl) rfl

end

/-- A legacy delegate built from a null function pointer, or from a null
pointer to a function object, has all bytes zero. -/
theorem legacy.ctor_null_pointer_bytes (abi : Abi) (cls i : Nat) :
    (legacy.delegate.ctor_function abi 0).mp_target i = 0 ∧
    (legacy.delegate.ctor_functor abi cls 0).mp_target i = 0 := by
  simp only [legacy.delegate.ctor_function, legacy.delegate.ctor_functor,
    legacy.delegate.ctor, legacy.store_bytes, legacy.byte_at_zero]
  constructor <;> split_ifs <;> rfl

/-- Claim C37 against the code, for every ABI: the delegate built by the public
constructor `delegate(_ResT(*)(_ArgTs...))` from a null function pointer, and
the one built by `delegate(_Class *)` from a null pointer, compare equal to a
default-constructed delegate, in both orders, and yet are not null: the boolean
test is `true` and `== nullptr` is `false`, while the default-constructed
delegate is null. -/
theorem C37_null_pointer_delegate_not_null (abi : Abi) (cls : Nat) :
    (legacy.delegate.ctor_function abi 0).eq abi legacy.delegate.ctor = true ∧
    legacy.delegate.ctor.eq abi (legacy.delegate.ctor_function abi 0) = true ∧
    (legacy.delegate.ctor_function abi 0).to_bool = true ∧
    (legacy.delegate.ctor_function abi 0).eq_nullptr = false ∧
    (legacy.delegate.ctor_functor abi cls 0).eq abi legacy.delegate.ctor = true ∧
    (legacy.delegate.ctor_functor abi cls 0).to_bool = true ∧
    (legacy.delegate.ctor_functor abi cls 0).eq_nullptr = false ∧
    legacy.delegate.ctor.to_bool = false ∧ legacy.delegate.ctor.eq_nullptr = true := by
  refine ⟨?_, ?_, rfl, rfl, ?_, rfl, rfl, rfl, rfl⟩
  · rw [legacy.delegate.eq_iff]
    intro i _
    exact (legacy.ctor_null_pointer_bytes abi cls i).1
  · rw [legacy.delegate.eq_iff]
    intro i _
    exact ((legacy.ctor_null_pointer_bytes abi cls i).1).symm
  · rw [legacy.delegate.eq_iff]
    intro i _
    exact (legacy.ctor_null_pointer_bytes abi cls i).2

/-- Where the claim of C37 does hold: a null legacy delegate, however it was
reached, that has all bytes zero compares equal to a default-constructed one,
which the null constructors and `operator=(nullptr_type)` ensure; and a
delegate built from a non-null function pointer that fits its width is not
null and does not compare equal to a default-constructed one. -/
theorem legacy.emptiness_agrees_for_non_null_function (abi : Abi) (d : legacy.delegate)
    (function : Nat) (hf : 0 < function) (hw : function < 256 ^ abi.fnptr_size)
    (hfit : abi.fnptr_size ≤ legacy.target_size abi) :
    legacy.delegate.ctor_nullptr.eq abi legacy.delegate.ctor = true ∧
    (legacy.delegate.assign_nullptr abi d).eq abi legacy.delegate.ctor = true ∧
    (legacy.delegate.assign_nullptr abi d).to_bool = false ∧
    (legacy.delegate.ctor_function abi function).eq abi legacy.delegate.ctor = false ∧
    (legacy.delegate.ctor_function abi function).to_bool = true := by
  refine ⟨?_, ?_, rfl, ?_, rfl⟩
  · rw [legacy.delegate.eq_iff]
    intro i _
    rfl
  · rw [legacy.delegate.eq_iff]
    intro i hi
    simp [legacy.delegate.assign_nullptr, legacy.fill_from_apply, legacy.delegate.ctor, hi]
  · rw [Bool.eq_false_iff]
    intro h
    rw [legacy.delegate.eq_iff] at h
    obtain ⟨i, hi, hb⟩ := legacy.byte_at_nonzero abi.fnptr_size function hf hw
    have hle : abi.fnptr_size ≤ legacy.instance_offset abi abi.fnptr_size :=
      le_round_up _ _
    have := h i (by omega)
    simp only [legacy.delegate.ctor_function, legacy.delegate.ctor, legacy.store_bytes] at this
    have h1 : ¬ (legacy.instance_offset abi abi.fnptr_size ≤ i ∧
        i < legacy.instance_offset abi abi.fnptr_size + abi.ptr_size) := by omega
    have h2 : 0 ≤ i ∧ i < 0 + abi.fnptr_size := by omega
    simp only [h1, h2, if_false, if_true, and_self, Nat.sub_zero] at this
    exact hb this

/-! ## The statements at the fixtures of the test suite -/

/-- C2 at the test `ThrowOnAssignment`: `fn2` holds `functor_noexcept<large_t>{ 10 }`
and is assigned a `functor_throw_on_move`; afterwards it still returns `23` for
the argument `10` and equals a holder built from `functor_noexcept<large_t>{ 10 }`. -/
theorem C2_failed_assignment_keeps_target_witness :
    demo_large.valid demo_env demo_large_world = true ∧ demo_large.to_bool = true ∧
    demo_large_world.oracle demo_large_world.calls = AllocReply.block ∧
    demo_env.move_raises (Obj.obj 3 0) = some 7 ∧
    (delegate.assign_value demo_env demo_large (Obj.obj 3 0) demo_large_world).1 = some 7 ∧
    (delegate.assign_value demo_env demo_large (Obj.obj 3 0) demo_large_world).2.1 =
      demo_large ∧
    (delegate.call demo_env demo_contract
        (delegate.assign_value demo_env demo_large (Obj.obj 3 0) demo_large_world).2.1
        (delegate.assign_value demo_env demo_large (Obj.obj 3 0) demo_large_world).2.2
        (10 : Int)).1 =
      (delegate.call demo_env demo_contract demo_large demo_large_world (10 : Int)).1 ∧
    (delegate.call demo_env demo_contract demo_large demo_large_world (10 : Int)).1 =
      Invocation.returned 23 ∧
    (delegate.ctor_value demo_env (Obj.obj 1 10)
        (delegate.assign_value demo_env demo_large (Obj.obj 3 0) demo_large_world).2.2).1 =
      Except.ok { data_ := storage.address 3, call_ := some (Ty.cls 1),
                  vptr_ := some (Ty.cls 1) } ∧
    delegate.eq demo_env
        (delegate.ctor_value demo_env (Obj.obj 1 10)
          (delegate.assign_value demo_env demo_large (Obj.obj 3 0) demo_large_world).2.2).2
        (delegate.assign_value demo_env demo_large (Obj.obj 3 0) demo_large_world).2.1
        { data_ := storage.address 3, call_ := some (Ty.cls 1), vptr_ := some (Ty.cls 1) } =
      true :=
  have h := C2_failed_assignment_keeps_target demo_env demo_contract demo_large_world demo_large
    (Obj.obj 3 0) 7 (by decide) (by decide) rfl rfl
  ⟨by decide, by decide, rfl, rfl, h.1, h.2.1, h.2.2.2.2.2.1 10, by decide, rfl,
    (h.2.2.2.2.2.2 (Ty.cls 1) (Obj.obj 1 10) _ _ rfl rfl (by decide) rfl rfl).1⟩

/-- C3 at the test `SmallFunctor`: `fn4{ std::move(fn3) }`. -/
theorem C3_move_construct_witness :
    demo_small.call_ = demo_small.vptr_ ∧
    (delegate.ctor_move demo_env demo_small demo_world).2.1.to_bool = false ∧
    (delegate.ctor_move demo_env demo_small demo_world).1.to_bool = true ∧
    (delegate.call demo_env demo_contract (delegate.ctor_move demo_env demo_small demo_world).1
        (delegate.ctor_move demo_env demo_small demo_world).2.2 (10 : Int)).1 =
      (delegate.call demo_env demo_contract demo_small demo_world (10 : Int)).1 :=
  have h := (C3_move_construct demo_env demo_contract demo_world demo_small rfl).2.2.1
    (by decide)
  ⟨rfl, h.1, h.2.1, h.2.2.2.2 10⟩

/-- C4 at the test `SmallFunctor`: `fn9 = func_ptr_null`. -/
theorem C4_assign_null_function_pointer_witness :
    demo_small.to_bool = true ∧
    delegate.assign_fn demo_env demo_contract demo_small 0 demo_world =
      (demo_small, demo_world) ∧
    (delegate.assign_value demo_env demo_small (Obj.fp 1 0) demo_world).2 =
      (demo_small, demo_world) :=
  have h := (C4_assign_null_function_pointer demo_env demo_contract demo_world demo_small 1
    (by decide)).2
  ⟨by decide, (h _ (List.mem_cons_self _ _)).1,
    (h _ (List.mem_cons_of_mem _ (List.mem_cons_self _ _))).1⟩

/-- C5 at the test `Compare`: a holder of `functor_no_comparison` against itself. -/
theorem C5_no_equality_never_equal_witness :
    demo_no_comparison.vptr_ = some (Ty.cls 2) ∧
    demo_env.is_equality_comparable_v (Ty.cls 2) = false ∧
    delegate.eq demo_env demo_no_comparison_world demo_no_comparison demo_no_comparison =
      false :=
  ⟨rfl, by decide,
    (C5_no_equality_never_equal demo_env demo_no_comparison_world demo_no_comparison
      demo_no_comparison (Ty.cls 2) rfl (by decide)).1⟩

/-- C6 at the test `Compare`: two holders of `functor_noexcept<large_t>{ 10 }`. -/
theorem C6_equality_follows_values_witness :
    (Obj.obj 1 10 : Obj Int).ty = (Obj.obj 1 10 : Obj Int).ty ∧
    demo_env.is_equality_comparable_v (Obj.obj 1 10 : Obj Int).ty = true ∧
    (∀ n, demo_world.oracle n ≠ AllocReply.null) ∧
    delegate.ctor_value demo_env (Obj.obj 1 10) demo_world =
      (Except.ok demo_large, demo_large_world) ∧
    delegate.eq demo_env
        (delegate.ctor_value demo_env (Obj.obj 1 10) demo_large_world).2 demo_large
        { data_ := storage.address 2, call_ := some (Ty.cls 1), vptr_ := some (Ty.cls 1) } =
      demo_env.equals (Obj.obj 1 10) (Obj.obj 1 10) ∧
    demo_env.equals (Obj.obj 1 10) (Obj.obj 1 10) = true :=
  ⟨rfl, by decide, fun _ h => AllocReply.noConfusion h, rfl,
    (C6_equality_follows_values demo_env demo_world demo_large_world _ (Obj.obj 1 10)
      (Obj.obj 1 10) demo_large _ rfl (by decide) (fun _ h => AllocReply.noConfusion h)
      rfl rfl).1,
    by decide⟩

/-- C7 at the test `CallFunction`: `function_noexcept` called with `10`. -/
theorem C7_invoke_function_pointer_witness :
    (2 : Nat) ≠ 0 ∧
    (delegate.call demo_env demo_contract (delegate.ctor_fn demo_env demo_contract 2 demo_world).1
        (delegate.ctor_fn demo_env demo_contract 2 demo_world).2 (10 : Int)).1 =
      Invocation.of_except (demo_env.code 2 10) ∧
    Invocation.of_except (demo_env.code 2 10) = (Invocation.returned 23 : Invocation Int Nat) :=
  ⟨by decide,
    (C7_invoke_function_pointer demo_env demo_contract demo_world 2 1 (10 : Int) (by decide)).1,
    by decide⟩

/-- C8 at the test `Compare`: `function_noexcept` against `function_unique`. -/
theorem C8_function_pointer_equality_witness :
    (2 : Nat) ≠ 0 ∧ (3 : Nat) ≠ 0 ∧
    ¬ (delegate.eq demo_env
        (delegate.ctor_fn demo_env demo_contract 3
          (delegate.ctor_fn demo_env demo_contract 2 demo_world).2).2
        (delegate.ctor_fn demo_env demo_contract 2 demo_world).1
        (delegate.ctor_fn demo_env demo_contract 3
          (delegate.ctor_fn demo_env demo_contract 2 demo_world).2).1 = true) :=
  ⟨by decide, by decide, fun h =>
    absurd ((C8_function_pointer_equality demo_env demo_contract demo_world 2 3 1 (by decide)
      (by decide)).1.mp h) (by decide)⟩

/-- C9 at the test `CallLargeFunctor`: `functor_ref_except<large_t>{ 10 }` under
the contract `int(int) const &&`, called with `10`. -/
theorem C9_invoke_selects_overload_witness :
    ∃ (d : delegate Int) (W1 : World Int Nat),
      delegate.ctor_value demo_env (Obj.obj 6 10) demo_world = (Except.ok d, W1) ∧
      d.to_bool = true ∧
      (delegate.call demo_env demo_contract_const_rref d W1 (10 : Int)).1 =
        Invocation.returned 20 :=
  ⟨_, _, rfl, rfl,
    ((C9_invoke_selects_overload demo_env demo_contract_const_rref 6 (10 : Int)
      (10 : Int)).2.2.2 _ demo_world _ rfl rfl).trans (by decide)⟩

/-- C10 at the test `Empty`: `fn5 = std::move(fn6)` with `fn6` Empty, here into
a Holding `fn5`. -/
theorem C10_empty_holders_witness :
    (delegate.ctor : delegate Int).to_bool = false ∧
    (delegate.assign_move demo_env demo_small delegate.ctor demo_world).1.to_bool = false ∧
    (delegate.assign_move demo_env demo_small delegate.ctor demo_world).1.eq_nullptr = true ∧
    delegate.eq demo_env demo_world
      (delegate.assign_move demo_env demo_small delegate.ctor demo_world).1 delegate.ctor =
      true :=
  have h := (C10_empty_holders demo_env demo_contract demo_world delegate.ctor demo_small 1
    rfl).2.2 (delegate.assign_move demo_env demo_small delegate.ctor demo_world).1 (by simp)
  ⟨rfl, h.1, h.2.1, (h.2.2 demo_world delegate.ctor rfl).1⟩

/-- C13 at the test `SmallFunctor`: `fn1` against the Empty `fn0`. -/
theorem C13_holding_never_equals_empty_witness :
    demo_small.to_bool = true ∧ (delegate.ctor : delegate Int).to_bool = false ∧
    delegate.eq demo_env demo_world demo_small delegate.ctor = false ∧
    delegate.ne demo_env demo_world delegate.ctor demo_small = true :=
  have h := C13_holding_never_equals_empty demo_env demo_world demo_small delegate.ctor
    (by decide) (by decide)
  ⟨by decide, by decide, h.1, h.2.2.2⟩

/-- C14 at the test `Compare`: a small functor against a function. -/
theorem C14_different_types_never_equal_witness :
    demo_small.vptr_ = some (Ty.cls 0) ∧ demo_function.vptr_ = some (Ty.fnptr 0) ∧
    Ty.cls 0 ≠ Ty.fnptr 0 ∧
    delegate.eq demo_env demo_world demo_small demo_function = false ∧
    delegate.eq demo_env demo_world demo_function demo_small = false :=
  have h := C14_different_types_never_equal demo_env demo_world demo_small demo_function
    (Ty.cls 0) (Ty.fnptr 0) rfl rfl (by decide)
  ⟨rfl, rfl, by decide, h.1, h.2.1⟩

/-- C15 at a holder of `functor_noexcept<large_t>{ 10 }` that is move-assigned a
holder of `functor_noexcept<small_t>{ 10 }`: the block goes back first. -/
theorem C15_move_assign_witness :
    demo_large.valid demo_env demo_large_world = true ∧
    demo_small.valid demo_env demo_large_world = true ∧
    demo_large.block demo_env = some 1 ∧ demo_small.block demo_env = none ∧
    (delegate.assign_move demo_env demo_large demo_small demo_large_world).2.2.trace =
      demo_large_world.trace ++
        [Event.teardown (Ty.cls 1) (Place.block 1), Event.deallocate 1 48 8,
         Event.construct (Ty.cls 0) Place.buffer] ∧
    (delegate.assign_move demo_env demo_large demo_small demo_large_world).2.1.to_bool =
      false ∧
    (delegate.call demo_env demo_contract
        (delegate.assign_move demo_env demo_large demo_small demo_large_world).1
        (delegate.assign_move demo_env demo_large demo_small demo_large_world).2.2
        (10 : Int)).1 =
      (delegate.call demo_env demo_contract demo_small demo_large_world (10 : Int)).1 :=
  have h := C15_move_assign demo_env demo_contract demo_large_world demo_large demo_small
    (by decide) (by decide)
    (fun _ _ hb => Option.noConfusion ((rfl : demo_small.block demo_env = none) ▸ hb))
  ⟨by decide, by decide, rfl, rfl, h.1, h.2.2.2.2.1, h.2.2.2.2.2.2.2.2.2.1 10⟩

/-- C16 at the demo program: a holder of `functor_noexcept<large_t>{ 10 }` is
assigned `functor_noexcept<large_t>{ 11 }`. -/
theorem C16_assign_value_witness :
    demo_large.valid demo_env demo_large_world = true ∧
    (is_pointer_v (Obj.obj 1 11 : Obj Int).ty && (Obj.obj 1 11 : Obj Int).is_null) = false ∧
    demo_large_world.oracle demo_large_world.calls = AllocReply.block ∧
    demo_env.move_raises (Obj.obj 1 11) = none ∧
    (delegate.assign_value demo_env demo_large (Obj.obj 1 11) demo_large_world).2.1.to_bool =
      true ∧
    (delegate.assign_value demo_env demo_large (Obj.obj 1 11) demo_large_world).2.2.trace =
      demo_large_world.trace ++
        [Event.allocate 48 8 2, Event.construct (Ty.cls 1) (Place.block 2),
         Event.teardown (Ty.cls 1) (Place.block 1), Event.deallocate 1 48 8] ∧
    (delegate.call demo_env demo_contract
        (delegate.assign_value demo_env demo_large (Obj.obj 1 11) demo_large_world).2.1
        (delegate.assign_value demo_env demo_large (Obj.obj 1 11) demo_large_world).2.2
        (10 : Int)).1 = Invocation.returned 23 :=
  have h := C16_assign_value demo_env demo_contract demo_large_world demo_large (Obj.obj 1 11)
    (by decide) rfl (Or.inr ⟨rfl, rfl⟩)
  ⟨by decide, rfl, rfl, rfl, h.2.1, h.2.2.2.2.2.2.2.1 (by decide),
    (h.2.2.2.2.2.2.2.2.2.2.1 10).trans (by decide)⟩

/-- C17 at the demo program: `fn4 = nullptr` on a holder of a heap-placed functor. -/
theorem C17_assign_nullptr_witness :
    (delegate.assign_nullptr demo_env demo_large demo_large_world).1.to_bool = false ∧
    (delegate.assign_nullptr demo_env demo_large demo_large_world).2.trace =
      demo_large_world.trace ++
        [Event.teardown (Ty.cls 1) (Place.block 1), Event.deallocate 1 48 8] ∧
    (delegate.assign_nullptr demo_env demo_large demo_large_world).2.heap 1 = none :=
  have h := C17_assign_nullptr demo_env demo_large_world demo_large
  ⟨h.1, (h.2.2.2.2.2.2.2.1 (Ty.cls 1) 1 rfl (by decide) rfl).1,
    (h.2.2.2.2.2.2.2.1 (Ty.cls 1) 1 rfl (by decide) rfl).2.1⟩

/-- C18 at a memory resource that returns null: `functor_noexcept<large_t>{ 10 }`
gives the Empty holder. -/
theorem C18_construct_allocation_failure_witness :
    demo_env.is_internal_v (Obj.obj 1 10 : Obj Int).ty = false ∧
    null_world.oracle null_world.calls = AllocReply.null ∧
    (delegate.ctor_value demo_env (Obj.obj 1 10) null_world).1 = Except.ok delegate.ctor ∧
    (delegate.ctor_value demo_env (Obj.obj 1 10) null_world).2.trace =
      [Event.allocate 48 8 0] :=
  have h := (C18_construct_allocation_failure demo_env null_world (Obj.obj 1 10)
    (by decide)).1 rfl
  ⟨by decide, rfl, h.1, h.2.2.1⟩

/-- C19 at a memory resource that returns null: a holder of
`functor_noexcept<small_t>{ 10 }` assigned `functor_noexcept<large_t>{ 10 }`. -/
theorem C19_assign_allocation_failure_witness :
    demo_env.is_internal_v (Obj.obj 1 10 : Obj Int).ty = false ∧
    null_world.oracle null_world.calls ≠ AllocReply.block ∧
    (delegate.assign_value demo_env demo_small (Obj.obj 1 10) null_world).2.1 = demo_small ∧
    (delegate.assign_value demo_env demo_small (Obj.obj 1 10) null_world).1 = none ∧
    (delegate.assign_value demo_env demo_small (Obj.obj 1 10) null_world).2.2.trace =
      [Event.allocate 48 8 0] :=
  have h := C19_assign_allocation_failure demo_env demo_contract null_world demo_small
    (Obj.obj 1 10) (by decide) (fun q => AllocReply.noConfusion q)
  ⟨by decide, fun q => AllocReply.noConfusion q, h.1, (h.2.2.2.2.2.2.2.1 rfl).1,
    (h.2.2.2.2.2.2.2.1 rfl).2⟩

/-- C20 at the test fixtures: `functor_noexcept<small_t>` is inline and calls
`allocate` not at all, `functor_noexcept<large_t>` calls it once with `48`, `8`. -/
theorem C20_placement_and_allocation_witness :
    allocate_calls (delegate.ctor_value demo_env (Obj.obj 0 10) demo_world).2.trace = [] ∧
    allocate_calls (delegate.ctor_value demo_env (Obj.obj 1 10) demo_world).2.trace =
      [(48, 8)] :=
  ⟨(C20_placement_and_allocation demo_env demo_world demo_small (Obj.obj 0 10)
      (Ty.cls 0)).2.2.1.trans (by decide),
    (C20_placement_and_allocation demo_env demo_world demo_small (Obj.obj 1 10)
      (Ty.cls 0)).2.2.1.trans (by decide)⟩

/-- C21 at the test fixtures: a holder of `functor_noexcept<large_t>{ 10 }` is
invoked, and assigned `functor_noexcept<large_t>{ 11 }`. -/
theorem C21_pointers_set_together_witness :
    demo_large.consistent ∧ demo_small.consistent ∧
    (delegate.call demo_env demo_contract demo_large demo_large_world (10 : Int)).2.1.vptr_ =
      demo_large.vptr_ ∧
    (delegate.assign_value demo_env demo_large (Obj.obj 1 11) demo_large_world).2.1.consistent :=
  have h1 : demo_large.consistent := by simp [delegate.consistent, demo_large]
  have h2 : demo_small.consistent := by simp [delegate.consistent, demo_small]
  have h := C21_pointers_set_together demo_env demo_contract demo_large_world demo_large
    demo_small (Obj.obj 1 11) 2 (10 : Int) h1 h2
  ⟨h1, h2, h.2.2.1, h.2.2.2.2.1 _ (by simp)⟩

/-- C22 at the demo program: the block `3`, allocated for the replacement
target, was returned once when the program ended with both holders destroyed. -/
theorem C22_no_leak_no_double_free_witness :
    (∀ h ∈ (System.run demo_env demo_contract (System.init fun _ => AllocReply.block)
        demo_program).holders, h = none) ∧
    Event.allocate 48 8 3 ∈ (System.run demo_env demo_contract
      (System.init fun _ => AllocReply.block) demo_program).world.trace ∧
    dealloc_count (System.run demo_env demo_contract (System.init fun _ => AllocReply.block)
      demo_program).world.trace 3 = 1 :=
  ⟨by decide, by decide,
    (C22_no_leak_no_double_free demo_env demo_contract (fun _ => AllocReply.block) demo_program
      (by decide)).1 3 48 8 (by decide) (by decide)⟩

/-- C23 at the demo program: the block `1` of the first target went back with
the size `48` and the alignment `8` it was allocated with. -/
theorem C23_deallocate_repeats_allocate_witness :
    Event.deallocate 1 48 8 ∈ (System.run demo_env demo_contract
      (System.init fun _ => AllocReply.block) demo_program).world.trace ∧
    Event.allocate 48 8 1 ∈ (System.run demo_env demo_contract
      (System.init fun _ => AllocReply.block) demo_program).world.trace :=
  ⟨by decide,
    (C23_deallocate_repeats_allocate demo_env demo_contract (fun _ => AllocReply.block)
      demo_program 1 48 8 (by decide)).2.1⟩

/-- C24 with the default resource at address `99`: a first call `memory(5)`
fixes the resource `5`, and a later `memory(7)` returns `5`. -/
theorem C24_first_call_wins_witness :
    (5 : Nat) ≠ 0 ∧ (memory 99 5 none).1 = 5 ∧
    (memory 99 7 (memory 99 5 none).2).1 = 5 :=
  ⟨by decide, (C24_first_call_wins 99 5 [7]).2.1 (by decide),
    ((C24_first_call_wins 99 5 [7]).2.2.2.2.2 7 5).1⟩

/-- C25 at the test fixtures: a holder of `functor_noexcept<large_t>{ 10 }`
passes the assertion, a default-constructed holder fails it. -/
theorem C25_assertion_guards_invocation_witness :
    demo_large.consistent ∧ demo_large.to_bool = true ∧
    (delegate.call demo_env demo_contract demo_large demo_large_world (10 : Int)).1 ≠
      Invocation.assert_failed ∧
    (delegate.ctor : delegate Int).consistent ∧ (delegate.ctor : delegate Int).to_bool = false ∧
    delegate.call demo_env demo_contract delegate.ctor demo_world (10 : Int) =
      (Invocation.assert_failed, delegate.ctor, demo_world) :=
  have h1 : demo_large.consistent := by simp [delegate.consistent, demo_large]
  have h2 : (delegate.ctor : delegate Int).consistent := by
    simp [delegate.consistent, delegate.ctor]
  ⟨h1, rfl,
    ((C25_assertion_guards_invocation demo_env demo_contract demo_large_world demo_large
      (10 : Int) h1).1 rfl).2,
    h2, rfl,
    ((C25_assertion_guards_invocation demo_env demo_contract demo_world delegate.ctor
      (10 : Int) h2).2 rfl).2⟩

/-- C26 at the test `ThrowOnCall`: a holder of `functor_throw_on_call` is
invoked; the exception `9` reaches the caller and the holder is as it was. -/
theorem C26_invocation_keeps_holder_witness :
    ({ data_ := storage.inplace (Obj.obj 4 0), call_ := some (Ty.cls 4),
       vptr_ := some (Ty.cls 4) } : delegate Int).valid demo_env demo_world = true ∧
    (delegate.call demo_env demo_contract
      ({ data_ := storage.inplace (Obj.obj 4 0), call_ := some (Ty.cls 4),
         vptr_ := some (Ty.cls 4) } : delegate Int) demo_world (10 : Int)).1 =
      Invocation.raised 9 ∧
    (delegate.call demo_env demo_contract
      ({ data_ := storage.inplace (Obj.obj 4 0), call_ := some (Ty.cls 4),
         vptr_ := some (Ty.cls 4) } : delegate Int) demo_world (10 : Int)).2.1 =
      { data_ := storage.inplace (Obj.obj 4 0), call_ := some (Ty.cls 4),
        vptr_ := some (Ty.cls 4) } :=
  have h := C26_invocation_keeps_holder demo_env demo_contract demo_world
    ({ data_ := storage.inplace (Obj.obj 4 0), call_ := some (Ty.cls 4),
       vptr_ := some (Ty.cls 4) } : delegate Int) (Ty.cls 4) (Obj.obj 4 0) (10 : Int)
    (by decide) rfl (by decide)
  ⟨by decide, h.2.2.2.2.1 9 rfl, (h.2.2.2.2.2.2.2.2.2.2.2 rfl).1⟩

/-- C28 at the test `Swap`: a holder of a heap-placed functor and a holder of
an inline functor are swapped. -/
theorem C28_swap_exchanges_witness :
    demo_large.valid demo_env demo_large_world = true ∧
    demo_small.valid demo_env demo_large_world = true ∧
    (std_swap demo_env demo_large demo_small demo_large_world).1.vptr_ = demo_small.vptr_ ∧
    (std_swap demo_env demo_large demo_small demo_large_world).2.1.block demo_env =
      demo_large.block demo_env ∧
    (delegate.call demo_env demo_contract
        (std_swap demo_env demo_large demo_small demo_large_world).2.1
        (std_swap demo_env demo_large demo_small demo_large_world).2.2 (10 : Int)).1 =
      (delegate.call demo_env demo_contract demo_large demo_large_world (10 : Int)).1 :=
  have h := C28_swap_exchanges demo_env demo_large_world demo_large demo_small
    (by decide) (by decide)
  ⟨by decide, by decide, h.1.1, h.2.2.2.2.1.2, (h.2.2.2.2.2.2.2.1 demo_contract 10).2⟩

/-- C29 at the test fixtures: a holder of `functor_noexcept<large_t>{ 10 }` is
assigned `functor_noexcept<large_t>{ 11 }`, which is heap-placed. -/
theorem C29_assign_value_order_witness :
    demo_large.valid demo_env demo_large_world = true ∧ demo_large.to_bool = true ∧
    demo_env.is_internal_v (Obj.obj 1 11 : Obj Int).ty = false ∧
    (delegate.assign_value demo_env demo_large (Obj.obj 1 11) demo_large_world).2.2.trace =
      demo_large_world.trace ++
        [Event.allocate (demo_env.sizeof (Ty.cls 1)) (demo_env.alignof (Ty.cls 1))
           (demo_large_world.brk + 1),
         Event.construct (Ty.cls 1) (Place.block (demo_large_world.brk + 1))] ++
        expected_destroy_events demo_env demo_large :=
  have h := C29_assign_value_order demo_env demo_large_world demo_large (Obj.obj 1 11)
    (by decide) rfl rfl
  ⟨by decide, rfl, by decide, ((h.2.2 (by decide)).1 rfl rfl).2.2⟩

/-- C30 at the test fixtures: a holder of `functor_noexcept<large_t>{ 10 }`,
whose target lives in block `1`, is moved. -/
theorem C30_move_transfers_address_witness :
    demo_large.vptr_ = some (Ty.cls 1) ∧ demo_env.is_internal_v (Ty.cls 1) = false ∧
    demo_large.data_ = storage.address 1 ∧
    (delegate.ctor_move demo_env demo_large demo_large_world).2.2 = demo_large_world ∧
    (delegate.ctor_move demo_env demo_large demo_large_world).1.block demo_env = some 1 :=
  have h := C30_move_transfers_address demo_env demo_large_world demo_large demo_small
    (Ty.cls 1) 1 rfl (by decide) rfl
  ⟨rfl, by decide, rfl, congrArg (fun r => r.2.2) h.2.1, h.2.2.1⟩

/-- C31 at the test `Compare`: the functors of the test suite compare by
value, symmetrically, and a holder of `functor_noexcept<large_t>{ 10 }` compares
with a holder of `functor_noexcept<small_t>{ 10 }` the same in both orders. -/
theorem C31_equality_symmetric_witness :
    (∀ id eq v w, (demo_env.cls id).equals = some eq → eq v w = eq w v) ∧
    delegate.eq demo_env demo_large_world demo_large demo_small =
      delegate.eq demo_env demo_large_world demo_small demo_large ∧
    delegate.ne demo_env demo_large_world demo_large demo_small =
      !(delegate.eq demo_env demo_large_world demo_large demo_small) :=
  have hsym : ∀ id eq v w, (demo_env.cls id).equals = some eq → eq v w = eq w v := by
    intro id eq v w h
    simp only [demo_env, demo_cls] at h
    split at h <;> simp at h <;> subst h <;> simp [eq_comm]
  have h := C31_equality_symmetric demo_env demo_large_world demo_large demo_small hsym
  ⟨hsym, h.1, h.2.1⟩

/-- C36 at the demo program: a legacy delegate of `function_noexcept`, at
address `2`, is copied and copy-assigned to a default-constructed delegate. -/
theorem C36_legacy_copy_witness :
    ((0 : Nat) = 1 → legacy.delegate.ctor = legacy.delegate.ctor_function demo_abi 2) ∧
    (legacy.delegate.ctor_copy demo_abi (legacy.delegate.ctor_function demo_abi 2)).eq demo_abi
      (legacy.delegate.ctor_function demo_abi 2) = true ∧
    ((legacy.delegate.assign_copy demo_abi 0 1 legacy.delegate.ctor
        (legacy.delegate.ctor_function demo_abi 2)).call legacy.demo_env (10 : Int) :
      Invocation Int Nat) =
      (legacy.delegate.ctor_function demo_abi 2).call legacy.demo_env (10 : Int) ∧
    ((legacy.delegate.ctor_function demo_abi 2).call legacy.demo_env (10 : Int) :
      Invocation Int Nat) = Invocation.returned 23 :=
  have hself : (0 : Nat) = 1 → legacy.delegate.ctor = legacy.delegate.ctor_function demo_abi 2 :=
    fun h => absurd h (by decide)
  have h := C36_legacy_copy legacy.demo_env (legacy.delegate.ctor_function demo_abi 2)
    legacy.delegate.ctor legacy.delegate.ctor 0 1 (10 : Int) hself
  ⟨hself, (h.1 _ (List.mem_cons_self _ _)).2.2.1,
    (h.1 _ (List.mem_cons_of_mem _ (List.mem_cons_self _ _))).2.2.2.2.2.2.2.2.2, by decide⟩

/-- C38 at the test fixtures: `function_noexcept`, at address `2`, is assigned
to a holder of the heap-placed `functor_noexcept<large_t>{ 10 }`. -/
theorem C38_function_pointer_inline_witness :
    (2 : Nat) ≠ 0 ∧
    demo_env.is_internal_v demo_contract.fn_t = true ∧
    (delegate.assign_fn demo_env demo_contract demo_large 2 demo_large_world).1.data_ =
      storage.inplace (demo_contract.fn_obj 2) ∧
    (delegate.ctor_fn demo_env demo_contract 2 demo_world).1.data_ =
      storage.inplace (demo_contract.fn_obj 2) :=
  have h := C38_function_pointer_inline demo_env demo_contract demo_large_world demo_large 2
    (by decide)
  have h2 := C38_function_pointer_inline demo_env demo_contract demo_world demo_large 2
    (by decide)
  ⟨by decide, h.1, h.2.2.2.2.2.2.2.2.1, h2.2.2.2.2.2.2.1⟩

end vdk
